import Mathlib

/-!
# Outrunner BLDC designer: the motor calculator

A shallow embedding of `js/motor-calculator-js.js` (class `MotorCalculator`).

JavaScript numbers are modelled by `Num K`: a finite value of an ordered field `K`,
`+Infinity`, `-Infinity` or `NaN`. Arithmetic on finite values is exact (no rounding),
and the special values follow IEEE 754 as JavaScript does. The sign of zero is not
tracked: a zero divisor counts as `+0`.

The definitions are polymorphic in `K` and in the `Math` object (`JsMath K`), which
supplies `Math.PI`, `Math.pow` and `Math.sqrt`. The theorems are stated for the real
numbers, with `realMath`.

Objects whose fields are read by name (`config`, `motorParams`) are association lists
from field names to values; reading an absent field gives `undefined`.

Where rounding or overflow decides a property, the function is given a second time
over `Double`, whose operations round the exact result to the nearest IEEE 754 double
(section "Double-precision arithmetic"); the theorems on doubles are at the end.
-/

namespace BLDC

/-! ## Numbers -/

/-- JavaScript number: NaN, the two infinities, or a finite value. -/
inductive Num (K : Type) where
  | nan : Num K
  | ninf : Num K
  | pinf : Num K
  | fin (x : K) : Num K

namespace Num

variable {K : Type} [LinearOrderedField K]

instance instOfNatNum (n : Nat) : OfNat (Num K) n := ⟨fin (n : K)⟩

instance instOfScientificNum : OfScientific (Num K) :=
  ⟨fun m s e => fin (OfScientific.ofScientific m s e)⟩

instance instInhabitedNum : Inhabited (Num K) := ⟨nan⟩

/-- Unary minus. -/
def neg : Num K → Num K
  | nan => nan
  | ninf => pinf
  | pinf => ninf
  | fin a => fin (-a)

/-- Addition `a + b`. -/
def add : Num K → Num K → Num K
  | nan, _ => nan
  | ninf, nan => nan
  | ninf, pinf => nan
  | ninf, ninf => ninf
  | ninf, fin _ => ninf
  | pinf, nan => nan
  | pinf, ninf => nan
  | pinf, pinf => pinf
  | pinf, fin _ => pinf
  | fin _, nan => nan
  | fin _, ninf => ninf
  | fin _, pinf => pinf
  | fin a, fin b => fin (a + b)

/-- Subtraction `a - b`. -/
def sub (a b : Num K) : Num K := add a (neg b)

/-- Infinity with the sign of `s`, NaN when `s` is zero: the product of `+Infinity`
and the finite value `s`. -/
def infTimes (s : K) : Num K :=
  if s = 0 then nan else if 0 < s then pinf else ninf

/-- Multiplication `a * b`. -/
def mul : Num K → Num K → Num K
  | nan, _ => nan
  | ninf, nan => nan
  | ninf, ninf => pinf
  | ninf, pinf => ninf
  | ninf, fin b => infTimes (-b)
  | pinf, nan => nan
  | pinf, ninf => ninf
  | pinf, pinf => pinf
  | pinf, fin b => infTimes b
  | fin _, nan => nan
  | fin a, ninf => infTimes (-a)
  | fin a, pinf => infTimes a
  | fin a, fin b => fin (a * b)

/-- Division `a / b`. A finite non-zero value over zero is an infinity with the sign
of the numerator, and zero over zero is NaN. -/
def div : Num K → Num K → Num K
  | nan, _ => nan
  | ninf, nan => nan
  | ninf, ninf => nan
  | ninf, pinf => nan
  | ninf, fin b => if 0 ≤ b then ninf else pinf
  | pinf, nan => nan
  | pinf, ninf => nan
  | pinf, pinf => nan
  | pinf, fin b => if 0 ≤ b then pinf else ninf
  | fin _, nan => nan
  | fin _, ninf => fin 0
  | fin _, pinf => fin 0
  | fin a, fin b => if b = 0 then infTimes a else fin (a / b)

instance instNegNum : Neg (Num K) := ⟨neg⟩

instance instAddNum : Add (Num K) := ⟨add⟩

instance instSubNum : Sub (Num K) := ⟨sub⟩

instance instMulNum : Mul (Num K) := ⟨mul⟩

instance instDivNum : Div (Num K) := ⟨div⟩

/-- Comparison `a < b` as a boolean: false whenever an operand is NaN. -/
def blt : Num K → Num K → Bool
  | ninf, pinf => true
  | ninf, fin _ => true
  | fin _, pinf => true
  | fin a, fin b => decide (a < b)
  | _, _ => false

/-- Comparison `a <= b` as a boolean: false whenever an operand is NaN. -/
def ble : Num K → Num K → Bool
  | ninf, ninf => true
  | ninf, pinf => true
  | ninf, fin _ => true
  | pinf, pinf => true
  | fin _, pinf => true
  | fin a, fin b => decide (a ≤ b)
  | _, _ => false

instance instLTNum : LT (Num K) := ⟨fun a b => blt a b = true⟩

instance instLENum : LE (Num K) := ⟨fun a b => ble a b = true⟩

instance instDecidableLTNum (a b : Num K) : Decidable (a < b) :=
  inferInstanceAs (Decidable (blt a b = true))

instance instDecidableLENum (a b : Num K) : Decidable (a ≤ b) :=
  inferInstanceAs (Decidable (ble a b = true))

/-- The value is a finite number (neither NaN nor an infinity). -/
def isFinite : Num K → Bool
  | fin _ => true
  | _ => false

/-- The value is NaN. -/
def isNaN : Num K → Bool
  | nan => true
  | _ => false

end Num

/-! ## The `Math` object -/

/-- The part of the JavaScript `Math` object that is not field arithmetic. -/
structure JsMath (K : Type) where
  /-- The constant `Math.PI`. -/
  PI : Num K
  /-- The function `Math.pow(base, exponent)`. -/
  pow : Num K → Num K → Num K
  /-- The function `Math.sqrt(x)`. -/
  sqrt : Num K → Num K

namespace JsMath

variable {K : Type} [LinearOrderedField K]

/-- The function `Math.abs(x)`. -/
def abs (_ : JsMath K) : Num K → Num K
  | .nan => .nan
  | .ninf => .pinf
  | .pinf => .pinf
  | .fin a => .fin |a|

/-- The function `Math.min(a, b)`: NaN when an argument is NaN. -/
def min (_ : JsMath K) : Num K → Num K → Num K
  | .nan, _ => .nan
  | .ninf, .nan => .nan
  | .pinf, .nan => .nan
  | .fin _, .nan => .nan
  | a, b => if a ≤ b then a else b

/-- The function `Math.floor(x)`. -/
def floor [FloorRing K] (_ : JsMath K) : Num K → Num K
  | .fin a => .fin ((⌊a⌋ : ℤ) : K)
  | x => x

/-- The function `Math.round(x)`: the nearest integer, a tie going up. -/
def round [FloorRing K] (_ : JsMath K) : Num K → Num K
  | .fin a => .fin ((⌊a + 1 / 2⌋ : ℤ) : K)
  | x => x

end JsMath

/-! ## Values and objects -/

/-- JavaScript value as far as the calculator handles them: `undefined`, a string
or a number. -/
inductive Val (K : Type) where
  | undefined : Val K
  | str (s : String) : Val K
  | num (n : Num K) : Val K

/-- Conversion to a number where a value meets an arithmetic operator: `undefined`
becomes NaN, and so does a string (the only strings here are the winding names). -/
def Val.toNumber {K : Type} : Val K → Num K
  | .num n => n
  | _ => .nan

/-- Strict equality `v === s` with a string literal. -/
def Val.strictEqStr {K : Type} : Val K → String → Bool
  | .str t, s => t == s
  | _, _ => false

/-- Truthiness of a value in a condition. -/
def Val.truthy {K : Type} [LinearOrderedField K] : Val K → Bool
  | .undefined => false
  | .str s => s != ""
  | .num .nan => false
  | .num (.fin x) => x != 0
  | .num _ => true

/-- Object read by field name: association list from field names to values, the
first binding of a name being the one in force. -/
abbrev Obj (K : Type) := List (String × Val K)

/-- Field read `o.k`: `undefined` when the object has no such field. -/
def Obj.get {K : Type} (o : Obj K) (k : String) : Val K :=
  match o.lookup k with
  | some v => v
  | none => .undefined

/-- Field read `o.k` in an arithmetic position. -/
def Obj.num {K : Type} (o : Obj K) (k : String) : Num K := (o.get k).toNumber

/-- Object literal `{...o, k1: v1, ...}`: the listed fields override those of `o`. -/
def Obj.spread {K : Type} (o : Obj K) (fields : List (String × Val K)) : Obj K :=
  fields ++ o

/-! ## Sorting -/

section Sorting

variable {K : Type} [LinearOrderedField K] {α : Type}

/-- Insertion of `a` into a sorted list, before the first element that `a` does not
have to follow (`cmp a b > 0` means that `a` goes after `b`). -/
def insertSorted (cmp : α → α → Num K) (a : α) : List α → List α
  | [] => [a]
  | b :: l => if 0 < cmp a b then b :: insertSorted cmp a l else a :: b :: l

/-- The method `Array.prototype.sort(cmp)`: a stable sort, so elements that compare
equal (or whose comparison is NaN) keep their order. -/
def sort (cmp : α → α → Num K) : List α → List α
  | [] => []
  | a :: l => insertSorted cmp a (sort cmp l)

end Sorting

/-! ## The calculator -/

section Calculator

variable {K : Type} [LinearOrderedField K]

/-- Copper resistivity in ohm metres at 20 degrees Celsius. -/
def COPPER_RESISTIVITY : Num K := 1.68e-8

/-- Copper density in kilograms per cubic metre. -/
def COPPER_DENSITY : Num K := 8960

/-- Flux density of N42 magnets in tesla. -/
def NEODYMIUM_FLUX_DENSITY : Num K := 1.2

/-- Permeability of air in henry per metre. -/
def AIR_PERMEABILITY (Math : JsMath K) : Num K := 4 * Math.PI * 1e-7

/-- One entry of the slot-pole catalog. -/
def combination (slots poles : Num K) (winding : String) (lcm coggingFactor : Num K) :
    Obj K :=
  [("slots", .num slots), ("poles", .num poles), ("winding", .str winding),
   ("lcm", .num lcm), ("coggingFactor", .num coggingFactor)]

/-- Common slot-pole combinations for BLDC motors. -/
def SLOTS_POLES_COMBINATIONS : List (Obj K) :=
  [combination 12 14 "distributed" 84 7,
   combination 9 10 "concentrated" 90 10,
   combination 12 10 "distributed" 60 5,
   combination 24 22 "distributed" 264 11,
   combination 36 42 "distributed" 252 6,
   combination 9 8 "concentrated" 72 8,
   combination 9 12 "concentrated" 36 3,
   combination 15 14 "distributed" 210 14,
   combination 18 16 "distributed" 144 8,
   combination 18 20 "distributed" 180 10,
   combination 27 24 "distributed" 216 8,
   combination 21 22 "distributed" 462 22,
   combination 6 8 "concentrated" 24 2]

/-- Wire gauge table, AWG to diameter in millimetres. The keys are kept as numbers:
a number indexes the table through its decimal string, so a finite number finds an
entry exactly when it equals the entry's key. -/
def WIRE_GAUGE_TABLE : List (K × Num K) :=
  [(8, 3.264), (10, 2.588), (12, 2.053), (14, 1.628),
   (16, 1.291), (18, 1.024), (20, 0.812), (22, 0.644),
   (24, 0.511), (26, 0.405), (28, 0.321), (30, 0.255),
   (32, 0.202), (34, 0.160), (36, 0.127), (38, 0.101)]

/-- The read `this.WIRE_GAUGE_TABLE[awg]`. -/
def wireGaugeLookup (awg : Num K) : Val K :=
  match awg with
  | .fin x =>
    match WIRE_GAUGE_TABLE.lookup x with
    | some d => .num d
    | none => .undefined
  | _ => .undefined

/-- Result record of `calculateWireProperties`. -/
structure WireProperties (K : Type) where
  diameter : Num K
  area : Num K
  currentCapacity : Num K
  resistancePerMeter : Num K
  massPerMeter : Num K

/-- Wire properties from the wire diameter in millimetres. -/
def calculateWireProperties (Math : JsMath K) (wireDiameter : Num K) : WireProperties K :=
  let wireDiameterM := wireDiameter / 1000
  let wireArea := Math.PI * Math.pow (wireDiameterM / 2) 2
  let currentCapacity := wireArea * 5e6
  let resistancePerMeter := COPPER_RESISTIVITY / wireArea
  let massPerMeter := wireArea * COPPER_DENSITY
  { diameter := wireDiameter
    area := wireArea * 1e6
    currentCapacity := currentCapacity
    resistancePerMeter := resistancePerMeter
    massPerMeter := massPerMeter }

/-- Conversion of an AWG gauge to a wire diameter in millimetres. -/
def awgToDiameter (Math : JsMath K) (awg : Num K) : Num K :=
  if (wireGaugeLookup awg).truthy then
    (wireGaugeLookup awg).toNumber
  else
    0.127 * Math.pow 92 ((36 - awg) / 39)

/-- Body of the loop of `calculateConfiguration` for one catalog entry: the scored
configuration that is pushed, if the entry fits. -/
def scoreConfig (Math : JsMath K) (avgDiameter maxDiameter targetKv : Num K)
    (config : Obj K) : Option (Obj K) :=
  let minSlotPitch : Num K := 5
  let minDiameterNeeded := config.num "slots" * minSlotPitch / Math.PI
  if minDiameterNeeded ≤ maxDiameter then
    let polePitch := Math.PI * avgDiameter / config.num "poles"
    let coggingScore := config.num "lcm" / 100
    let kvSuitabilityScore := 1 - Math.abs (targetKv - 1000 / config.num "poles") / 2000
    let sizeScore := 1 - Math.abs (avgDiameter - minDiameterNeeded) / avgDiameter
    let totalScore := coggingScore * 0.4 + kvSuitabilityScore * 0.4 + sizeScore * 0.2
    some (config.spread [("polePitch", .num polePitch), ("score", .num totalScore)])
  else
    none

/-- Optimal slot-pole configuration for a diameter range and a target KV. -/
def calculateConfiguration (Math : JsMath K) (minDiameter maxDiameter targetKv : Num K) :
    Obj K :=
  let avgDiameter := (minDiameter + maxDiameter) / 2
  let suitableConfigs :=
    SLOTS_POLES_COMBINATIONS.filterMap (scoreConfig Math avgDiameter maxDiameter targetKv)
  let suitableConfigs := sort (fun a b => b.num "score" - a.num "score") suitableConfigs
  match suitableConfigs with
  | [] =>
    [("slots", .num 12), ("poles", .num 14), ("winding", .str "distributed"),
     ("polePitch", .num (Math.PI * avgDiameter / 14)), ("coggingFactor", .num 7)]
  | best :: _ => best

/-- Result record of `calculateCoilDimensions`. -/
structure CoilDimensions (K : Type) where
  statorInnerDiameter : Num K
  statorOuterDiameter : Num K
  slotWidth : Num K
  slotDepth : Num K
  slotArea : Num K
  turnsPerCoil : Num K
  maxTurnsPerCoil : Num K
  wireResistancePerMeter : Num K
  massPerMeter : Num K

/-- Coil dimensions and turns for a motor diameter, a configuration, a wire diameter
and a target KV. -/
def calculateCoilDimensions [FloorRing K] (Math : JsMath K) (motorDiameter : Num K)
    (config : Obj K) (wireDiameter targetKv : Num K) : CoilDimensions K :=
  let statorOuterDiameter := motorDiameter * 0.7
  let statorInnerDiameter := statorOuterDiameter * 0.5
  let slotCount := config.num "slots"
  let slotPitch := Math.PI * statorOuterDiameter / slotCount
  let slotWidth := slotPitch * 0.7
  let slotDepth := (statorOuterDiameter - statorInnerDiameter) / 2
  let slotInnerWidth := slotWidth * statorInnerDiameter / statorOuterDiameter
  let slotArea := (slotWidth + slotInnerWidth) / 2 * slotDepth
  let wireProps := calculateWireProperties Math wireDiameter
  let fillFactor : Num K := 0.45
  let wireAreaMm2 := wireProps.area
  let maxTurnsPerCoil := Math.floor (slotArea * fillFactor / wireAreaMm2)
  let fluxPerPole := NEODYMIUM_FLUX_DENSITY * 0.0001
  let turnsForTargetKv := 1 / (targetKv * fluxPerPole * config.num "poles" / 60)
  let turnsPerPhase :=
    if (config.get "winding").strictEqStr "distributed" then
      turnsForTargetKv / (config.num "slots" / 3)
    else
      turnsForTargetKv / (config.num "slots" / 3 * 2)
  let turnsPerCoil := Math.min maxTurnsPerCoil (Math.round turnsPerPhase)
  { statorInnerDiameter := statorInnerDiameter
    statorOuterDiameter := statorOuterDiameter
    slotWidth := slotWidth
    slotDepth := slotDepth
    slotArea := slotArea
    turnsPerCoil := turnsPerCoil
    maxTurnsPerCoil := maxTurnsPerCoil
    wireResistancePerMeter := wireProps.resistancePerMeter
    massPerMeter := wireProps.massPerMeter }

/-- Result record of `calculateMagnetParameters`. -/
structure MagnetParameters (K : Type) where
  rotorInnerDiameter : Num K
  rotorOuterDiameter : Num K
  polarAngle : Num K
  arcLength : Num K
  magnetWidth : Num K
  magnetHeight : Num K
  magnetGap : Num K

/-- Magnet dimensions for a motor diameter, a pole count and the requested magnet
width and height. -/
def calculateMagnetParameters (Math : JsMath K) (motorDiameter poleCount magnetWidth
    magnetHeight : Num K) : MagnetParameters K :=
  let rotorInnerDiameter := motorDiameter * 0.75
  let rotorOuterDiameter := motorDiameter
  let polarAngle := 360 / poleCount
  let arcLength := Math.PI * rotorInnerDiameter * polarAngle / 360
  let magnetGap := arcLength * 0.1
  let adjustedMagnetWidth := Math.min magnetWidth (arcLength - magnetGap)
  let rotorThickness := (rotorOuterDiameter - rotorInnerDiameter) / 2
  let adjustedMagnetHeight := Math.min magnetHeight (rotorThickness * 0.9)
  { rotorInnerDiameter := rotorInnerDiameter
    rotorOuterDiameter := rotorOuterDiameter
    polarAngle := polarAngle
    arcLength := arcLength
    magnetWidth := adjustedMagnetWidth
    magnetHeight := adjustedMagnetHeight
    magnetGap := magnetGap }

/-- Recommended airgap in millimetres for a motor diameter. -/
def calculateAirgap (motorDiameter : Num K) : Num K :=
  let baseAirgap : Num K := 0.5
  let diameterFactor := motorDiameter / 200
  baseAirgap + diameterFactor * 0.5

/-- KV rating in RPM per volt. The fourth parameter has the default value 1.2, which
applies when the argument is `undefined` (or left out). -/
def calculateKV (Math : JsMath K) (poleCount turnsPerCoil slotCount : Num K)
    (magnetStrengthArg : Val K) : Num K :=
  let magnetStrength : Num K :=
    match magnetStrengthArg with
    | .undefined => 1.2
    | v => v.toNumber
  let phasesCount : Num K := 3
  let turnsPerPhase := turnsPerCoil * (slotCount / phasesCount)
  let kvFactor : Num K := 1352
  kvFactor / (poleCount * Math.sqrt turnsPerPhase * (magnetStrength / 1.2))

/-- Estimated efficiency from the fields `poleCount`, `lcm`, `turnsPerCoil` and
`maxTurnsPerCoil` of the parameter object. -/
def calculateEfficiency (Math : JsMath K) (motorParams : Obj K) : Num K :=
  let efficiency : Num K := 0.82
  let efficiency := efficiency + (motorParams.num "poleCount" / 40) * 0.05
  let coggingFactor := motorParams.num "lcm" / 300
  let efficiency := efficiency + coggingFactor * 0.03
  let fillFactor := motorParams.num "turnsPerCoil" / motorParams.num "maxTurnsPerCoil"
  let efficiency := efficiency + fillFactor * 0.02
  Math.min 0.96 efficiency

/-- Input record of `calculateMotorDesign`. -/
structure Params (K : Type) where
  wireThickness : Num K
  magnetWidth : Num K
  magnetHeight : Num K
  magnetThickness : Num K
  minDiameter : Num K
  maxDiameter : Num K
  targetKV : Num K

/-- Result record of `calculateMotorDesign`. -/
structure MotorDesign (K : Type) where
  motorDiameter : Num K
  rotorDiameter : Num K
  rotorInnerDiameter : Num K
  statorOuterDiameter : Num K
  statorInnerDiameter : Num K
  airgap : Num K
  slotCount : Val K
  poleCount : Val K
  windingType : Val K
  lcm : Val K
  coggingFactor : Val K
  turnsPerCoil : Num K
  maxTurnsPerCoil : Num K
  wireDiameter : Num K
  magnetWidth : Num K
  magnetHeight : Num K
  magnetThickness : Num K
  magnetArcLength : Num K
  magnetGap : Num K
  estimatedKV : Num K
  targetKV : Num K
  kvDeviation : Num K
  efficiency : Num K
  phaseResistance : Num K
  estimatedWeight : Num K
  timestamp : String

/-- Main calculation: the complete motor design for the input parameters. The clock
reading `now` stands for `new Date().toISOString()`. -/
def calculateMotorDesign [FloorRing K] (Math : JsMath K) (now : String)
    (params : Params K) : MotorDesign K :=
  let wireThickness := params.wireThickness
  let magnetWidth := params.magnetWidth
  let magnetHeight := params.magnetHeight
  let magnetThickness := params.magnetThickness
  let minDiameter := params.minDiameter
  let maxDiameter := params.maxDiameter
  let targetKV := params.targetKV
  let optimalDiameter := (minDiameter + maxDiameter) / 2
  let config := calculateConfiguration Math minDiameter maxDiameter targetKV
  let coilDims := calculateCoilDimensions Math optimalDiameter config wireThickness targetKV
  let magnetParams :=
    calculateMagnetParameters Math optimalDiameter (config.num "poles") magnetWidth magnetHeight
  let airgap := calculateAirgap optimalDiameter
  let estimatedKV :=
    calculateKV Math (config.num "poles") coilDims.turnsPerCoil (config.num "slots") .undefined
  let efficiency :=
    calculateEfficiency Math
      (config.spread [("turnsPerCoil", .num coilDims.turnsPerCoil),
                      ("maxTurnsPerCoil", .num coilDims.maxTurnsPerCoil)])
  { motorDiameter := optimalDiameter
    rotorDiameter := magnetParams.rotorOuterDiameter
    rotorInnerDiameter := magnetParams.rotorInnerDiameter
    statorOuterDiameter := coilDims.statorOuterDiameter
    statorInnerDiameter := coilDims.statorInnerDiameter
    airgap := airgap
    slotCount := config.get "slots"
    poleCount := config.get "poles"
    windingType := config.get "winding"
    lcm := config.get "lcm"
    coggingFactor := config.get "coggingFactor"
    turnsPerCoil := coilDims.turnsPerCoil
    maxTurnsPerCoil := coilDims.maxTurnsPerCoil
    wireDiameter := wireThickness
    magnetWidth := magnetParams.magnetWidth
    magnetHeight := magnetParams.magnetHeight
    magnetThickness := magnetThickness
    magnetArcLength := magnetParams.arcLength
    magnetGap := magnetParams.magnetGap
    estimatedKV := estimatedKV
    targetKV := targetKV
    kvDeviation := Math.abs ((estimatedKV - targetKV) / targetKV * 100)
    efficiency := efficiency
    phaseResistance :=
      coilDims.wireResistancePerMeter * coilDims.turnsPerCoil * config.num "slots" / 3 * 0.2
    estimatedWeight :=
      (coilDims.massPerMeter * coilDims.turnsPerCoil * config.num "slots" * 0.2) +
        (magnetParams.magnetWidth * magnetParams.magnetHeight * magnetThickness *
          config.num "poles" * 7.5 / 1000)
    timestamp := now }

end Calculator

/-! ## The `Math` object over the real numbers -/

open Classical in
/-- The function `Math.pow` over the reals, with the special cases of the language
standard. A negative base has a power only for an integer exponent. -/
noncomputable def realPow : Num ℝ → Num ℝ → Num ℝ
  | _, .nan => .nan
  | b, .fin y =>
    if y = 0 then .fin 1 else
    match b with
    | .nan => .nan
    | .pinf => if 0 < y then .pinf else .fin 0
    | .ninf =>
      if 0 < y then (if ∃ n : ℤ, (n : ℝ) = y ∧ Odd n then .ninf else .pinf) else .fin 0
    | .fin x =>
      if 0 < x then .fin (x ^ y)
      else if x = 0 then (if 0 < y then .fin 0 else .pinf)
      else if ∃ n : ℤ, (n : ℝ) = y then .fin (x ^ (⌊y⌋ : ℤ))
      else .nan
  | b, .pinf =>
    match b with
    | .nan => .nan
    | .pinf => .pinf
    | .ninf => .pinf
    | .fin x => if 1 < |x| then .pinf else if |x| = 1 then .nan else .fin 0
  | b, .ninf =>
    match b with
    | .nan => .nan
    | .pinf => .fin 0
    | .ninf => .fin 0
    | .fin x => if 1 < |x| then .fin 0 else if |x| = 1 then .nan else .pinf

/-- The function `Math.sqrt` over the reals. -/
noncomputable def realSqrt : Num ℝ → Num ℝ
  | .nan => .nan
  | .ninf => .nan
  | .pinf => .pinf
  | .fin x => if x < 0 then .nan else .fin (Real.sqrt x)

/-- The `Math` object over the real numbers. -/
noncomputable def realMath : JsMath ℝ :=
  { PI := .fin Real.pi
    pow := realPow
    sqrt := realSqrt }

/-! ## Inputs of the test suite and statement-side definitions -/

section Statements

variable {K : Type} [LinearOrderedField K]

/-- The params record of the `calculateMotorDesign` tests. -/
def testParams : Params K :=
  { wireThickness := 0.8
    magnetWidth := 10
    magnetHeight := 15
    magnetThickness := 3
    minDiameter := 30
    maxDiameter := 40
    targetKV := 800 }

/-- The configuration object of the `calculateCoilDimensions` tests. -/
def testConfig : Obj K :=
  [("slots", .num 12), ("poles", .num 14), ("winding", .str "distributed")]

/-- The fit test of the specification: `slots * 5 / pi <= maxDiameter`. -/
def fitsDiameter (Math : JsMath K) (maxDiameter : Num K) (config : Obj K) : Prop :=
  config.num "slots" * 5 / Math.PI ≤ maxDiameter

instance instDecidableFitsDiameter (Math : JsMath K) (maxDiameter : Num K) (config : Obj K) :
    Decidable (fitsDiameter Math maxDiameter config) :=
  inferInstanceAs (Decidable (config.num "slots" * 5 / Math.PI ≤ maxDiameter))

/-- The total score as the specification words it:
`0.4 * (lcm / 100) + 0.4 * (1 - |targetKv - 1000 / poles| / 2000)
  + 0.2 * (1 - |avg - slots * 5 / pi| / avg)` with `avg = (minDiameter + maxDiameter) / 2`. -/
def specTotalScore (Math : JsMath K) (minDiameter maxDiameter targetKv : Num K)
    (config : Obj K) : Num K :=
  let avg := (minDiameter + maxDiameter) / 2
  0.4 * (config.num "lcm" / 100) +
    0.4 * (1 - Math.abs (targetKv - 1000 / config.num "poles") / 2000) +
    0.2 * (1 - Math.abs (avg - config.num "slots" * 5 / Math.PI) / avg)

/-- The scored configuration that `calculateConfiguration` returns for a catalog entry:
the entry with the fields `polePitch` and `score` added. -/
def scoredEntry (Math : JsMath K) (minDiameter maxDiameter targetKv : Num K)
    (config : Obj K) : Obj K :=
  config.spread
    [("polePitch", .num (Math.PI * ((minDiameter + maxDiameter) / 2) / config.num "poles")),
     ("score", .num (specTotalScore Math minDiameter maxDiameter targetKv config))]

/-- The fallback configuration as the specification words it. -/
def specFallback (Math : JsMath K) (minDiameter maxDiameter : Num K) : Obj K :=
  [("slots", .num 12), ("poles", .num 14), ("winding", .str "distributed"),
   ("polePitch", .num (Math.PI * ((minDiameter + maxDiameter) / 2) / 14)),
   ("coggingFactor", .num 7)]

/-- The value is a finite number greater than zero. -/
def Num.isPositive : Num K → Bool
  | .fin x => decide (0 < x)
  | _ => false

/-- The entry-point constraints on the params record: the seven fields are finite
numbers greater than zero, and `maxDiameter > minDiameter`. -/
def validParams (p : Params K) : Bool :=
  p.wireThickness.isPositive && p.magnetWidth.isPositive && p.magnetHeight.isPositive &&
    p.magnetThickness.isPositive && p.minDiameter.isPositive && p.maxDiameter.isPositive &&
    p.targetKV.isPositive && decide (p.minDiameter < p.maxDiameter)

/-- The params record of the tests with the target KV raised to 8000. -/
def highKvParams : Params K :=
  { wireThickness := 0.8
    magnetWidth := 10
    magnetHeight := 15
    magnetThickness := 3
    minDiameter := 30
    maxDiameter := 40
    targetKV := 8000 }

/-- A clock reading, for the evaluations at concrete inputs. -/
def testClock : String := "2025-01-01T00:00:00.000Z"

/-- The parameter record of the `calculateEfficiency` test. -/
def testMotorParams : Obj K :=
  [("poleCount", .num 14), ("lcm", .num 84), ("turnsPerCoil", .num 10),
   ("maxTurnsPerCoil", .num 20)]

/-- The params record of the tests with the wire thickness set to 0, an invalid
record. -/
def zeroWireParams : Params K :=
  { wireThickness := 0
    magnetWidth := 10
    magnetHeight := 15
    magnetThickness := 3
    minDiameter := 30
    maxDiameter := 40
    targetKV := 800 }

end Statements

/-! ## Double-precision arithmetic

The definitions above compute with exact values. JavaScript computes with IEEE 754
doubles: every operation returns the double nearest to the exact result, or an
infinity when that is out of range. This section defines that rounding over the
rational numbers, and gives again, over doubles, the functions for which rounding or
overflow decides a property: `calculateAirgap`, `calculateMagnetParameters`, the
working diameter of `calculateMotorDesign` and the stator diameters of
`calculateCoilDimensions`. -/

/-- Nearest integer, a tie going to the even one. -/
def roundHalfEven (q : ℚ) : ℤ :=
  if q - ⌊q⌋ < 1 / 2 then ⌊q⌋
  else if 1 / 2 < q - ⌊q⌋ then ⌊q⌋ + 1
  else if ⌊q⌋ % 2 = 0 then ⌊q⌋ else ⌊q⌋ + 1

/-- Number of halvings that bring `n` below 2, at most `fuel` of them: the position
of the leading bit of `n` when `fuel` is at least that. -/
def log2Fuel : Nat → Nat → Nat
  | 0, _ => 0
  | fuel + 1, n => if n < 2 then 0 else log2Fuel fuel (n / 2) + 1

/-- Binary exponent of a non-zero rational: the `e` with `2^e <= |x| < 2^(e+1)`,
found from the leading bits of the numerator and the denominator. -/
def binadeExponent (x : ℚ) : ℤ :=
  if (2 : ℚ) ^ ((log2Fuel x.num.natAbs x.num.natAbs : ℤ) - (log2Fuel x.den x.den : ℤ)) ≤
      |x| then
    (log2Fuel x.num.natAbs x.num.natAbs : ℤ) - (log2Fuel x.den x.den : ℤ)
  else
    (log2Fuel x.num.natAbs x.num.natAbs : ℤ) - (log2Fuel x.den x.den : ℤ) - 1

/-- Exponent of the spacing of the doubles around `x`: a significand of 53 bits, and
the spacing of the subnormal numbers below `2^(-1022)`. -/
def ulpExponent (x : ℚ) : ℤ := max (binadeExponent x) (-1022) - 52

/-- The multiple of the spacing nearest to `x`, a tie going to the even multiple. -/
def roundToGrid (x : ℚ) : ℚ :=
  (roundHalfEven (x / 2 ^ ulpExponent x) : ℚ) * 2 ^ ulpExponent x

/-- Rounding of an exact result to the nearest double, a tie going to the even
significand: an infinity once the rounded magnitude reaches `2^1024`. The sign of
zero is not tracked. -/
def toDouble (x : ℚ) : Num ℚ :=
  if (2 : ℚ) ^ (1024 : ℤ) ≤ roundToGrid x then .pinf
  else if roundToGrid x ≤ -(2 : ℚ) ^ (1024 : ℤ) then .ninf
  else .fin (roundToGrid x)

/-- Rounding of the result of an exact operation: infinities and NaN stay. -/
def Num.toDouble : Num ℚ → Num ℚ
  | .fin x => BLDC.toDouble x
  | v => v

/-- A number as the machine holds it: the operations on `Double` are the exact ones
followed by rounding to the nearest double, and a literal is rounded as well. -/
structure Double where
  /-- The value held. The literals and the operations give NaN, an infinity or a
  finite double; `Double.isDouble` says so of an arbitrary value. -/
  val : Num ℚ

namespace Double

instance instOfNatDouble (n : Nat) : OfNat Double n := ⟨⟨toDouble (n : ℚ)⟩⟩

instance instOfScientificDouble : OfScientific Double :=
  ⟨fun m s e => ⟨toDouble (OfScientific.ofScientific m s e)⟩⟩

instance instAddDouble : Add Double := ⟨fun a b => ⟨(a.val + b.val).toDouble⟩⟩

instance instSubDouble : Sub Double := ⟨fun a b => ⟨(a.val - b.val).toDouble⟩⟩

instance instMulDouble : Mul Double := ⟨fun a b => ⟨(a.val * b.val).toDouble⟩⟩

instance instDivDouble : Div Double := ⟨fun a b => ⟨(a.val / b.val).toDouble⟩⟩

instance instLTDouble : LT Double := ⟨fun a b => a.val < b.val⟩

instance instLEDouble : LE Double := ⟨fun a b => a.val ≤ b.val⟩

instance instDecidableLTDouble (a b : Double) : Decidable (a < b) :=
  inferInstanceAs (Decidable (a.val < b.val))

instance instDecidableLEDouble (a b : Double) : Decidable (a ≤ b) :=
  inferInstanceAs (Decidable (a.val ≤ b.val))

/-- The constant `Math.PI`, the double nearest to pi. -/
def PI : Double := 3.141592653589793

/-- The function `Math.min(a, b)` on doubles: NaN when an argument is NaN. -/
def min (a b : Double) : Double :=
  if a.val.isNaN || b.val.isNaN then ⟨.nan⟩ else if a ≤ b then a else b

/-- Strict equality `a === b` of two numbers: false when one of them is NaN. -/
def strictEq (a b : Double) : Bool := a.val.ble b.val && b.val.ble a.val

/-- The value is one that a double holds: rounding leaves it as it is. -/
def isDouble (a : Double) : Prop := a.val.toDouble = a.val

/-- Recommended airgap, in doubles. -/
def calculateAirgap (motorDiameter : Double) : Double :=
  let baseAirgap : Double := 0.5
  let diameterFactor := motorDiameter / 200
  baseAirgap + diameterFactor * 0.5

/-- Result record of `calculateMagnetParameters`, in doubles. -/
structure MagnetParameters where
  rotorInnerDiameter : Double
  rotorOuterDiameter : Double
  polarAngle : Double
  arcLength : Double
  magnetWidth : Double
  magnetHeight : Double
  magnetGap : Double

/-- Magnet dimensions, in doubles. -/
def calculateMagnetParameters (motorDiameter poleCount magnetWidth magnetHeight : Double) :
    MagnetParameters :=
  let rotorInnerDiameter := motorDiameter * 0.75
  let rotorOuterDiameter := motorDiameter
  let polarAngle := 360 / poleCount
  let arcLength := PI * rotorInnerDiameter * polarAngle / 360
  let magnetGap := arcLength * 0.1
  let adjustedMagnetWidth := min magnetWidth (arcLength - magnetGap)
  let rotorThickness := (rotorOuterDiameter - rotorInnerDiameter) / 2
  let adjustedMagnetHeight := min magnetHeight (rotorThickness * 0.9)
  { rotorInnerDiameter := rotorInnerDiameter
    rotorOuterDiameter := rotorOuterDiameter
    polarAngle := polarAngle
    arcLength := arcLength
    magnetWidth := adjustedMagnetWidth
    magnetHeight := adjustedMagnetHeight
    magnetGap := magnetGap }

/-- The working diameter of `calculateMotorDesign`, which the design returns as its
field `motorDiameter`, in doubles. -/
def optimalDiameter (minDiameter maxDiameter : Double) : Double :=
  (minDiameter + maxDiameter) / 2

/-- The field `statorOuterDiameter` of `calculateCoilDimensions`, in doubles. -/
def statorOuterDiameter (motorDiameter : Double) : Double :=
  motorDiameter * 0.7

/-- The field `statorInnerDiameter` of `calculateCoilDimensions`, in doubles. -/
def statorInnerDiameter (motorDiameter : Double) : Double :=
  statorOuterDiameter motorDiameter * 0.5

end Double

/-! ## Arithmetic lemmas -/

namespace Num

variable {K : Type} [LinearOrderedField K]

@[simp] theorem ofScientific_eq (m : ℕ) (s : Bool) (e : ℕ) :
    (OfScientific.ofScientific m s e : Num K) = fin (OfScientific.ofScientific m s e) := rfl

@[simp] theorem ofNat_eq (n : ℕ) : (OfNat.ofNat n : Num K) = fin (n : K) := rfl

@[simp] theorem fin_add_fin (a b : K) : (fin a + fin b : Num K) = fin (a + b) := rfl

@[simp] theorem fin_sub_fin (a b : K) : (fin a - fin b : Num K) = fin (a - b) := by
  show add (fin a) (neg (fin b)) = _
  simp [add, neg, sub_eq_add_neg]

@[simp] theorem fin_mul_fin (a b : K) : (fin a * fin b : Num K) = fin (a * b) := rfl

theorem fin_div_fin (a b : K) :
    (fin a / fin b : Num K) = if b = 0 then infTimes a else fin (a / b) := rfl

theorem fin_div_fin_of_ne (a : K) {b : K} (h : b ≠ 0) :
    (fin a / fin b : Num K) = fin (a / b) := by
  rw [fin_div_fin, if_neg h]

@[simp] theorem nan_add (a : Num K) : (nan + a : Num K) = nan := rfl

@[simp] theorem add_nan (a : Num K) : (a + nan : Num K) = nan := by
  cases a <;> rfl

@[simp] theorem nan_sub (a : Num K) : (nan - a : Num K) = nan := rfl

@[simp] theorem sub_nan (a : Num K) : (a - nan : Num K) = nan := by
  cases a <;> rfl

@[simp] theorem nan_mul (a : Num K) : (nan * a : Num K) = nan := rfl

@[simp] theorem mul_nan (a : Num K) : (a * nan : Num K) = nan := by
  cases a <;> rfl

@[simp] theorem nan_div (a : Num K) : (nan / a : Num K) = nan := rfl

@[simp] theorem div_nan (a : Num K) : (a / nan : Num K) = nan := by
  cases a <;> rfl

theorem fin_mul_ninf_of_pos {a : K} (h : 0 < a) : (fin a * ninf : Num K) = ninf := by
  show infTimes (-a) = ninf
  have h1 : ¬ (-a = 0) := by
    intro h0
    rw [neg_eq_zero] at h0
    exact absurd h0 (ne_of_gt h)
  have h2 : ¬ (0 < -a) := by
    rw [neg_pos]
    exact not_lt.mpr (le_of_lt h)
  simp only [infTimes, if_neg h1, if_neg h2]

@[simp] theorem fin_le_fin (a b : K) : (fin a ≤ fin b) ↔ a ≤ b := by
  show ble (fin a) (fin b) = true ↔ _
  simp [ble]

@[simp] theorem fin_lt_fin (a b : K) : (fin a < fin b) ↔ a < b := by
  show blt (fin a) (fin b) = true ↔ _
  simp [blt]

@[simp] theorem not_nan_le (a : Num K) : ¬ (nan ≤ a) := by
  show ¬ (ble nan a = true)
  simp [ble]

@[simp] theorem not_le_nan (a : Num K) : ¬ (a ≤ nan) := by
  show ¬ (ble a nan = true)
  cases a <;> simp [ble]

@[simp] theorem not_nan_lt (a : Num K) : ¬ (nan < a) := by
  show ¬ (blt nan a = true)
  simp [blt]

@[simp] theorem not_lt_nan (a : Num K) : ¬ (a < nan) := by
  show ¬ (blt a nan = true)
  cases a <;> simp [blt]

end Num

namespace JsMath

variable {K : Type} [LinearOrderedField K]

@[simp] theorem abs_fin (Math : JsMath K) (a : K) : Math.abs (.fin a) = .fin |a| := rfl

@[simp] theorem min_fin_fin (Math : JsMath K) (a b : K) :
    Math.min (.fin a) (.fin b) = .fin (Min.min a b) := by
  show (if (Num.fin a ≤ Num.fin b) then Num.fin a else Num.fin b) = _
  by_cases h : a ≤ b
  · simp [h]
  · have h2 : b ≤ a := le_of_lt (not_le.mp h)
    simp [h, h2]

@[simp] theorem min_nan_right (Math : JsMath K) (a : Num K) : Math.min a .nan = .nan := by
  cases a <;> rfl

@[simp] theorem min_nan_left (Math : JsMath K) (a : Num K) : Math.min .nan a = .nan := rfl

@[simp] theorem floor_fin [FloorRing K] (Math : JsMath K) (a : K) :
    Math.floor (.fin a) = .fin ((⌊a⌋ : ℤ) : K) := rfl

@[simp] theorem round_fin [FloorRing K] (Math : JsMath K) (a : K) :
    Math.round (.fin a) = .fin ((⌊a + 1 / 2⌋ : ℤ) : K) := rfl

end JsMath

@[simp] theorem realMath_PI : realMath.PI = .fin Real.pi := rfl

theorem realMath_pow_two (x : ℝ) : realMath.pow (.fin x) 2 = .fin (x ^ 2) := by
  show realPow (.fin x) (.fin ((2 : ℕ) : ℝ)) = _
  have h2 : ((2 : ℕ) : ℝ) ≠ 0 := by norm_num
  simp only [realPow, if_neg h2]
  rcases lt_trichotomy 0 x with h | h | h
  · rw [if_pos h, Real.rpow_natCast]
  · subst h
    simp
  · have hx : ¬ (0 < x) := not_lt.mpr (le_of_lt h)
    have hex : ∃ n : ℤ, (n : ℝ) = ((2 : ℕ) : ℝ) := ⟨2, by norm_num⟩
    rw [if_neg hx, if_neg (ne_of_lt h), if_pos hex]
    have hf : (⌊((2 : ℕ) : ℝ)⌋ : ℤ) = 2 := by
      rw [show ((2 : ℕ) : ℝ) = ((2 : ℤ) : ℝ) by norm_num, Int.floor_intCast]
    rw [hf]
    norm_cast

theorem realMath_sqrt_of_nonneg {x : ℝ} (h : 0 ≤ x) :
    realMath.sqrt (.fin x) = .fin (Real.sqrt x) := by
  show realSqrt (.fin x) = _
  simp [realSqrt, not_lt.mpr h]

/-! ## Diameters of the design -/

theorem calculateMotorDesign_motorDiameter (now : String) (p : Params ℝ) :
    (calculateMotorDesign realMath now p).motorDiameter =
      (p.minDiameter + p.maxDiameter) / 2 := rfl

theorem calculateMotorDesign_diameters (now : String) (p : Params ℝ) :
    (calculateMotorDesign realMath now p).statorInnerDiameter =
        (p.minDiameter + p.maxDiameter) / 2 * 0.7 * 0.5 ∧
      (calculateMotorDesign realMath now p).statorOuterDiameter =
        (p.minDiameter + p.maxDiameter) / 2 * 0.7 ∧
      (calculateMotorDesign realMath now p).rotorInnerDiameter =
        (p.minDiameter + p.maxDiameter) / 2 * 0.75 ∧
      (calculateMotorDesign realMath now p).rotorDiameter =
        (p.minDiameter + p.maxDiameter) / 2 :=
  ⟨rfl, rfl, rfl, rfl⟩

/-- In exact arithmetic: for params whose minDiameter and maxDiameter are numbers with
a positive sum, the design has statorInnerDiameter < statorOuterDiameter <
rotorInnerDiameter < rotorDiameter, and rotorDiameter equals motorDiameter. -/
theorem design_diameter_chain (now : String) (p : Params ℝ) (mn mx : ℝ)
    (hmin : p.minDiameter = .fin mn) (hmax : p.maxDiameter = .fin mx)
    (hpos : 0 < mn + mx) :
    (calculateMotorDesign realMath now p).statorInnerDiameter <
        (calculateMotorDesign realMath now p).statorOuterDiameter ∧
      (calculateMotorDesign realMath now p).statorOuterDiameter <
        (calculateMotorDesign realMath now p).rotorInnerDiameter ∧
      (calculateMotorDesign realMath now p).rotorInnerDiameter <
        (calculateMotorDesign realMath now p).rotorDiameter ∧
      (calculateMotorDesign realMath now p).rotorDiameter =
        (calculateMotorDesign realMath now p).motorDiameter := by
  obtain ⟨h1, h2, h3, h4⟩ := calculateMotorDesign_diameters now p
  rw [h1, h2, h3, h4, calculateMotorDesign_motorDiameter, hmin, hmax]
  have h2ne : ((2 : ℕ) : ℝ) ≠ 0 := by norm_num
  simp only [Num.fin_add_fin, Num.ofNat_eq, Num.fin_div_fin_of_ne _ h2ne, Num.ofScientific_eq,
    Num.fin_mul_fin, Num.fin_lt_fin]
  refine ⟨?_, ?_, ?_, trivial⟩ <;> norm_num <;> linarith

/-! ## Coil dimensions -/

theorem wireProperties_area (d : ℝ) :
    (calculateWireProperties realMath (.fin d)).area = .fin (Real.pi * d ^ 2 / 4) := by
  have h1000 : ((1000 : ℕ) : ℝ) ≠ 0 := by norm_num
  have h2 : ((2 : ℕ) : ℝ) ≠ 0 := by norm_num
  simp only [calculateWireProperties, realMath_PI, Num.ofNat_eq, Num.fin_div_fin_of_ne _ h1000,
    Num.fin_div_fin_of_ne _ h2]
  rw [show (Num.fin ((2 : ℕ) : ℝ)) = (2 : Num ℝ) from rfl, realMath_pow_two]
  simp only [Num.fin_mul_fin, Num.ofScientific_eq]
  congr 1
  norm_num
  ring

theorem coilDimensions_maxTurns (md s d : ℝ) (hmd : md ≠ 0) (hs : s ≠ 0) (hd : d ≠ 0)
    (config : Obj ℝ) (hcfg : config.num "slots" = .fin s) (kv : Num ℝ) :
    (calculateCoilDimensions realMath (.fin md) config (.fin d) kv).maxTurnsPerCoil =
      .fin ((⌊0.1157625 * md ^ 2 / (s * d ^ 2)⌋ : ℤ) : ℝ) := by
  have h2 : ((2 : ℕ) : ℝ) ≠ 0 := by norm_num
  have hpi := Real.pi_ne_zero
  have hsod : md * OfScientific.ofScientific 7 true 1 ≠ 0 := by
    apply mul_ne_zero hmd
    norm_num
  have harea : Real.pi * d ^ 2 / 4 ≠ 0 := by positivity
  show realMath.floor (_ / (calculateWireProperties realMath (.fin d)).area) = _
  rw [wireProperties_area, hcfg]
  simp only [realMath_PI, Num.ofNat_eq, Num.ofScientific_eq, Num.fin_mul_fin, Num.fin_sub_fin,
    Num.fin_add_fin, Num.fin_div_fin_of_ne _ h2, Num.fin_div_fin_of_ne _ hs,
    Num.fin_div_fin_of_ne _ hsod, Num.fin_div_fin_of_ne _ harea, JsMath.floor_fin]
  congr 3
  norm_num
  field_simp
  ring

/-! ## Sorting: the head of the sorted list -/

section SortLemmas

variable {α : Type}

theorem insertSorted_ne_nil (cmp : α → α → Num ℝ) (a : α) (l : List α) :
    insertSorted cmp a l ≠ [] := by
  cases l with
  | nil => simp [insertSorted]
  | cons b t =>
    simp only [insertSorted]
    split <;> simp

theorem mem_insertSorted (cmp : α → α → Num ℝ) (a x : α) (l : List α) :
    x ∈ insertSorted cmp a l ↔ x = a ∨ x ∈ l := by
  induction l with
  | nil => simp [insertSorted]
  | cons b t ih =>
    simp only [insertSorted]
    split
    · simp only [List.mem_cons, ih]
      tauto
    · simp only [List.mem_cons]

theorem mem_sort (cmp : α → α → Num ℝ) (x : α) (l : List α) : x ∈ sort cmp l ↔ x ∈ l := by
  induction l with
  | nil => simp [sort]
  | cons a t ih => simp [sort, mem_insertSorted, ih]

theorem sort_eq_nil_iff (cmp : α → α → Num ℝ) (l : List α) : sort cmp l = [] ↔ l = [] := by
  cases l with
  | nil => simp [sort]
  | cons a t => simp [sort, insertSorted_ne_nil]

/-- When the comparator agrees with a key in a linear order, the sorted list starts
with the first element of greatest key. -/
theorem sort_head_firstMax {β : Type} [LinearOrder β] (key : α → β) (cmp : α → α → Num ℝ)
    (l : List α) (hcmp : ∀ a ∈ l, ∀ b ∈ l, (0 < cmp a b ↔ key a < key b)) (hne : l ≠ []) :
    ∃ pre m post rest, l = pre ++ m :: post ∧ sort cmp l = m :: rest ∧
      (∀ d ∈ l, key d ≤ key m) ∧ (∀ d ∈ pre, key d < key m) := by
  induction l with
  | nil => exact absurd rfl hne
  | cons a t ih =>
    by_cases ht : t = []
    · subst ht
      exact ⟨[], a, [], [], rfl, rfl, by simp, by simp⟩
    · have hcmp2 : ∀ x ∈ t, ∀ y ∈ t, (0 < cmp x y ↔ key x < key y) := fun x hx y hy =>
        hcmp x (List.mem_cons_of_mem _ hx) y (List.mem_cons_of_mem _ hy)
      obtain ⟨pre, m, post, rest, hdec, hsort, hmax, hpre⟩ := ih hcmp2 ht
      have hm : m ∈ t := by
        rw [hdec]
        simp
      have hiff := hcmp a (List.mem_cons_self _ _) m (List.mem_cons_of_mem _ hm)
      by_cases hlt : key a < key m
      · refine ⟨a :: pre, m, post, insertSorted cmp a rest, by simp [hdec], ?_, ?_, ?_⟩
        · simp only [sort, hsort, insertSorted, if_pos (hiff.mpr hlt)]
        · intro d hd
          rcases List.mem_cons.mp hd with rfl | hd
          · exact le_of_lt hlt
          · exact hmax d hd
        · intro d hd
          rcases List.mem_cons.mp hd with rfl | hd
          · exact hlt
          · exact hpre d hd
      · refine ⟨[], a, t, m :: rest, rfl, ?_, ?_, by simp⟩
        · have hn : ¬ (0 < cmp a m) := fun h => hlt (hiff.mp h)
          simp only [sort, hsort, insertSorted, if_neg hn]
        · intro d hd
          rcases List.mem_cons.mp hd with rfl | hd
          · exact le_refl _
          · exact le_trans (hmax d hd) (not_lt.mp hlt)

end SortLemmas

/-! ## The configuration selector -/

theorem num_mul_comm (a b : Num ℝ) : a * b = b * a := by
  cases a <;> cases b <;> first | rfl | (show Num.fin _ = Num.fin _; rw [mul_comm])

/-- The loop body pushes the scored entry exactly for the entries that pass the fit
test; the score it computes is the total score of the specification. -/
theorem scoreConfig_eq (Math : JsMath ℝ) (mn mx t : Num ℝ) (c : Obj ℝ) :
    scoreConfig Math ((mn + mx) / 2) mx t c =
      if fitsDiameter Math mx c then some (scoredEntry Math mn mx t c) else none := by
  unfold scoreConfig fitsDiameter scoredEntry specTotalScore
  simp only [num_mul_comm _ (0.4 : Num ℝ), num_mul_comm _ (0.2 : Num ℝ)]

/-- Shape of the catalog entries: positive slot and pole counts, at least six slots. -/
theorem catalog_shape (c : Obj ℝ) (hc : c ∈ (SLOTS_POLES_COMBINATIONS : List (Obj ℝ))) :
    ∃ s p l cf : ℝ, ∃ w : String,
      c = combination (.fin s) (.fin p) w (.fin l) (.fin cf) ∧ 6 ≤ s ∧ 8 ≤ p ∧
        (w = "distributed" ∨ w = "concentrated") := by
  simp only [SLOTS_POLES_COMBINATIONS, List.mem_cons, List.mem_singleton, List.not_mem_nil,
    or_false] at hc
  rcases hc with h | h | h | h | h | h | h | h | h | h | h | h | h <;> subst h <;>
    exact ⟨_, _, _, _, _, rfl, by norm_num, by norm_num, by simp⟩

theorem fitsDiameter_combination (mx s p l cf : ℝ) (w : String) :
    fitsDiameter realMath (.fin mx) (combination (.fin s) (.fin p) w (.fin l) (.fin cf)) ↔
      s * 5 / Real.pi ≤ mx := by
  show (Num.fin s * 5 / realMath.PI ≤ Num.fin mx) ↔ _
  simp [Num.fin_div_fin_of_ne _ Real.pi_ne_zero]

theorem specTotalScore_combination (mn mx t s p l cf : ℝ) (w : String) (hp : p ≠ 0)
    (ha : mn + mx ≠ 0) :
    specTotalScore realMath (.fin mn) (.fin mx) (.fin t)
        (combination (.fin s) (.fin p) w (.fin l) (.fin cf)) =
      .fin (0.4 * (l / 100) + 0.4 * (1 - |t - 1000 / p| / 2000) +
        0.2 * (1 - |(mn + mx) / 2 - s * 5 / Real.pi| / ((mn + mx) / 2))) := by
  have h2 : ((2 : ℕ) : ℝ) ≠ 0 := by norm_num
  have h100 : ((100 : ℕ) : ℝ) ≠ 0 := by norm_num
  have h2000 : ((2000 : ℕ) : ℝ) ≠ 0 := by norm_num
  have havg : (mn + mx) / ((2 : ℕ) : ℝ) ≠ 0 := div_ne_zero ha h2
  show (0.4 : Num ℝ) * (Num.fin l / 100) +
      0.4 * (1 - realMath.abs (Num.fin t - 1000 / Num.fin p) / 2000) +
      0.2 * (1 - realMath.abs ((Num.fin mn + Num.fin mx) / 2 - Num.fin s * 5 / realMath.PI) /
        ((Num.fin mn + Num.fin mx) / 2)) = _
  simp only [realMath_PI, Num.ofNat_eq, Num.ofScientific_eq, Num.fin_add_fin, Num.fin_sub_fin,
    Num.fin_mul_fin, Num.fin_div_fin_of_ne _ h2, Num.fin_div_fin_of_ne _ h100,
    Num.fin_div_fin_of_ne _ h2000, Num.fin_div_fin_of_ne _ hp,
    Num.fin_div_fin_of_ne _ Real.pi_ne_zero, Num.fin_div_fin_of_ne _ havg, JsMath.abs_fin]
  congr 1
  norm_num

theorem specTotalScore_combination_zero (mn mx t s p l cf : ℝ) (w : String) (hp : p ≠ 0)
    (hs : 0 < s) (ha : mn + mx = 0) :
    specTotalScore realMath (.fin mn) (.fin mx) (.fin t)
        (combination (.fin s) (.fin p) w (.fin l) (.fin cf)) = .ninf := by
  have h2 : ((2 : ℕ) : ℝ) ≠ 0 := by norm_num
  have h100 : ((100 : ℕ) : ℝ) ≠ 0 := by norm_num
  have h2000 : ((2000 : ℕ) : ℝ) ≠ 0 := by norm_num
  have hpos : 0 < |(0 : ℝ) - s * ((5 : ℕ) : ℝ) / Real.pi| := by
    apply abs_pos.mpr
    have : 0 < s * ((5 : ℕ) : ℝ) / Real.pi := by positivity
    linarith
  show (0.4 : Num ℝ) * (Num.fin l / 100) +
      0.4 * (1 - realMath.abs (Num.fin t - 1000 / Num.fin p) / 2000) +
      0.2 * (1 - realMath.abs ((Num.fin mn + Num.fin mx) / 2 - Num.fin s * 5 / realMath.PI) /
        ((Num.fin mn + Num.fin mx) / 2)) = _
  simp only [realMath_PI, Num.ofNat_eq, Num.ofScientific_eq, Num.fin_add_fin, Num.fin_sub_fin,
    Num.fin_mul_fin, Num.fin_div_fin_of_ne _ h2, Num.fin_div_fin_of_ne _ h100,
    Num.fin_div_fin_of_ne _ h2000, Num.fin_div_fin_of_ne _ hp,
    Num.fin_div_fin_of_ne _ Real.pi_ne_zero, JsMath.abs_fin, ha, zero_div]
  rw [Num.fin_div_fin, if_pos rfl]
  simp only [Num.infTimes, if_neg (ne_of_gt hpos), if_pos hpos]
  have h02 : (0 : ℝ) < OfScientific.ofScientific 2 true 1 := by norm_num
  rw [show (Num.fin (((1 : ℕ) : ℝ)) - Num.pinf : Num ℝ) = Num.ninf from rfl,
    Num.fin_mul_ninf_of_pos h02]
  rfl

theorem scoredEntry_score (Math : JsMath ℝ) (mn mx t : Num ℝ) (c : Obj ℝ) :
    (scoredEntry Math mn mx t c).num "score" = specTotalScore Math mn mx t c := rfl

/-- The list of scored configurations before sorting. -/
theorem suitableConfigs_eq (Math : JsMath ℝ) (mn mx t : Num ℝ) :
    SLOTS_POLES_COMBINATIONS.filterMap (scoreConfig Math ((mn + mx) / 2) mx t) =
      SLOTS_POLES_COMBINATIONS.filterMap
        (fun c => if fitsDiameter Math mx c then some (scoredEntry Math mn mx t c) else none) := by
  congr 1
  funext c
  exact scoreConfig_eq Math mn mx t c

theorem mem_suitableConfigs (Math : JsMath ℝ) (mn mx t : Num ℝ) (l : List (Obj ℝ)) (b : Obj ℝ) :
    b ∈ l.filterMap
        (fun c => if fitsDiameter Math mx c then some (scoredEntry Math mn mx t c) else none) ↔
      ∃ c ∈ l, fitsDiameter Math mx c ∧ b = scoredEntry Math mn mx t c := by
  rw [List.mem_filterMap]
  constructor
  · rintro ⟨c, hc, h⟩
    by_cases hf : fitsDiameter Math mx c
    · rw [if_pos hf] at h
      exact ⟨c, hc, hf, (Option.some.inj h).symm⟩
    · rw [if_neg hf] at h
      exact absurd h (by simp)
  · rintro ⟨c, hc, hf, rfl⟩
    exact ⟨c, hc, by rw [if_pos hf]⟩

/-- Every surviving score is a number when the average diameter is not zero, and
`-Infinity` when it is zero. -/
theorem survivor_score (mn mx t : ℝ) (c : Obj ℝ)
    (hc : c ∈ (SLOTS_POLES_COMBINATIONS : List (Obj ℝ))) :
    (mn + mx ≠ 0 → ∃ x : ℝ, specTotalScore realMath (.fin mn) (.fin mx) (.fin t) c = .fin x) ∧
      (mn + mx = 0 → specTotalScore realMath (.fin mn) (.fin mx) (.fin t) c = .ninf) := by
  obtain ⟨s, p, l, cf, w, rfl, hs, hp, _⟩ := catalog_shape c hc
  have hp0 : p ≠ 0 := by linarith
  constructor
  · intro ha
    exact ⟨_, specTotalScore_combination mn mx t s p l cf w hp0 ha⟩
  · intro ha
    exact specTotalScore_combination_zero mn mx t s p l cf w hp0 (by linarith) ha

/-- On the scored configurations the comparator of the sort agrees with a real key. -/
theorem comparator_key (mn mx t : ℝ) :
    ∃ key : Obj ℝ → ℝ,
      (∀ c ∈ (SLOTS_POLES_COMBINATIONS : List (Obj ℝ)),
        ∀ d ∈ (SLOTS_POLES_COMBINATIONS : List (Obj ℝ)),
          ((0 : Num ℝ) < (scoredEntry realMath (.fin mn) (.fin mx) (.fin t) d).num "score" -
              (scoredEntry realMath (.fin mn) (.fin mx) (.fin t) c).num "score" ↔
            key (scoredEntry realMath (.fin mn) (.fin mx) (.fin t) c) <
              key (scoredEntry realMath (.fin mn) (.fin mx) (.fin t) d)) ∧
          (key (scoredEntry realMath (.fin mn) (.fin mx) (.fin t) c) ≤
              key (scoredEntry realMath (.fin mn) (.fin mx) (.fin t) d) →
            specTotalScore realMath (.fin mn) (.fin mx) (.fin t) c ≤
              specTotalScore realMath (.fin mn) (.fin mx) (.fin t) d) ∧
          (key (scoredEntry realMath (.fin mn) (.fin mx) (.fin t) c) <
              key (scoredEntry realMath (.fin mn) (.fin mx) (.fin t) d) →
            specTotalScore realMath (.fin mn) (.fin mx) (.fin t) c <
              specTotalScore realMath (.fin mn) (.fin mx) (.fin t) d)) := by
  by_cases ha : mn + mx = 0
  · refine ⟨fun _ => 0, ?_⟩
    intro c hc d hd
    rw [scoredEntry_score, scoredEntry_score, (survivor_score mn mx t c hc).2 ha,
      (survivor_score mn mx t d hd).2 ha]
    refine ⟨?_, ?_, ?_⟩
    · simp only [lt_self_iff_false, iff_false]
      exact Num.not_lt_nan _
    · intro _
      rfl
    · intro h
      exact absurd h (lt_irrefl _)
  · refine ⟨fun b => match b.num "score" with | .fin x => x | _ => 0, ?_⟩
    intro c hc d hd
    obtain ⟨x, hx⟩ := (survivor_score mn mx t c hc).1 ha
    obtain ⟨y, hy⟩ := (survivor_score mn mx t d hd).1 ha
    simp only [scoredEntry_score, hx, hy, Num.fin_sub_fin, Num.ofNat_eq, Nat.cast_zero,
      Num.fin_lt_fin, Num.fin_le_fin, sub_pos]
    exact ⟨trivial, id, id⟩

/-- With no surviving entry the fallback is returned. -/
theorem calculateConfiguration_fallback (mn mx t : ℝ)
    (hnone : ∀ c ∈ (SLOTS_POLES_COMBINATIONS : List (Obj ℝ)),
      ¬ fitsDiameter realMath (.fin mx) c) :
    calculateConfiguration realMath (.fin mn) (.fin mx) (.fin t) =
      specFallback realMath (.fin mn) (.fin mx) := by
  have hnil : SLOTS_POLES_COMBINATIONS.filterMap
      (fun c => if fitsDiameter realMath (.fin mx) c then
        some (scoredEntry realMath (.fin mn) (.fin mx) (.fin t) c) else none) = [] := by
    rw [List.filterMap_eq_nil_iff]
    intro c hc
    rw [if_neg (hnone c hc)]
  unfold calculateConfiguration
  simp only [suitableConfigs_eq, hnil, sort]
  rfl

/-- With a surviving entry, the first entry of greatest total score among the
survivors is returned, with its pole pitch and score. -/
theorem calculateConfiguration_firstMax (mn mx t : ℝ)
    (hfit : ∃ c ∈ (SLOTS_POLES_COMBINATIONS : List (Obj ℝ)), fitsDiameter realMath (.fin mx) c) :
    ∃ pre c post, (SLOTS_POLES_COMBINATIONS : List (Obj ℝ)) = pre ++ c :: post ∧
      fitsDiameter realMath (.fin mx) c ∧
      calculateConfiguration realMath (.fin mn) (.fin mx) (.fin t) =
        scoredEntry realMath (.fin mn) (.fin mx) (.fin t) c ∧
      (∀ d ∈ (SLOTS_POLES_COMBINATIONS : List (Obj ℝ)), fitsDiameter realMath (.fin mx) d →
        specTotalScore realMath (.fin mn) (.fin mx) (.fin t) d ≤
          specTotalScore realMath (.fin mn) (.fin mx) (.fin t) c) ∧
      (∀ d ∈ pre, fitsDiameter realMath (.fin mx) d →
        specTotalScore realMath (.fin mn) (.fin mx) (.fin t) d <
          specTotalScore realMath (.fin mn) (.fin mx) (.fin t) c) := by
  obtain ⟨key, hkey⟩ := comparator_key mn mx t
  have hmem := mem_suitableConfigs realMath (.fin mn) (.fin mx) (.fin t)
  have hne : SLOTS_POLES_COMBINATIONS.filterMap
      (fun c => if fitsDiameter realMath (.fin mx) c then
        some (scoredEntry realMath (.fin mn) (.fin mx) (.fin t) c) else none) ≠ [] := by
    obtain ⟨c, hc, hf⟩ := hfit
    intro h
    have : scoredEntry realMath (.fin mn) (.fin mx) (.fin t) c ∈ ([] : List (Obj ℝ)) := by
      rw [← h]
      exact (hmem _ _).mpr ⟨c, hc, hf, rfl⟩
    exact absurd this (List.not_mem_nil _)
  have hcmp : ∀ a ∈ SLOTS_POLES_COMBINATIONS.filterMap
      (fun c => if fitsDiameter realMath (.fin mx) c then
        some (scoredEntry realMath (.fin mn) (.fin mx) (.fin t) c) else none),
      ∀ b ∈ SLOTS_POLES_COMBINATIONS.filterMap
      (fun c => if fitsDiameter realMath (.fin mx) c then
        some (scoredEntry realMath (.fin mn) (.fin mx) (.fin t) c) else none),
      ((0 : Num ℝ) < (fun a b : Obj ℝ => b.num "score" - a.num "score") a b ↔
        key a < key b) := by
    intro a ha b hb
    obtain ⟨c, hc, _, rfl⟩ := (hmem _ _).mp ha
    obtain ⟨d, hd, _, rfl⟩ := (hmem _ _).mp hb
    exact (hkey c hc d hd).1
  obtain ⟨pre, m, post, rest, hdec, hsort, hmax, hpre⟩ :=
    sort_head_firstMax key _ _ hcmp hne
  obtain ⟨l1, l2, hcat, hl1, hl2⟩ := List.filterMap_eq_append_iff.mp hdec
  obtain ⟨l3, c, l4, hl2dec, hl3, hfc, _⟩ := List.filterMap_eq_cons_iff.mp hl2
  have hcmem : c ∈ (SLOTS_POLES_COMBINATIONS : List (Obj ℝ)) := by
    rw [hcat, hl2dec]
    simp
  have hcfit : fitsDiameter realMath (.fin mx) c := by
    by_contra hn
    rw [if_neg hn] at hfc
    exact absurd hfc (by simp)
  have hm : m = scoredEntry realMath (.fin mn) (.fin mx) (.fin t) c := by
    rw [if_pos hcfit] at hfc
    exact (Option.some.inj hfc).symm
  refine ⟨l1 ++ l3, c, l4, ?_, hcfit, ?_, ?_, ?_⟩
  · rw [hcat, hl2dec, List.append_assoc]
  · unfold calculateConfiguration
    simp only [suitableConfigs_eq, hsort, hm]
  · intro d hd hdfit
    have hin := hmax _ ((hmem _ _).mpr ⟨d, hd, hdfit, rfl⟩)
    rw [hm] at hin
    exact (hkey d hd c hcmem).2.1 hin
  · intro d hd hdfit
    have hdmem : d ∈ (SLOTS_POLES_COMBINATIONS : List (Obj ℝ)) := by
      rw [hcat, hl2dec]
      rcases List.mem_append.mp hd with h | h
      · exact List.mem_append_left _ h
      · exact List.mem_append_right _ (List.mem_append_left _ h)
    rcases List.mem_append.mp hd with h | h
    · have hin : scoredEntry realMath (.fin mn) (.fin mx) (.fin t) d ∈ pre := by
        rw [← hl1]
        exact (hmem _ _).mpr ⟨d, h, hdfit, rfl⟩
      have hlt := hpre _ hin
      rw [hm] at hlt
      exact (hkey d hdmem c hcmem).2.2 hlt
    · have := hl3 d h
      rw [if_pos hdfit] at this
      exact absurd this (by simp)

/-- The returned configuration is the fallback or a scored catalog entry that passes
the fit test, for all arguments. -/
theorem calculateConfiguration_cases (Math : JsMath ℝ) (mn mx t : Num ℝ) :
    calculateConfiguration Math mn mx t = specFallback Math mn mx ∨
      ∃ c ∈ (SLOTS_POLES_COMBINATIONS : List (Obj ℝ)), fitsDiameter Math mx c ∧
        calculateConfiguration Math mn mx t = scoredEntry Math mn mx t c := by
  unfold calculateConfiguration
  simp only [suitableConfigs_eq]
  cases hs : sort (fun a b : Obj ℝ => b.num "score" - a.num "score")
      (SLOTS_POLES_COMBINATIONS.filterMap
        (fun c => if fitsDiameter Math mx c then some (scoredEntry Math mn mx t c) else none)) with
  | nil =>
    left
    rfl
  | cons best rest =>
    right
    have hb : best ∈ sort (fun a b : Obj ℝ => b.num "score" - a.num "score")
        (SLOTS_POLES_COMBINATIONS.filterMap
          (fun c => if fitsDiameter Math mx c then some (scoredEntry Math mn mx t c)
            else none)) := by
      rw [hs]
      exact List.mem_cons_self _ _
    rw [mem_sort, mem_suitableConfigs] at hb
    exact hb

/-- Slots, poles and winding of every returned configuration, for all arguments: the
slot and pole counts are positive numbers, and no field is called `poleCount`. -/
theorem calculateConfiguration_fields (Math : JsMath ℝ) (mn mx t : Num ℝ) :
    ∃ s p : ℝ, ∃ w : String, 6 ≤ s ∧ 8 ≤ p ∧ (w = "distributed" ∨ w = "concentrated") ∧
      (calculateConfiguration Math mn mx t).get "slots" = .num (.fin s) ∧
      (calculateConfiguration Math mn mx t).get "poles" = .num (.fin p) ∧
      (calculateConfiguration Math mn mx t).get "winding" = .str w ∧
      (calculateConfiguration Math mn mx t).get "poleCount" = .undefined ∧
      (calculateConfiguration Math mn mx t).get "turnsPerCoil" = .undefined ∧
      (calculateConfiguration Math mn mx t).get "maxTurnsPerCoil" = .undefined := by
  rcases calculateConfiguration_cases Math mn mx t with h | ⟨c, hc, _, h⟩
  · rw [h]
    exact ⟨12, 14, "distributed", by norm_num, by norm_num, Or.inl rfl,
      by simp [specFallback, Obj.get, List.lookup], by simp [specFallback, Obj.get, List.lookup],
      rfl, rfl, rfl, rfl⟩
  · rw [h]
    obtain ⟨s, p, l, cf, w, rfl, hs, hp, hw⟩ := catalog_shape c hc
    exact ⟨s, p, w, hs, hp, hw, rfl, rfl, rfl, rfl, rfl, rfl⟩

/-- The efficiency estimate is NaN for a parameter object without a `poleCount` field. -/
theorem calculateEfficiency_without_poleCount (Math : JsMath ℝ) (o : Obj ℝ)
    (h : o.get "poleCount" = .undefined) : calculateEfficiency Math o = .nan := by
  have hn : o.num "poleCount" = .nan := by
    unfold Obj.num
    rw [h]
    rfl
  unfold calculateEfficiency
  simp only [hn, Num.nan_div, Num.nan_mul, Num.add_nan, Num.nan_add, JsMath.min_nan_right]

/-- The efficiency field of every design is NaN: the object handed to
`calculateEfficiency` carries the pole count under the name `poles`. -/
theorem calculateMotorDesign_efficiency (now : String) (p : Params ℝ) :
    (calculateMotorDesign realMath now p).efficiency = .nan := by
  obtain ⟨_, _, _, _, _, _, _, _, _, hpc, _, _⟩ :=
    calculateConfiguration_fields realMath p.minDiameter p.maxDiameter p.targetKV
  show calculateEfficiency realMath _ = _
  apply calculateEfficiency_without_poleCount
  unfold Obj.get Obj.spread
  unfold Obj.get at hpc
  simp only [List.cons_append, List.nil_append, List.lookup]
  exact hpc

/-! ## The entry with 21 slots and 22 poles -/

/-- Every catalog entry other than the one with 21 slots and 22 poles has an lcm of
at most 264. -/
theorem catalog_shape_other (c : Obj ℝ) (hc : c ∈ (SLOTS_POLES_COMBINATIONS : List (Obj ℝ))) :
    c = combination 21 22 "distributed" 462 22 ∨
      ∃ s p l cf : ℝ, ∃ w : String,
        c = combination (.fin s) (.fin p) w (.fin l) (.fin cf) ∧ 6 ≤ s ∧ 8 ≤ p ∧ p ≤ 42 ∧
          l ≤ 264 := by
  simp only [SLOTS_POLES_COMBINATIONS, List.mem_cons, List.mem_singleton, List.not_mem_nil,
    or_false] at hc
  rcases hc with h | h | h | h | h | h | h | h | h | h | h | h | h <;> subst h <;>
    first
    | exact Or.inl rfl
    | exact Or.inr ⟨_, _, _, _, _, rfl, by norm_num, by norm_num, by norm_num, by norm_num⟩

theorem entry_21_22_mem :
    (combination 21 22 "distributed" 462 22 : Obj ℝ) ∈
      (SLOTS_POLES_COMBINATIONS : List (Obj ℝ)) := by
  simp [SLOTS_POLES_COMBINATIONS]

theorem entry_21_22_fits (mx : ℝ) (hmx : 105 / Real.pi ≤ mx) :
    fitsDiameter realMath (.fin mx) (combination 21 22 "distributed" 462 22) := by
  have h := (fitsDiameter_combination mx 21 22 462 22 "distributed").mpr
    (by norm_num; exact hmx)
  exact h

/-- The kv term of two entries differs by at most 80 / 2000. -/
theorem kvTerm_bound (t p : ℝ) (hp8 : 8 ≤ p) (hp42 : p ≤ 42) :
    |t - 1000 / p| - |t - 1000 / 22| ≥ -80 := by
  have h1 : |t - 1000 / 22| - |t - 1000 / p| ≤ |(t - 1000 / 22) - (t - 1000 / p)| :=
    abs_sub_abs_le_abs_sub _ _
  have hp0 : 0 < p := by linarith
  have hup : 1000 / p ≤ 125 := by
    rw [div_le_iff₀ hp0]
    linarith
  have hlo : 20 ≤ 1000 / p := by
    rw [le_div_iff₀ hp0]
    linarith
  have h2 : |(t - 1000 / 22) - (t - 1000 / p)| ≤ 80 := by
    rw [abs_le]
    constructor <;> norm_num <;> linarith
  linarith

/-- The size term of an entry whose needed diameter lies in the range is at least 0,
and no size term exceeds 1. -/
theorem sizeTerm_bound (a n m : ℝ) (ha : 0 < a) (hn0 : 0 ≤ n) (hn : n ≤ 2 * a) :
    (1 - |a - n| / a) - (1 - |a - m| / a) ≥ -1 := by
  have h1 : |a - n| ≤ a := by
    rw [abs_le]
    constructor <;> linarith
  have h2 : |a - n| / a ≤ 1 := by
    rw [div_le_one ha]
    exact h1
  have h3 : 0 ≤ |a - m| / a := div_nonneg (abs_nonneg _) (le_of_lt ha)
  linarith

/-- For a non-negative minDiameter and a maxDiameter of at least 105 / pi, the entry
with 21 slots and 22 poles scores strictly more than every other catalog entry. -/
theorem entry_21_22_best (mn mx t : ℝ) (hmn : 0 ≤ mn) (hmx : 105 / Real.pi ≤ mx) (d : Obj ℝ)
    (hd : d ∈ (SLOTS_POLES_COMBINATIONS : List (Obj ℝ)))
    (hne : d ≠ combination 21 22 "distributed" 462 22) :
    specTotalScore realMath (.fin mn) (.fin mx) (.fin t) d <
      specTotalScore realMath (.fin mn) (.fin mx) (.fin t)
        (combination 21 22 "distributed" 462 22) := by
  have hpi := Real.pi_pos
  have h105 : 0 < 105 / Real.pi := by positivity
  have hsum : 0 < mn + mx := by linarith
  rcases catalog_shape_other d hd with h | ⟨s, p, l, cf, w, rfl, hs, hp8, hp42, hl⟩
  · exact absurd h hne
  · have hp0 : p ≠ 0 := by linarith
    rw [specTotalScore_combination mn mx t s p l cf w hp0 (ne_of_gt hsum)]
    have he := specTotalScore_combination mn mx t 21 22 462 22 "distributed" (by norm_num)
      (ne_of_gt hsum)
    have he2 : specTotalScore realMath (.fin mn) (.fin mx) (.fin t)
        (combination 21 22 "distributed" 462 22) = _ := he
    rw [he2, Num.fin_lt_fin]
    have hkv := kvTerm_bound t p hp8 hp42
    have hsize := sizeTerm_bound ((mn + mx) / 2) (21 * 5 / Real.pi) (s * 5 / Real.pi)
      (by linarith) (by positivity) (by norm_num; linarith)
    have hl2 : l / 100 ≤ 2.64 := by
      rw [div_le_iff₀ (by norm_num)]
      norm_num
      linarith
    have e1 : |t - 1000 / p| / 2000 - |t - 1000 / 22| / 2000 ≥ -80 / 2000 := by
      have := div_le_div_of_nonneg_right (show -80 ≤ |t - 1000 / p| - |t - 1000 / 22| from hkv)
        (show (0 : ℝ) ≤ 2000 by norm_num)
      rw [sub_div] at this
      linarith
    linarith

/-- For a non-negative minDiameter and a maxDiameter of at least 105 / pi, the
configuration returned is the entry with 21 slots and 22 poles, whatever the target. -/
theorem calculateConfiguration_entry_21_22 (mn mx t : ℝ) (hmn : 0 ≤ mn)
    (hmx : 105 / Real.pi ≤ mx) :
    calculateConfiguration realMath (.fin mn) (.fin mx) (.fin t) =
      scoredEntry realMath (.fin mn) (.fin mx) (.fin t)
        (combination 21 22 "distributed" 462 22) := by
  obtain ⟨pre, c, post, hdec, hfit, hres, hmax, _⟩ :=
    calculateConfiguration_firstMax mn mx t ⟨_, entry_21_22_mem, entry_21_22_fits mx hmx⟩
  have hc : c ∈ (SLOTS_POLES_COMBINATIONS : List (Obj ℝ)) := by
    rw [hdec]
    simp
  by_cases hce : c = combination 21 22 "distributed" 462 22
  · rw [hres, hce]
  · exfalso
    have h1 := entry_21_22_best mn mx t hmn hmx c hc hce
    have h2 := hmax _ entry_21_22_mem (entry_21_22_fits mx hmx)
    have hpi := Real.pi_pos
    have h105 : 0 < 105 / Real.pi := by positivity
    have hsum : mn + mx ≠ 0 := by
      apply ne_of_gt
      linarith
    obtain ⟨x, hx⟩ := (survivor_score mn mx t c hc).1 hsum
    obtain ⟨y, hy⟩ := (survivor_score mn mx t _ entry_21_22_mem).1 hsum
    rw [hx, hy, Num.fin_lt_fin] at h1
    rw [hx, hy, Num.fin_le_fin] at h2
    linarith

/-! ## Turns per coil -/

theorem coilDimensions_slotArea (md s : ℝ) (hmd : md ≠ 0) (hs : s ≠ 0)
    (config : Obj ℝ) (hcfg : config.num "slots" = .fin s) (d kv : Num ℝ) :
    (calculateCoilDimensions realMath (.fin md) config d kv).slotArea =
      .fin (0.0643125 * Real.pi * md ^ 2 / s) := by
  have h2 : ((2 : ℕ) : ℝ) ≠ 0 := by norm_num
  have hsod : md * OfScientific.ofScientific 7 true 1 ≠ 0 := by
    apply mul_ne_zero hmd
    norm_num
  simp only [calculateCoilDimensions, hcfg, realMath_PI, Num.ofNat_eq, Num.ofScientific_eq,
    Num.fin_mul_fin, Num.fin_sub_fin, Num.fin_add_fin, Num.fin_div_fin_of_ne _ h2,
    Num.fin_div_fin_of_ne _ hs, Num.fin_div_fin_of_ne _ hsod]
  congr 1
  norm_num
  field_simp
  ring

theorem coilDimensions_maxTurns_eq (Math : JsMath ℝ) (md : Num ℝ) (config : Obj ℝ)
    (d kv : Num ℝ) :
    (calculateCoilDimensions Math md config d kv).maxTurnsPerCoil =
      Math.floor ((calculateCoilDimensions Math md config d kv).slotArea * 0.45 /
        (calculateWireProperties Math d).area) := rfl

theorem coilDimensions_turnsPerCoil_eq (Math : JsMath ℝ) (md : Num ℝ) (config : Obj ℝ)
    (d kv : Num ℝ) :
    (calculateCoilDimensions Math md config d kv).turnsPerCoil =
      Math.min (calculateCoilDimensions Math md config d kv).maxTurnsPerCoil
        (Math.round
          (if (config.get "winding").strictEqStr "distributed" then
            1 / (kv * (NEODYMIUM_FLUX_DENSITY * 0.0001) * config.num "poles" / 60) /
              (config.num "slots" / 3)
          else
            1 / (kv * (NEODYMIUM_FLUX_DENSITY * 0.0001) * config.num "poles" / 60) /
              (config.num "slots" / 3 * 2))) := rfl

/-- Turns per coil for non-zero finite arguments: the smaller of the packing limit and
the rounded turns per phase. -/
theorem coilDimensions_turnsPerCoil (md s p d t : ℝ) (hmd : md ≠ 0) (hs : s ≠ 0) (hp : p ≠ 0)
    (hd : d ≠ 0) (ht : t ≠ 0) (config : Obj ℝ) (hslots : config.num "slots" = .fin s)
    (hpoles : config.num "poles" = .fin p) :
    (calculateCoilDimensions realMath (.fin md) config (.fin d) (.fin t)).turnsPerCoil =
      .fin (min ((⌊0.1157625 * md ^ 2 / (s * d ^ 2)⌋ : ℤ) : ℝ)
        ((⌊(if (config.get "winding").strictEqStr "distributed" then
              1 / (t * (1.2 * 0.0001) * p / 60) / (s / 3)
            else 1 / (t * (1.2 * 0.0001) * p / 60) / (s / 3 * 2)) + 1 / 2⌋ : ℤ) : ℝ)) := by
  have h3 : ((3 : ℕ) : ℝ) ≠ 0 := by norm_num
  have h60 : ((60 : ℕ) : ℝ) ≠ 0 := by norm_num
  have hs3 : s / ((3 : ℕ) : ℝ) ≠ 0 := div_ne_zero hs h3
  have hs32 : s / ((3 : ℕ) : ℝ) * ((2 : ℕ) : ℝ) ≠ 0 := mul_ne_zero hs3 (by norm_num)
  have hflux : t * (OfScientific.ofScientific 12 true 1 * OfScientific.ofScientific 1 true 4)
      * p / ((60 : ℕ) : ℝ) ≠ 0 := by
    apply div_ne_zero _ h60
    apply mul_ne_zero _ hp
    apply mul_ne_zero ht
    norm_num
  rw [coilDimensions_turnsPerCoil_eq, coilDimensions_maxTurns md s d hmd hs hd config hslots,
    hslots, hpoles]
  simp only [NEODYMIUM_FLUX_DENSITY, Num.ofNat_eq, Num.ofScientific_eq, Num.fin_mul_fin,
    Num.fin_div_fin_of_ne _ h3, Num.fin_div_fin_of_ne _ h60, Num.fin_div_fin_of_ne _ hflux,
    Num.fin_div_fin_of_ne _ hs3, Num.fin_div_fin_of_ne _ hs32]
  split
  · rw [JsMath.round_fin, JsMath.min_fin_fin]
    norm_num
  · rw [JsMath.round_fin, JsMath.min_fin_fin]
    norm_num

theorem isPositive_iff (a : Num ℝ) : a.isPositive = true ↔ ∃ x : ℝ, a = .fin x ∧ 0 < x := by
  cases a <;> simp [Num.isPositive]

/-- A valid params record consists of seven positive reals with
`minDiameter < maxDiameter`. -/
theorem validParams_elim (p : Params ℝ) (hv : validParams p = true) :
    ∃ d w h th mn mx t : ℝ, 0 < d ∧ 0 < w ∧ 0 < h ∧ 0 < th ∧ 0 < mn ∧ 0 < mx ∧ 0 < t ∧ mn < mx ∧
      p.wireThickness = .fin d ∧ p.magnetWidth = .fin w ∧ p.magnetHeight = .fin h ∧
      p.magnetThickness = .fin th ∧ p.minDiameter = .fin mn ∧ p.maxDiameter = .fin mx ∧
      p.targetKV = .fin t := by
  simp only [validParams, Bool.and_eq_true, decide_eq_true_eq, isPositive_iff] at hv
  obtain ⟨⟨⟨⟨⟨⟨⟨⟨d, hd, hd0⟩, ⟨w, hw, hw0⟩⟩, ⟨h, hh, hh0⟩⟩, ⟨th, hth, hth0⟩⟩, ⟨mn, hmn, hmn0⟩⟩,
    ⟨mx, hmx, hmx0⟩⟩, ⟨t, ht, ht0⟩⟩, hlt⟩ := hv
  rw [hmn, hmx, Num.fin_lt_fin] at hlt
  exact ⟨d, w, h, th, mn, mx, t, hd0, hw0, hh0, hth0, hmn0, hmx0, ht0, hlt, hd, hw, hh, hth, hmn,
    hmx, ht⟩

theorem calculateMotorDesign_turnsPerCoil (now : String) (p : Params ℝ) :
    (calculateMotorDesign realMath now p).turnsPerCoil =
      (calculateCoilDimensions realMath ((p.minDiameter + p.maxDiameter) / 2)
        (calculateConfiguration realMath p.minDiameter p.maxDiameter p.targetKV)
        p.wireThickness p.targetKV).turnsPerCoil := rfl

theorem calculateMotorDesign_maxTurnsPerCoil (now : String) (p : Params ℝ) :
    (calculateMotorDesign realMath now p).maxTurnsPerCoil =
      (calculateCoilDimensions realMath ((p.minDiameter + p.maxDiameter) / 2)
        (calculateConfiguration realMath p.minDiameter p.maxDiameter p.targetKV)
        p.wireThickness p.targetKV).maxTurnsPerCoil := rfl

theorem calculateMotorDesign_estimatedKV (now : String) (p : Params ℝ) :
    (calculateMotorDesign realMath now p).estimatedKV =
      calculateKV realMath
        ((calculateConfiguration realMath p.minDiameter p.maxDiameter p.targetKV).num "poles")
        (calculateMotorDesign realMath now p).turnsPerCoil
        ((calculateConfiguration realMath p.minDiameter p.maxDiameter p.targetKV).num "slots")
        .undefined := rfl

theorem calculateMotorDesign_kvDeviation (now : String) (p : Params ℝ) :
    (calculateMotorDesign realMath now p).kvDeviation =
      realMath.abs (((calculateMotorDesign realMath now p).estimatedKV - p.targetKV) /
        p.targetKV * 100) := rfl

/-- The KV estimate with the default magnet strength, for finite arguments with a
non-negative number of turns per phase. -/
theorem calculateKV_fin (poles turns slots : ℝ) (h : 0 ≤ turns * (slots / 3)) :
    calculateKV realMath (.fin poles) (.fin turns) (.fin slots) .undefined =
      .fin 1352 / .fin (poles * Real.sqrt (turns * (slots / 3))) := by
  have h3 : ((3 : ℕ) : ℝ) ≠ 0 := by norm_num
  have h12 : (OfScientific.ofScientific 12 true 1 : ℝ) ≠ 0 := by norm_num
  have h' : 0 ≤ turns * (slots / ((3 : ℕ) : ℝ)) := by
    norm_num
    exact h
  simp only [calculateKV, Num.ofNat_eq, Num.ofScientific_eq, Num.fin_mul_fin,
    Num.fin_div_fin_of_ne _ h3, Num.fin_div_fin_of_ne _ h12, realMath_sqrt_of_nonneg h']
  norm_num

/-! ## The design for the params of the tests -/

theorem pi_range_30_40 : 105 / Real.pi ≤ ((40 : ℕ) : ℝ) := by
  have hpi := Real.pi_gt_three
  rw [div_le_iff₀ Real.pi_pos]
  norm_num
  linarith

/-- For the diameter range 30 to 40 the entry with 21 slots and 22 poles is returned,
whatever the target KV. -/
theorem calculateConfiguration_30_40 (t : ℝ) :
    calculateConfiguration realMath 30 40 (.fin t) =
      scoredEntry realMath 30 40 (.fin t) (combination 21 22 "distributed" 462 22) :=
  calculateConfiguration_entry_21_22 ((30 : ℕ) : ℝ) ((40 : ℕ) : ℝ) t (by norm_num)
    pi_range_30_40

/-- Turns per coil of the design for the range 30 to 40 and wire 0.8, by target KV. -/
theorem turnsPerCoil_30_40 (now : String) (p : Params ℝ) (t : ℝ) (ht : t ≠ 0)
    (hd : p.wireThickness = 0.8) (hmn : p.minDiameter = 30) (hmx : p.maxDiameter = 40)
    (hkv : p.targetKV = .fin t) :
    (calculateMotorDesign realMath now p).turnsPerCoil =
      .fin (min 10 ((⌊1 / (t * (1.2 * 0.0001) * 22 / 60) / (21 / 3) + 1 / 2⌋ : ℤ) : ℝ)) := by
  have h2 : ((2 : ℕ) : ℝ) ≠ 0 := by norm_num
  have hmd : ((30 : Num ℝ) + 40) / 2 = .fin 35 := by
    simp only [Num.ofNat_eq, Num.fin_add_fin, Num.fin_div_fin_of_ne _ h2]
    norm_num
  rw [calculateMotorDesign_turnsPerCoil, hd, hmn, hmx, hkv, hmd, calculateConfiguration_30_40,
    Num.ofScientific_eq]
  rw [coilDimensions_turnsPerCoil 35 21 22 _ t (by norm_num) (by norm_num) (by norm_num)
    (by norm_num) ht _ (by simp [scoredEntry, Obj.num, Obj.get, Obj.spread, combination, List.lookup, Val.toNumber])
    (by simp [scoredEntry, Obj.num, Obj.get, Obj.spread, combination, List.lookup, Val.toNumber])]
  have hw : ((scoredEntry realMath 30 40 (.fin t)
      (combination 21 22 "distributed" 462 22)).get "winding").strictEqStr "distributed"
      = true := by rfl
  rw [if_pos hw]
  have hM : ⌊(0.1157625 : ℝ) * 35 ^ 2 / (21 * OfScientific.ofScientific 8 true 1 ^ 2)⌋ = 10 := by
    rw [Int.floor_eq_iff]
    norm_num
  rw [hM]
  norm_num

theorem testDesign_turnsPerCoil (now : String) :
    (calculateMotorDesign realMath now testParams).turnsPerCoil = .fin 4 := by
  rw [turnsPerCoil_30_40 now testParams 800 (by norm_num) rfl rfl rfl (by simp [testParams])]
  have hR : ⌊(1 : ℝ) / (800 * (1.2 * 0.0001) * 22 / 60) / (21 / 3) + 1 / 2⌋ = 4 := by
    rw [Int.floor_eq_iff]
    norm_num
  rw [hR]
  norm_num

theorem highKvDesign_turnsPerCoil (now : String) :
    (calculateMotorDesign realMath now highKvParams).turnsPerCoil = .fin 0 := by
  rw [turnsPerCoil_30_40 now highKvParams 8000 (by norm_num) rfl rfl rfl (by simp [highKvParams])]
  have hR : ⌊(1 : ℝ) / (8000 * (1.2 * 0.0001) * 22 / 60) / (21 / 3) + 1 / 2⌋ = 0 := by
    rw [Int.floor_eq_iff]
    norm_num
  rw [hR]
  norm_num

/-! ## NaN-freedom of the turns -/

theorem min_le_left_of_not_nan (Math : JsMath ℝ) (a b : Num ℝ) (ha : a.isNaN = false)
    (hb : b.isNaN = false) : Math.min a b ≤ a := by
  have hnan : ¬ ((Num.nan : Num ℝ).isNaN = false) := by simp [Num.isNaN]
  cases a with
  | nan => exact absurd ha hnan
  | ninf =>
    cases b with
    | nan => exact absurd hb hnan
    | ninf => rfl
    | pinf => rfl
    | fin y => rfl
  | pinf =>
    cases b with
    | nan => exact absurd hb hnan
    | ninf => rfl
    | pinf => rfl
    | fin y => rfl
  | fin x =>
    cases b with
    | nan => exact absurd hb hnan
    | ninf => rfl
    | pinf =>
      show Num.fin x ≤ Num.fin x
      rw [Num.fin_le_fin]
    | fin y =>
      rw [JsMath.min_fin_fin, Num.fin_le_fin]
      exact min_le_left _ _

theorem div_fin_not_nan (x y : ℝ) (hx : x ≠ 0) : (Num.fin x / Num.fin y).isNaN = false := by
  rw [Num.fin_div_fin]
  by_cases hy : y = 0
  · rw [if_pos hy]
    unfold Num.infTimes
    rw [if_neg hx]
    split <;> rfl
  · rw [if_neg hy]
    rfl

theorem not_nan_div_fin (a : Num ℝ) (z : ℝ) (ha : a.isNaN = false) (hz : z ≠ 0) :
    (a / Num.fin z).isNaN = false := by
  cases a with
  | nan => exact absurd ha (by simp [Num.isNaN])
  | ninf =>
    show (if 0 ≤ z then Num.ninf else Num.pinf : Num ℝ).isNaN = false
    split <;> rfl
  | pinf =>
    show (if 0 ≤ z then Num.pinf else Num.ninf : Num ℝ).isNaN = false
    split <;> rfl
  | fin x =>
    rw [Num.fin_div_fin_of_ne _ hz]
    rfl

theorem floor_isNaN (Math : JsMath ℝ) (a : Num ℝ) : (Math.floor a).isNaN = a.isNaN := by
  cases a <;> rfl

theorem round_isNaN (Math : JsMath ℝ) (a : Num ℝ) : (Math.round a).isNaN = a.isNaN := by
  cases a <;> rfl

/-- For a non-zero motor diameter and a non-zero slot count neither the packing limit
nor the rounded turns per phase is NaN, so the minimum is at most the packing limit. -/
theorem coilDimensions_turns_le (md s p d t : ℝ) (config : Obj ℝ) (hmd : md ≠ 0) (hs : s ≠ 0)
    (hslots : config.num "slots" = .fin s) (hpoles : config.num "poles" = .fin p) :
    (calculateCoilDimensions realMath (.fin md) config (.fin d) (.fin t)).turnsPerCoil ≤
      (calculateCoilDimensions realMath (.fin md) config (.fin d) (.fin t)).maxTurnsPerCoil := by
  have h3 : ((3 : ℕ) : ℝ) ≠ 0 := by norm_num
  have h60 : ((60 : ℕ) : ℝ) ≠ 0 := by norm_num
  have hs3 : s / ((3 : ℕ) : ℝ) ≠ 0 := div_ne_zero hs h3
  have hs32 : s / ((3 : ℕ) : ℝ) * ((2 : ℕ) : ℝ) ≠ 0 := mul_ne_zero hs3 (by norm_num)
  have hmax : (calculateCoilDimensions realMath (.fin md) config (.fin d)
      (.fin t)).maxTurnsPerCoil.isNaN = false := by
    rw [coilDimensions_maxTurns_eq, floor_isNaN, coilDimensions_slotArea md s hmd hs config hslots,
      wireProperties_area, Num.ofScientific_eq, Num.fin_mul_fin]
    apply div_fin_not_nan
    have hpi := Real.pi_ne_zero
    have hmd2 : md ^ 2 ≠ 0 := pow_ne_zero 2 hmd
    apply mul_ne_zero _ (by norm_num)
    apply div_ne_zero _ hs
    apply mul_ne_zero _ hmd2
    apply mul_ne_zero _ hpi
    norm_num
  rw [coilDimensions_turnsPerCoil_eq]
  apply min_le_left_of_not_nan _ _ _ hmax
  rw [round_isNaN, hslots, hpoles]
  have htfk : ((1 : Num ℝ) / (Num.fin t * (NEODYMIUM_FLUX_DENSITY * 0.0001) * Num.fin p / 60)).isNaN
      = false := by
    simp only [NEODYMIUM_FLUX_DENSITY, Num.ofNat_eq, Num.ofScientific_eq, Num.fin_mul_fin,
      Num.fin_div_fin_of_ne _ h60]
    apply div_fin_not_nan
    norm_num
  split
  · rw [show (Num.fin s / 3 : Num ℝ) = Num.fin (s / ((3 : ℕ) : ℝ)) from
      Num.fin_div_fin_of_ne _ h3]
    exact not_nan_div_fin _ _ htfk hs3
  · rw [show (Num.fin s / 3 * 2 : Num ℝ) = Num.fin (s / ((3 : ℕ) : ℝ) * ((2 : ℕ) : ℝ)) by
      rw [show (Num.fin s / 3 : Num ℝ) = Num.fin (s / ((3 : ℕ) : ℝ)) from
        Num.fin_div_fin_of_ne _ h3]
      rfl]
    exact not_nan_div_fin _ _ htfk hs32

theorem num_of_get {o : Obj ℝ} {k : String} {n : Num ℝ} (h : o.get k = .num n) :
    o.num k = n := by
  unfold Obj.num
  rw [h]
  rfl

/-- Every design for numeric params with a non-zero diameter sum has its turns within
the packing limit. -/
theorem calculateMotorDesign_turns_le (now : String) (P : Params ℝ) (d mn mx t : ℝ)
    (hd : P.wireThickness = .fin d) (hmn : P.minDiameter = .fin mn)
    (hmx : P.maxDiameter = .fin mx) (ht : P.targetKV = .fin t) (hsum : mn + mx ≠ 0) :
    (calculateMotorDesign realMath now P).turnsPerCoil ≤
      (calculateMotorDesign realMath now P).maxTurnsPerCoil := by
  have h2 : ((2 : ℕ) : ℝ) ≠ 0 := by norm_num
  obtain ⟨s, p, w, hs, hp, _, hslots, hpoles, _⟩ :=
    calculateConfiguration_fields realMath P.minDiameter P.maxDiameter P.targetKV
  rw [calculateMotorDesign_turnsPerCoil, calculateMotorDesign_maxTurnsPerCoil, hd]
  have hmd : (P.minDiameter + P.maxDiameter) / 2 = Num.fin ((mn + mx) / ((2 : ℕ) : ℝ)) := by
    rw [hmn, hmx]
    simp only [Num.ofNat_eq, Num.fin_add_fin, Num.fin_div_fin_of_ne _ h2]
  rw [ht] at hslots hpoles
  rw [hmd, ht]
  exact coilDimensions_turns_le _ s p d t _ (div_ne_zero hsum h2) (by linarith)
    (num_of_get hslots) (num_of_get hpoles)

/-! ## Finiteness of the estimates -/

/-- For valid params whose design has at least one turn per coil, the divisors of the
KV and efficiency formulas are non-zero and the KV estimate and its deviation are
finite. -/
theorem design_estimates_of_turns (now : String) (P : Params ℝ) (hv : validParams P = true)
    (hturns : (1 : Num ℝ) ≤ (calculateMotorDesign realMath now P).turnsPerCoil) :
    (∃ x : ℝ, x ≠ 0 ∧
      (calculateConfiguration realMath P.minDiameter P.maxDiameter P.targetKV).num "poles" *
        realMath.sqrt ((calculateMotorDesign realMath now P).turnsPerCoil *
          ((calculateConfiguration realMath P.minDiameter P.maxDiameter P.targetKV).num "slots"
            / 3)) = .fin x) ∧
      (∃ m : ℝ, m ≠ 0 ∧ (calculateMotorDesign realMath now P).maxTurnsPerCoil = .fin m) ∧
      (calculateMotorDesign realMath now P).estimatedKV.isFinite = true ∧
      (calculateMotorDesign realMath now P).kvDeviation.isFinite = true := by
  obtain ⟨d, w, h, th, mn, mx, t, hd0, _, _, _, hmn0, hmx0, ht0, _, hd, _, _, _, hmn, hmx, ht⟩ :=
    validParams_elim P hv
  have h2 : ((2 : ℕ) : ℝ) ≠ 0 := by norm_num
  have h3 : ((3 : ℕ) : ℝ) ≠ 0 := by norm_num
  obtain ⟨s, p, _, hs, hp, _, hslots, hpoles, _⟩ :=
    calculateConfiguration_fields realMath P.minDiameter P.maxDiameter P.targetKV
  have hslots2 := num_of_get hslots
  have hpoles2 := num_of_get hpoles
  have hmd : (P.minDiameter + P.maxDiameter) / 2 = Num.fin ((mn + mx) / ((2 : ℕ) : ℝ)) := by
    rw [hmn, hmx]
    simp only [Num.ofNat_eq, Num.fin_add_fin, Num.fin_div_fin_of_ne _ h2]
  have hmd0 : (mn + mx) / ((2 : ℕ) : ℝ) ≠ 0 := div_ne_zero (by linarith) h2
  have hs0 : s ≠ 0 := by linarith
  have hp0 : p ≠ 0 := by linarith
  have hturnsEq := calculateMotorDesign_turnsPerCoil now P
  have hmaxEq := calculateMotorDesign_maxTurnsPerCoil now P
  rw [hmd, hd, ht] at hturnsEq hmaxEq
  rw [ht] at hslots2 hpoles2
  rw [coilDimensions_turnsPerCoil _ s p d t hmd0 hs0 hp0 (ne_of_gt hd0) (ne_of_gt ht0) _ hslots2
    hpoles2] at hturnsEq
  rw [coilDimensions_maxTurns _ s d hmd0 hs0 (ne_of_gt hd0) _ hslots2] at hmaxEq
  rw [← ht] at hslots2 hpoles2
  obtain ⟨k, M, hk, hM, hkM⟩ : ∃ k M : ℝ,
      (calculateMotorDesign realMath now P).turnsPerCoil = .fin k ∧
      (calculateMotorDesign realMath now P).maxTurnsPerCoil = .fin M ∧ k ≤ M :=
    ⟨_, _, hturnsEq, hmaxEq, min_le_left _ _⟩
  rw [hk] at hturns
  rw [calculateMotorDesign_kvDeviation, calculateMotorDesign_estimatedKV, hk, hM,
    hslots2, hpoles2, ht]
  rw [Num.ofNat_eq, Num.fin_le_fin] at hturns
  have hk1 : (1 : ℝ) ≤ k := by
    simpa using hturns
  have harg : 0 < k * (s / 3) := by
    apply mul_pos (by linarith)
    linarith
  have hsqrt : 0 < Real.sqrt (k * (s / 3)) := Real.sqrt_pos.mpr harg
  have hdiv : p * Real.sqrt (k * (s / 3)) ≠ 0 := by
    apply ne_of_gt
    apply mul_pos (by linarith) hsqrt
  have harg' : 0 ≤ k * (s / ((3 : ℕ) : ℝ)) := by
    have : (((3 : ℕ) : ℝ)) = 3 := by norm_num
    rw [this]
    exact le_of_lt harg
  refine ⟨⟨p * Real.sqrt (k * (s / 3)), hdiv, ?_⟩, ⟨M, by linarith, rfl⟩, ?_, ?_⟩
  · rw [Num.ofNat_eq, Num.fin_div_fin_of_ne _ h3, Num.fin_mul_fin,
      realMath_sqrt_of_nonneg harg', Num.fin_mul_fin]
    norm_num
  · rw [calculateKV_fin _ _ _ (le_of_lt harg), Num.fin_div_fin_of_ne _ hdiv]
    rfl
  · rw [calculateKV_fin _ _ _ (le_of_lt harg), Num.fin_div_fin_of_ne _ hdiv, Num.fin_sub_fin,
      Num.fin_div_fin_of_ne _ (ne_of_gt ht0), Num.ofNat_eq, Num.fin_mul_fin, JsMath.abs_fin]
    rfl

/-! ## Evaluations at concrete inputs -/

theorem validParams_testParams : validParams (testParams : Params ℝ) = true := by
  simp only [validParams, testParams, Num.isPositive, Num.ofNat_eq, Num.ofScientific_eq,
    Num.fin_lt_fin, Bool.and_eq_true, decide_eq_true_eq]
  norm_num

theorem validParams_highKvParams : validParams (highKvParams : Params ℝ) = true := by
  simp only [validParams, highKvParams, Num.isPositive, Num.ofNat_eq, Num.ofScientific_eq,
    Num.fin_lt_fin, Bool.and_eq_true, decide_eq_true_eq]
  norm_num

theorem testDesign_estimatedKV (now : String) :
    (calculateMotorDesign realMath now testParams).estimatedKV =
      .fin (1352 / (22 * Real.sqrt 28)) := by
  rw [calculateMotorDesign_estimatedKV, testDesign_turnsPerCoil]
  have hc : calculateConfiguration realMath (testParams : Params ℝ).minDiameter
      (testParams : Params ℝ).maxDiameter (testParams : Params ℝ).targetKV =
      scoredEntry realMath 30 40 (.fin ((800 : ℕ) : ℝ))
        (combination 21 22 "distributed" 462 22) := calculateConfiguration_30_40 _
  rw [hc]
  have hp : (scoredEntry realMath 30 40 (.fin ((800 : ℕ) : ℝ))
      (combination 21 22 "distributed" 462 22)).num "poles" = .fin 22 := by
    simp [scoredEntry, Obj.num, Obj.get, Obj.spread, combination, List.lookup, Val.toNumber]
  have hs : (scoredEntry realMath 30 40 (.fin ((800 : ℕ) : ℝ))
      (combination 21 22 "distributed" 462 22)).num "slots" = .fin 21 := by
    simp [scoredEntry, Obj.num, Obj.get, Obj.spread, combination, List.lookup, Val.toNumber]
  rw [hp, hs, calculateKV_fin _ _ _ (by norm_num)]
  have h28 : (4 : ℝ) * (21 / 3) = 28 := by norm_num
  have hdiv : (22 : ℝ) * Real.sqrt 28 ≠ 0 := by
    apply mul_ne_zero (by norm_num)
    exact ne_of_gt (Real.sqrt_pos.mpr (by norm_num))
  rw [h28, Num.fin_div_fin_of_ne _ hdiv]

theorem sqrt_28_gt : (5.13 : ℝ) < Real.sqrt 28 := by
  rw [Real.lt_sqrt (by norm_num)]
  norm_num

theorem testDesign_estimatedKV_lt : (1352 : ℝ) / (22 * Real.sqrt 28) < 12 := by
  have h := sqrt_28_gt
  rw [div_lt_iff₀ (by positivity)]
  nlinarith

theorem highKvDesign_estimatedKV (now : String) :
    (calculateMotorDesign realMath now highKvParams).estimatedKV = .pinf := by
  rw [calculateMotorDesign_estimatedKV, highKvDesign_turnsPerCoil]
  have hc : calculateConfiguration realMath (highKvParams : Params ℝ).minDiameter
      (highKvParams : Params ℝ).maxDiameter (highKvParams : Params ℝ).targetKV =
      scoredEntry realMath 30 40 (.fin ((8000 : ℕ) : ℝ))
        (combination 21 22 "distributed" 462 22) := calculateConfiguration_30_40 _
  rw [hc]
  have hp : (scoredEntry realMath 30 40 (.fin ((8000 : ℕ) : ℝ))
      (combination 21 22 "distributed" 462 22)).num "poles" = .fin 22 := by
    simp [scoredEntry, Obj.num, Obj.get, Obj.spread, combination, List.lookup, Val.toNumber]
  have hs : (scoredEntry realMath 30 40 (.fin ((8000 : ℕ) : ℝ))
      (combination 21 22 "distributed" 462 22)).num "slots" = .fin 21 := by
    simp [scoredEntry, Obj.num, Obj.get, Obj.spread, combination, List.lookup, Val.toNumber]
  rw [hp, hs, calculateKV_fin _ _ _ (by norm_num)]
  have h0 : (22 : ℝ) * Real.sqrt (0 * (21 / 3)) = 0 := by simp
  rw [h0, Num.fin_div_fin, if_pos rfl]
  simp [Num.infTimes]

theorem highKvDesign_kvDeviation (now : String) :
    (calculateMotorDesign realMath now highKvParams).kvDeviation = .pinf := by
  rw [calculateMotorDesign_kvDeviation, highKvDesign_estimatedKV]
  show realMath.abs ((Num.pinf - Num.fin ((8000 : ℕ) : ℝ)) / Num.fin ((8000 : ℕ) : ℝ) *
    Num.fin ((100 : ℕ) : ℝ)) = .pinf
  have h1 : (Num.pinf - Num.fin ((8000 : ℕ) : ℝ) : Num ℝ) = .pinf := rfl
  have h2 : (Num.pinf / Num.fin ((8000 : ℕ) : ℝ) : Num ℝ) = .pinf := by
    show (if (0 : ℝ) ≤ ((8000 : ℕ) : ℝ) then Num.pinf else Num.ninf) = _
    rw [if_pos (by norm_num)]
  have h3 : (Num.pinf * Num.fin ((100 : ℕ) : ℝ) : Num ℝ) = .pinf := by
    show Num.infTimes ((100 : ℕ) : ℝ) = _
    simp [Num.infTimes]
  rw [h1, h2, h3]
  rfl

/-! ## Claims C1 to C6 -/

/-- Claim C1 (defect in the code): for the params of the tests, which satisfy the
entry-point constraints, the efficiency field of the design is NaN, not a number in
(0, 0.96]: `calculateEfficiency` reads `poleCount`, and the record it is handed has
the pole count under `poles`. -/
theorem design_efficiency_testParams (now : String) :
    validParams (testParams : Params ℝ) = true ∧
      (calculateMotorDesign realMath now testParams).efficiency = .nan ∧
      ¬ ((0 : Num ℝ) < (calculateMotorDesign realMath now testParams).efficiency ∧
        (calculateMotorDesign realMath now testParams).efficiency ≤ 0.96) := by
  refine ⟨validParams_testParams, calculateMotorDesign_efficiency now _, ?_⟩
  rw [calculateMotorDesign_efficiency]
  intro h
  exact Num.not_lt_nan _ h.1

/-- Claim C2 (defect in the code): for the params of the tests the estimated KV is
1352 / (22 * sqrt 28), below 12, so it is not within 30% of the target 800. -/
theorem design_estimatedKV_testParams (now : String) :
    (calculateMotorDesign realMath now testParams).estimatedKV =
        .fin (1352 / (22 * Real.sqrt 28)) ∧
      (1352 : ℝ) / (22 * Real.sqrt 28) < 12 ∧
      ¬ (realMath.abs ((calculateMotorDesign realMath now testParams).estimatedKV - 800) / 800
        < (0.3 : Num ℝ)) := by
  refine ⟨testDesign_estimatedKV now, testDesign_estimatedKV_lt, ?_⟩
  have h800 : ((800 : ℕ) : ℝ) ≠ 0 := by norm_num
  have hlt := testDesign_estimatedKV_lt
  rw [testDesign_estimatedKV, Num.ofNat_eq, Num.fin_sub_fin, JsMath.abs_fin,
    Num.fin_div_fin_of_ne _ h800, Num.ofScientific_eq, Num.fin_lt_fin, not_lt]
  have habs : |1352 / (22 * Real.sqrt 28) - ((800 : ℕ) : ℝ)| =
      ((800 : ℕ) : ℝ) - 1352 / (22 * Real.sqrt 28) := by
    rw [abs_sub_comm, abs_of_nonneg]
    norm_num
    linarith
  rw [habs, le_div_iff₀ (by norm_num)]
  norm_num
  linarith

/-- Claim C3, counterexample: for valid params with target KV 8000 the turns per coil
round to 0, the divisor in `calculateKV` is zero and the estimated KV and its
deviation are +Infinity; the efficiency is NaN. -/
theorem design_estimates_highKv :
    validParams (highKvParams : Params ℝ) = true ∧
      (calculateMotorDesign realMath testClock highKvParams).turnsPerCoil = .fin 0 ∧
      (calculateMotorDesign realMath testClock highKvParams).estimatedKV = .pinf ∧
      (calculateMotorDesign realMath testClock highKvParams).kvDeviation = .pinf ∧
      (calculateMotorDesign realMath testClock highKvParams).efficiency = .nan ∧
      ¬ ((calculateMotorDesign realMath testClock highKvParams).estimatedKV.isFinite = true ∧
        (calculateMotorDesign realMath testClock highKvParams).kvDeviation.isFinite = true ∧
        (calculateMotorDesign realMath testClock highKvParams).efficiency.isFinite = true) := by
  refine ⟨validParams_highKvParams, highKvDesign_turnsPerCoil _, highKvDesign_estimatedKV _,
    highKvDesign_kvDeviation _, calculateMotorDesign_efficiency _ _, ?_⟩
  rw [highKvDesign_estimatedKV]
  intro h
  exact absurd h.1 (by simp [Num.isFinite])

/-- Witness for claim C3: the params of the tests have 4 turns per coil. -/
theorem design_estimates_of_turns_witness :
    validParams (testParams : Params ℝ) = true ∧
      (1 : Num ℝ) ≤ (calculateMotorDesign realMath testClock testParams).turnsPerCoil ∧
      (calculateMotorDesign realMath testClock testParams).estimatedKV.isFinite = true ∧
      (calculateMotorDesign realMath testClock testParams).kvDeviation.isFinite = true := by
  have hturns : (1 : Num ℝ) ≤ (calculateMotorDesign realMath testClock testParams).turnsPerCoil := by
    rw [testDesign_turnsPerCoil, Num.ofNat_eq, Num.fin_le_fin]
    norm_num
  have h := design_estimates_of_turns testClock testParams validParams_testParams hturns
  exact ⟨validParams_testParams, hturns, h.2.2.1, h.2.2.2⟩

/-- Claim C4: when at least one catalog entry passes the fit test, the configuration
returned is a surviving catalog entry (with its pole pitch and total score) whose total
score is at least that of every surviving entry, and every surviving entry before it
in the catalog has a strictly smaller score. -/
theorem calculateConfiguration_picks_best (mn mx t : ℝ)
    (hfit : ∃ c ∈ (SLOTS_POLES_COMBINATIONS : List (Obj ℝ)), fitsDiameter realMath (.fin mx) c) :
    ∃ pre c post, (SLOTS_POLES_COMBINATIONS : List (Obj ℝ)) = pre ++ c :: post ∧
      fitsDiameter realMath (.fin mx) c ∧
      calculateConfiguration realMath (.fin mn) (.fin mx) (.fin t) =
        scoredEntry realMath (.fin mn) (.fin mx) (.fin t) c ∧
      (∀ d ∈ (SLOTS_POLES_COMBINATIONS : List (Obj ℝ)), fitsDiameter realMath (.fin mx) d →
        specTotalScore realMath (.fin mn) (.fin mx) (.fin t) d ≤
          specTotalScore realMath (.fin mn) (.fin mx) (.fin t) c) ∧
      (∀ d ∈ pre, fitsDiameter realMath (.fin mx) d →
        specTotalScore realMath (.fin mn) (.fin mx) (.fin t) d <
          specTotalScore realMath (.fin mn) (.fin mx) (.fin t) c) :=
  calculateConfiguration_firstMax mn mx t hfit

/-- Witness for claim C4: the range 30 to 40 with target KV 800, where the entry with
21 slots passes the fit test. -/
theorem calculateConfiguration_picks_best_witness :
    (∃ c ∈ (SLOTS_POLES_COMBINATIONS : List (Obj ℝ)), fitsDiameter realMath (.fin 40) c) ∧
      ∃ pre c post, (SLOTS_POLES_COMBINATIONS : List (Obj ℝ)) = pre ++ c :: post ∧
        fitsDiameter realMath (.fin 40) c ∧
        calculateConfiguration realMath (.fin 30) (.fin 40) (.fin 800) =
          scoredEntry realMath (.fin 30) (.fin 40) (.fin 800) c ∧
        (∀ d ∈ (SLOTS_POLES_COMBINATIONS : List (Obj ℝ)), fitsDiameter realMath (.fin 40) d →
          specTotalScore realMath (.fin 30) (.fin 40) (.fin 800) d ≤
            specTotalScore realMath (.fin 30) (.fin 40) (.fin 800) c) ∧
        (∀ d ∈ pre, fitsDiameter realMath (.fin 40) d →
          specTotalScore realMath (.fin 30) (.fin 40) (.fin 800) d <
            specTotalScore realMath (.fin 30) (.fin 40) (.fin 800) c) := by
  have hfit : ∃ c ∈ (SLOTS_POLES_COMBINATIONS : List (Obj ℝ)),
      fitsDiameter realMath (.fin 40) c :=
    ⟨_, entry_21_22_mem, entry_21_22_fits 40 (by have := pi_range_30_40; norm_num at this; exact this)⟩
  exact ⟨hfit, calculateConfiguration_picks_best 30 40 800 hfit⟩

/-- Claim C6 (defect in the code): for the range 30 to 40 the configuration returned
for target KV 800 and the one returned for target KV 2000 are the same catalog entry,
21 slots, 22 poles, distributed; the two records differ in the score only. -/
theorem calculateConfiguration_800_2000 :
    (calculateConfiguration realMath 30 40 800).get "slots" = .num 21 ∧
      (calculateConfiguration realMath 30 40 2000).get "slots" = .num 21 ∧
      (calculateConfiguration realMath 30 40 800).get "poles" = .num 22 ∧
      (calculateConfiguration realMath 30 40 2000).get "poles" = .num 22 ∧
      (calculateConfiguration realMath 30 40 800).get "winding" = .str "distributed" ∧
      (calculateConfiguration realMath 30 40 2000).get "winding" = .str "distributed" := by
  have h1 := calculateConfiguration_30_40 ((800 : ℕ) : ℝ)
  have h2 := calculateConfiguration_30_40 ((2000 : ℕ) : ℝ)
  have e1 : calculateConfiguration realMath 30 40 800 = _ := h1
  have e2 : calculateConfiguration realMath 30 40 2000 = _ := h2
  rw [e1, e2]
  exact ⟨rfl, rfl, rfl, rfl, rfl, rfl⟩

/-! ## Claims C5 to C8 -/

theorem entry_6_8_mem :
    (combination 6 8 "concentrated" 24 2 : Obj ℝ) ∈
      (SLOTS_POLES_COMBINATIONS : List (Obj ℝ)) := by
  simp [SLOTS_POLES_COMBINATIONS]

/-- No catalog entry passes the fit test exactly when maxDiameter is below 30 / pi. -/
theorem no_entry_fits_iff (mx : ℝ) :
    (∀ c ∈ (SLOTS_POLES_COMBINATIONS : List (Obj ℝ)), ¬ fitsDiameter realMath (.fin mx) c) ↔
      mx < 30 / Real.pi := by
  have hpi := Real.pi_pos
  constructor
  · intro h
    have h6 := h _ entry_6_8_mem
    have e : fitsDiameter realMath (.fin mx) (combination 6 8 "concentrated" 24 2) ↔
        (6 : ℝ) * 5 / Real.pi ≤ mx := by
      have := fitsDiameter_combination mx 6 8 24 2 "concentrated"
      norm_num at this ⊢
      exact this
    rw [e, not_le] at h6
    norm_num at h6
    exact h6
  · intro h c hc
    obtain ⟨s, p, l, cf, w, rfl, hs, _, _⟩ := catalog_shape c hc
    rw [fitsDiameter_combination, not_le]
    apply lt_of_lt_of_le h
    apply div_le_div_of_nonneg_right _ (le_of_lt hpi)
    linarith

theorem scoredEntry_ne_specFallback (Math : JsMath ℝ) (mn mx t : Num ℝ) (c : Obj ℝ) :
    scoredEntry Math mn mx t c ≠ specFallback Math mn mx := by
  intro h
  have h1 : (scoredEntry Math mn mx t c).get "score" = (specFallback Math mn mx).get "score" := by
    rw [h]
  have h2 : (scoredEntry Math mn mx t c).get "score" =
      .num (specTotalScore Math mn mx t c) := rfl
  have h3 : (specFallback Math mn mx).get "score" = .undefined := rfl
  rw [h2, h3] at h1
  exact Val.noConfusion h1

/-- The fallback is returned exactly when no catalog entry passes the fit test, that is
when maxDiameter < 30 / pi; otherwise a scored surviving entry is returned. -/
theorem fallback_iff_none_fits (mn mx t : ℝ) :
    (calculateConfiguration realMath (.fin mn) (.fin mx) (.fin t) =
        specFallback realMath (.fin mn) (.fin mx) ↔
      ∀ c ∈ (SLOTS_POLES_COMBINATIONS : List (Obj ℝ)), ¬ fitsDiameter realMath (.fin mx) c) ∧
    (calculateConfiguration realMath (.fin mn) (.fin mx) (.fin t) =
        specFallback realMath (.fin mn) (.fin mx) ↔ mx < 30 / Real.pi) ∧
    (¬ (mx < 30 / Real.pi) →
      ∃ c ∈ (SLOTS_POLES_COMBINATIONS : List (Obj ℝ)), fitsDiameter realMath (.fin mx) c ∧
        calculateConfiguration realMath (.fin mn) (.fin mx) (.fin t) =
          scoredEntry realMath (.fin mn) (.fin mx) (.fin t) c) := by
  have hsurv : (¬ ∀ c ∈ (SLOTS_POLES_COMBINATIONS : List (Obj ℝ)),
      ¬ fitsDiameter realMath (.fin mx) c) →
      ∃ c ∈ (SLOTS_POLES_COMBINATIONS : List (Obj ℝ)), fitsDiameter realMath (.fin mx) c ∧
        calculateConfiguration realMath (.fin mn) (.fin mx) (.fin t) =
          scoredEntry realMath (.fin mn) (.fin mx) (.fin t) c := by
    intro hn
    push_neg at hn
    obtain ⟨pre, c, post, hdec, hfit, hres, _, _⟩ := calculateConfiguration_firstMax mn mx t hn
    refine ⟨c, ?_, hfit, hres⟩
    rw [hdec]
    simp
  have hiff : calculateConfiguration realMath (.fin mn) (.fin mx) (.fin t) =
        specFallback realMath (.fin mn) (.fin mx) ↔
      ∀ c ∈ (SLOTS_POLES_COMBINATIONS : List (Obj ℝ)), ¬ fitsDiameter realMath (.fin mx) c := by
    constructor
    · intro h
      by_contra hn
      obtain ⟨c, _, _, hres⟩ := hsurv hn
      rw [hres] at h
      exact scoredEntry_ne_specFallback _ _ _ _ _ h
    · exact calculateConfiguration_fallback mn mx t
  refine ⟨hiff, hiff.trans (no_entry_fits_iff mx), ?_⟩
  intro h
  apply hsurv
  rw [no_entry_fits_iff]
  exact h

/-- Claim C5: `calculateConfiguration` always returns a configuration; it returns the
fixed fallback exactly when no catalog entry passes the fit test, which is exactly when
maxDiameter < 30 / pi, and a surviving catalog entry otherwise. -/
theorem calculateConfiguration_fallback_iff (mn mx t : ℝ) :
    (calculateConfiguration realMath (.fin mn) (.fin mx) (.fin t) =
        specFallback realMath (.fin mn) (.fin mx) ↔
      ∀ c ∈ (SLOTS_POLES_COMBINATIONS : List (Obj ℝ)), ¬ fitsDiameter realMath (.fin mx) c) ∧
    (calculateConfiguration realMath (.fin mn) (.fin mx) (.fin t) =
        specFallback realMath (.fin mn) (.fin mx) ↔ mx < 30 / Real.pi) ∧
    (¬ (mx < 30 / Real.pi) →
      ∃ c ∈ (SLOTS_POLES_COMBINATIONS : List (Obj ℝ)), fitsDiameter realMath (.fin mx) c ∧
        calculateConfiguration realMath (.fin mn) (.fin mx) (.fin t) =
          scoredEntry realMath (.fin mn) (.fin mx) (.fin t) c) :=
  fallback_iff_none_fits mn mx t

/-- Claim C7, counterexample: for motorDiameter 0 with the configuration of the tests
both turnsPerCoil and maxTurnsPerCoil are NaN (the slot area is 0 / 0), and
`turnsPerCoil <= maxTurnsPerCoil` is false. -/
theorem coilDimensions_zero_diameter :
    (calculateCoilDimensions realMath 0 testConfig 0.8 800).maxTurnsPerCoil = .nan ∧
      (calculateCoilDimensions realMath 0 testConfig 0.8 800).turnsPerCoil = .nan ∧
      ¬ ((calculateCoilDimensions realMath 0 testConfig 0.8 800).turnsPerCoil ≤
        (calculateCoilDimensions realMath 0 testConfig 0.8 800).maxTurnsPerCoil) := by
  have hmax : (calculateCoilDimensions realMath 0 testConfig 0.8 800).maxTurnsPerCoil = .nan := by
    have h2 : ((2 : ℕ) : ℝ) ≠ 0 := by norm_num
    have h12 : ((12 : ℕ) : ℝ) ≠ 0 := by norm_num
    have hs : (testConfig : Obj ℝ).num "slots" = .fin ((12 : ℕ) : ℝ) := rfl
    simp only [calculateCoilDimensions, hs, realMath_PI, Num.ofNat_eq, Num.ofScientific_eq,
      Num.fin_mul_fin, Num.fin_sub_fin, Num.fin_div_fin_of_ne _ h12, Nat.cast_zero, zero_mul,
      mul_zero, zero_div]
    rw [Num.fin_div_fin, if_pos rfl]
    simp [Num.infTimes]
    rfl
  have hturns : (calculateCoilDimensions realMath 0 testConfig 0.8 800).turnsPerCoil = .nan := by
    rw [coilDimensions_turnsPerCoil_eq, hmax]
    rfl
  refine ⟨hmax, hturns, ?_⟩
  rw [hturns]
  exact Num.not_nan_le _

/-- Claim C7, amended: for every motorDiameter other than zero, every configuration
whose slots field is a number other than zero and whose poles field is a number, and
every wireDiameter and targetKv, `calculateCoilDimensions` returns
turnsPerCoil <= maxTurnsPerCoil; so does every design returned by
`calculateMotorDesign` for numeric params with minDiameter + maxDiameter not zero. -/
theorem turnsPerCoil_le_maxTurnsPerCoil (md s p d t : ℝ) (config : Obj ℝ) (hmd : md ≠ 0)
    (hs : s ≠ 0) (hslots : config.num "slots" = .fin s) (hpoles : config.num "poles" = .fin p) :
    (calculateCoilDimensions realMath (.fin md) config (.fin d) (.fin t)).turnsPerCoil ≤
        (calculateCoilDimensions realMath (.fin md) config (.fin d) (.fin t)).maxTurnsPerCoil ∧
      ∀ (now : String) (P : Params ℝ) (wire mn mx kv : ℝ), P.wireThickness = .fin wire →
        P.minDiameter = .fin mn → P.maxDiameter = .fin mx → P.targetKV = .fin kv →
        mn + mx ≠ 0 →
        (calculateMotorDesign realMath now P).turnsPerCoil ≤
          (calculateMotorDesign realMath now P).maxTurnsPerCoil :=
  ⟨coilDimensions_turns_le md s p d t config hmd hs hslots hpoles,
    fun now P wire mn mx kv h1 h2 h3 h4 h5 =>
      calculateMotorDesign_turns_le now P wire mn mx kv h1 h2 h3 h4 h5⟩

/-- Witness for claim C7: the input of the coil test, motorDiameter 30 with the
configuration of 12 slots and 14 poles, wire 0.8 and target KV 800. -/
theorem turnsPerCoil_le_maxTurnsPerCoil_witness :
    (calculateCoilDimensions realMath (.fin 30) testConfig (.fin 0.8) (.fin 800)).turnsPerCoil ≤
      (calculateCoilDimensions realMath (.fin 30) testConfig (.fin 0.8)
        (.fin 800)).maxTurnsPerCoil :=
  (turnsPerCoil_le_maxTurnsPerCoil 30 12 14 0.8 800 testConfig (by norm_num) (by norm_num)
    (by simp [testConfig, Obj.num, Obj.get, List.lookup, Val.toNumber])
    (by simp [testConfig, Obj.num, Obj.get, List.lookup, Val.toNumber])).1

theorem floor_lt_floor_four_mul (A : ℝ) (hA : 0 ≤ A) : ⌊A⌋ < ⌊4 * A⌋ ↔ 1 ≤ 4 * A := by
  constructor
  · intro h
    by_contra hn
    rw [not_le] at hn
    have h4 : ⌊4 * A⌋ = 0 := by
      rw [Int.floor_eq_iff]
      constructor
      · simp only [Int.cast_zero]
        linarith
      · simp only [Int.cast_zero, zero_add]
        exact hn
    have h1 : 0 ≤ ⌊A⌋ := Int.floor_nonneg.mpr hA
    omega
  · intro h
    have hfl : (⌊A⌋ : ℝ) ≤ A := Int.floor_le A
    have h0 : 0 ≤ ⌊A⌋ := Int.floor_nonneg.mpr hA
    have hkey : ⌊A⌋ + 1 ≤ ⌊4 * A⌋ := by
      rw [Int.le_floor]
      push_cast
      rcases eq_or_lt_of_le h0 with h00 | hpos
      · rw [← h00]
        simp only [Int.cast_zero, zero_add]
        exact h
      · have : (1 : ℝ) ≤ (⌊A⌋ : ℝ) := by exact_mod_cast hpos
        linarith
    omega

/-- The packing limits for wire of 1.0 mm and of 0.5 mm. -/
theorem maxTurns_wire_10_05 (md s : ℝ) (config : Obj ℝ) (kv : Num ℝ) (hmd : 0 < md)
    (hs : 0 < s) (hslots : config.num "slots" = .fin s) :
    (calculateCoilDimensions realMath (.fin md) config 1.0 kv).maxTurnsPerCoil =
        .fin ((⌊0.1157625 * md ^ 2 / s⌋ : ℤ) : ℝ) ∧
      (calculateCoilDimensions realMath (.fin md) config 0.5 kv).maxTurnsPerCoil =
        .fin ((⌊4 * (0.1157625 * md ^ 2 / s)⌋ : ℤ) : ℝ) := by
  constructor
  · rw [Num.ofScientific_eq, coilDimensions_maxTurns md s _ (ne_of_gt hmd) (ne_of_gt hs)
      (by norm_num) config hslots]
    congr 3
    norm_num
  · rw [Num.ofScientific_eq, coilDimensions_maxTurns md s _ (ne_of_gt hmd) (ne_of_gt hs)
      (by norm_num) config hslots]
    congr 3
    have hs0 := ne_of_gt hs
    field_simp
    norm_num
    ring

/-- Claim C8, counterexample: for motorDiameter 1 with the configuration of the tests
and target KV 800, no turn fits with either wire: maxTurnsPerCoil is 0 for 0.5 mm and
for 1.0 mm, so the first is not strictly greater. -/
theorem maxTurns_small_motor :
    (calculateCoilDimensions realMath 1 testConfig 0.5 800).maxTurnsPerCoil = .fin 0 ∧
      (calculateCoilDimensions realMath 1 testConfig 1.0 800).maxTurnsPerCoil = .fin 0 ∧
      ¬ ((calculateCoilDimensions realMath 1 testConfig 1.0 800).maxTurnsPerCoil <
        (calculateCoilDimensions realMath 1 testConfig 0.5 800).maxTurnsPerCoil) := by
  have hs : (testConfig : Obj ℝ).num "slots" = .fin 12 := by
    simp [testConfig, Obj.num, Obj.get, List.lookup, Val.toNumber]
  have h := maxTurns_wire_10_05 ((1 : ℕ) : ℝ) 12 testConfig 800 (by norm_num) (by norm_num) hs
  have h1 : (calculateCoilDimensions realMath 1 testConfig 1.0 800).maxTurnsPerCoil = _ := h.1
  have h2 : (calculateCoilDimensions realMath 1 testConfig 0.5 800).maxTurnsPerCoil = _ := h.2
  have f1 : ⌊(0.1157625 : ℝ) * ((1 : ℕ) : ℝ) ^ 2 / 12⌋ = 0 := by
    rw [Int.floor_eq_iff]
    norm_num
  have f2 : ⌊4 * ((0.1157625 : ℝ) * ((1 : ℕ) : ℝ) ^ 2 / 12)⌋ = 0 := by
    rw [Int.floor_eq_iff]
    norm_num
  rw [f1] at h1
  rw [f2] at h2
  rw [h1, h2]
  simp

/-- Claim C8, amended: for every motorDiameter > 0, every configuration with
slots > 0 and every targetKv, wire of 0.5 mm gives a strictly greater maxTurnsPerCoil
than wire of 1.0 mm exactly when at least one turn of the 0.5 mm wire fits
(maxTurnsPerCoil for 0.5 mm is at least 1) and the count for 1.0 mm is finite; when
no turn of the 0.5 mm wire fits, both counts are 0. -/
theorem maxTurns_thinner_wire_iff_fits (md s : ℝ) (config : Obj ℝ) (kv : Num ℝ)
    (hmd : 0 < md) (hs : 0 < s) (hslots : config.num "slots" = .fin s) :
    ((calculateCoilDimensions realMath (.fin md) config 1.0 kv).maxTurnsPerCoil <
          (calculateCoilDimensions realMath (.fin md) config 0.5 kv).maxTurnsPerCoil ↔
        (1 ≤ (calculateCoilDimensions realMath (.fin md) config 0.5 kv).maxTurnsPerCoil ∧
          (calculateCoilDimensions realMath (.fin md) config 1.0
            kv).maxTurnsPerCoil.isFinite = true)) ∧
      ((calculateCoilDimensions realMath (.fin md) config 0.5 kv).maxTurnsPerCoil < 1 →
        (calculateCoilDimensions realMath (.fin md) config 0.5 kv).maxTurnsPerCoil = .fin 0 ∧
          (calculateCoilDimensions realMath (.fin md) config 1.0 kv).maxTurnsPerCoil =
            .fin 0) := by
  obtain ⟨h1, h2⟩ := maxTurns_wire_10_05 md s config kv hmd hs hslots
  have hA : (0 : ℝ) ≤ 0.1157625 * md ^ 2 / s := by positivity
  have h0 : 0 ≤ ⌊(0.1157625 : ℝ) * md ^ 2 / s⌋ := Int.floor_nonneg.mpr hA
  have h4 : 0 ≤ ⌊4 * ((0.1157625 : ℝ) * md ^ 2 / s)⌋ :=
    Int.floor_nonneg.mpr (by positivity)
  have hmono : ⌊(0.1157625 : ℝ) * md ^ 2 / s⌋ ≤ ⌊4 * ((0.1157625 : ℝ) * md ^ 2 / s)⌋ :=
    Int.floor_mono (by linarith)
  have hiff := floor_lt_floor_four_mul _ hA
  have hone : (1 : ℤ) ≤ ⌊4 * ((0.1157625 : ℝ) * md ^ 2 / s)⌋ ↔
      1 ≤ 4 * ((0.1157625 : ℝ) * md ^ 2 / s) := by
    rw [Int.le_floor]
    norm_num
  rw [h1, h2]
  simp only [Num.ofNat_eq, Num.fin_lt_fin, Num.fin_le_fin, Num.isFinite, and_true]
  constructor
  · rw [Int.cast_lt, hiff, ← hone]
    norm_cast
  · intro hlt
    have hlt1 : ⌊4 * ((0.1157625 : ℝ) * md ^ 2 / s)⌋ < 1 := by exact_mod_cast hlt
    have e4 : ⌊4 * ((0.1157625 : ℝ) * md ^ 2 / s)⌋ = 0 := by omega
    have e1 : ⌊(0.1157625 : ℝ) * md ^ 2 / s⌋ = 0 := by omega
    rw [e4, e1]
    simp

/-- Witness for claim C8: motorDiameter 30 with the configuration of 12 slots and 14
poles, as in the test; at least one turn of the 0.5 mm wire fits there. -/
theorem maxTurns_thinner_wire_iff_fits_witness :
    (calculateCoilDimensions realMath (.fin 30) testConfig 1.0 800).maxTurnsPerCoil <
      (calculateCoilDimensions realMath (.fin 30) testConfig 0.5 800).maxTurnsPerCoil :=
  (maxTurns_thinner_wire_iff_fits 30 12 testConfig 800 (by norm_num) (by norm_num)
    (by simp [testConfig, Obj.num, Obj.get, List.lookup, Val.toNumber])).1.mpr
    ⟨by
      rw [(maxTurns_wire_10_05 30 12 testConfig 800 (by norm_num) (by norm_num)
        (by simp [testConfig, Obj.num, Obj.get, List.lookup, Val.toNumber])).2,
        Num.ofNat_eq, Num.fin_le_fin]
      have : (1 : ℤ) ≤ ⌊4 * ((0.1157625 : ℝ) * 30 ^ 2 / 12)⌋ := by
        rw [Int.le_floor]
        norm_num
      exact_mod_cast this,
    by
      rw [(maxTurns_wire_10_05 30 12 testConfig 800 (by norm_num) (by norm_num)
        (by simp [testConfig, Obj.num, Obj.get, List.lookup, Val.toNumber])).1]
      rfl⟩

/-- The chain in exact arithmetic for the params of the tests. -/
theorem design_diameter_chain_witness :
    (calculateMotorDesign realMath testClock testParams).statorInnerDiameter <
        (calculateMotorDesign realMath testClock testParams).statorOuterDiameter ∧
      (calculateMotorDesign realMath testClock testParams).statorOuterDiameter <
        (calculateMotorDesign realMath testClock testParams).rotorInnerDiameter ∧
      (calculateMotorDesign realMath testClock testParams).rotorInnerDiameter <
        (calculateMotorDesign realMath testClock testParams).rotorDiameter ∧
      (calculateMotorDesign realMath testClock testParams).rotorDiameter =
        (calculateMotorDesign realMath testClock testParams).motorDiameter :=
  design_diameter_chain testClock testParams 30 40 (by simp [testParams])
    (by simp [testParams]) (by norm_num)

/-! ## Claims C11 and C12 -/

theorem fitsDiameter_scoredEntry (Math : JsMath ℝ) (mn mx t lim : Num ℝ) (c : Obj ℝ)
    (hc : c ∈ (SLOTS_POLES_COMBINATIONS : List (Obj ℝ))) :
    fitsDiameter Math lim (scoredEntry Math mn mx t c) ↔ fitsDiameter Math lim c := by
  obtain ⟨s, p, l, cf, w, rfl, _, _, _⟩ := catalog_shape c hc
  exact Iff.rfl

/-- Claim C11: for every params record (so for every one that satisfies the entry-point
constraints), the configuration chosen inside `calculateMotorDesign` passes the fit
test slots * 5 / pi <= maxDiameter or is the fallback; and for all numeric arguments
with maxDiameter >= 30 / pi the configuration returned passes the fit test. -/
theorem chosen_configuration_fits (P : Params ℝ) :
    (fitsDiameter realMath P.maxDiameter
          (calculateConfiguration realMath P.minDiameter P.maxDiameter P.targetKV) ∨
        calculateConfiguration realMath P.minDiameter P.maxDiameter P.targetKV =
          specFallback realMath P.minDiameter P.maxDiameter) ∧
      ∀ mn mx t : ℝ, 30 / Real.pi ≤ mx →
        fitsDiameter realMath (.fin mx)
          (calculateConfiguration realMath (.fin mn) (.fin mx) (.fin t)) := by
  constructor
  · rcases calculateConfiguration_cases realMath P.minDiameter P.maxDiameter P.targetKV with
      h | ⟨c, hc, hfit, h⟩
    · exact Or.inr h
    · left
      rw [h, fitsDiameter_scoredEntry _ _ _ _ _ c hc]
      exact hfit
  · intro mn mx t hmx
    rcases calculateConfiguration_cases realMath (.fin mn) (.fin mx) (.fin t) with
      h | ⟨c, hc, hfit, h⟩
    · exfalso
      have hlt := (fallback_iff_none_fits mn mx t).2.1.mp h
      linarith
    · rw [h, fitsDiameter_scoredEntry _ _ _ _ _ c hc]
      exact hfit

/-- Witness for claim C11: the params of the tests and the range 30 to 40. -/
theorem chosen_configuration_fits_witness :
    (30 : ℝ) / Real.pi ≤ 40 ∧
      fitsDiameter realMath (.fin 40)
        (calculateConfiguration realMath (.fin 30) (.fin 40) (.fin 800)) := by
  have h : (30 : ℝ) / Real.pi ≤ 40 := by
    have hpi := Real.pi_gt_three
    rw [div_le_iff₀ Real.pi_pos]
    linarith
  exact ⟨h, (chosen_configuration_fits testParams).2 30 40 800 h⟩

theorem catalog_first_mem :
    (combination 12 14 "distributed" 84 7 : Obj ℝ) ∈
      (SLOTS_POLES_COMBINATIONS : List (Obj ℝ)) := by
  simp [SLOTS_POLES_COMBINATIONS]

/-- Claim C12: for all arguments the configuration returned has slots > 0 and
poles > 0, and its slots, poles, winding and coggingFactor are those of one of the
catalog entries (the fallback has those of the first entry). -/
theorem configuration_from_catalog (mn mx t : Num ℝ) :
    (0 : Num ℝ) < (calculateConfiguration realMath mn mx t).num "slots" ∧
      (0 : Num ℝ) < (calculateConfiguration realMath mn mx t).num "poles" ∧
      ∃ c ∈ (SLOTS_POLES_COMBINATIONS : List (Obj ℝ)),
        (calculateConfiguration realMath mn mx t).get "slots" = c.get "slots" ∧
        (calculateConfiguration realMath mn mx t).get "poles" = c.get "poles" ∧
        (calculateConfiguration realMath mn mx t).get "winding" = c.get "winding" ∧
        (calculateConfiguration realMath mn mx t).get "coggingFactor" =
          c.get "coggingFactor" := by
  obtain ⟨s, p, w, hs, hp, _, hslots, hpoles, _⟩ :=
    calculateConfiguration_fields realMath mn mx t
  refine ⟨?_, ?_, ?_⟩
  · rw [num_of_get hslots, Num.ofNat_eq, Num.fin_lt_fin]
    norm_num
    linarith
  · rw [num_of_get hpoles, Num.ofNat_eq, Num.fin_lt_fin]
    norm_num
    linarith
  · rcases calculateConfiguration_cases realMath mn mx t with h | ⟨c, hc, _, h⟩
    · rw [h]
      exact ⟨_, catalog_first_mem, rfl, rfl, rfl, rfl⟩
    · rw [h]
      obtain ⟨s, p, l, cf, w, rfl, _, _, _⟩ := catalog_shape c hc
      exact ⟨_, hc, rfl, rfl, rfl, rfl⟩

/-- The catalog has 13 entries. -/
theorem catalog_length : (SLOTS_POLES_COMBINATIONS : List (Obj ℝ)).length = 13 := rfl

/-! ## Magnet parameters and airgap: claims C13 and C14 -/

theorem magnetParameters_arcLength (md p : ℝ) (hp : p ≠ 0) (w h : Num ℝ) :
    (calculateMagnetParameters realMath (.fin md) (.fin p) w h).arcLength =
      .fin (Real.pi * 0.75 * md / p) := by
  have h360 : ((360 : ℕ) : ℝ) ≠ 0 := by norm_num
  simp only [calculateMagnetParameters, realMath_PI, Num.ofNat_eq, Num.ofScientific_eq,
    Num.fin_mul_fin, Num.fin_div_fin_of_ne _ hp, Num.fin_div_fin_of_ne _ h360]
  congr 1
  norm_num
  field_simp
  ring

theorem magnetParameters_magnetGap (Math : JsMath ℝ) (md p w h : Num ℝ) :
    (calculateMagnetParameters Math md p w h).magnetGap =
      (calculateMagnetParameters Math md p w h).arcLength * 0.1 := rfl

theorem magnetParameters_magnetWidth (Math : JsMath ℝ) (md p w h : Num ℝ) :
    (calculateMagnetParameters Math md p w h).magnetWidth =
      Math.min w ((calculateMagnetParameters Math md p w h).arcLength -
        (calculateMagnetParameters Math md p w h).magnetGap) := rfl

theorem magnetParameters_magnetHeight (md h : ℝ) (p w : Num ℝ) :
    (calculateMagnetParameters realMath (.fin md) p w (.fin h)).magnetHeight =
      .fin (min h ((md - md * 0.75) / 2 * 0.9)) := by
  have h2 : ((2 : ℕ) : ℝ) ≠ 0 := by norm_num
  simp only [calculateMagnetParameters, Num.ofNat_eq, Num.ofScientific_eq,
    Num.fin_mul_fin, Num.fin_sub_fin, Num.fin_div_fin_of_ne _ h2, JsMath.min_fin_fin]
  norm_num

/-- Claim C13, counterexample: for poleCount 0 (motorDiameter 30, requested width 10
and height 15) the arc length and the gap are +Infinity, their difference is NaN, and
so is magnetWidth; `magnetWidth <= 10` is false. -/
theorem magnetParameters_zero_poles :
    (calculateMagnetParameters realMath 30 0 10 15).arcLength = .pinf ∧
      (calculateMagnetParameters realMath 30 0 10 15).magnetWidth = .nan ∧
      ¬ ((calculateMagnetParameters realMath 30 0 10 15).magnetWidth ≤ (10 : Num ℝ)) := by
  have harc : (calculateMagnetParameters realMath 30 0 10 15).arcLength = .pinf := by
    have h360 : ((360 : ℕ) : ℝ) ≠ 0 := by norm_num
    have hpos : (0 : ℝ) < Real.pi * (((30 : ℕ) : ℝ) * OfScientific.ofScientific 75 true 2) := by
      have := Real.pi_pos
      positivity
    simp only [calculateMagnetParameters, realMath_PI, Num.ofNat_eq, Num.ofScientific_eq,
      Num.fin_mul_fin, Nat.cast_zero]
    rw [Num.fin_div_fin, if_pos rfl]
    have h1 : Num.infTimes (((360 : ℕ) : ℝ)) = Num.pinf := by
      simp [Num.infTimes]
    rw [h1]
    have h2 : (Num.fin (Real.pi * (((30 : ℕ) : ℝ) * OfScientific.ofScientific 75 true 2)) *
        Num.pinf : Num ℝ) = Num.pinf := by
      show Num.infTimes _ = _
      simp only [Num.infTimes, if_neg (ne_of_gt hpos), if_pos hpos]
    rw [h2]
    show (if (0 : ℝ) ≤ ((360 : ℕ) : ℝ) then Num.pinf else Num.ninf) = _
    rw [if_pos (by norm_num)]
  have hw : (calculateMagnetParameters realMath 30 0 10 15).magnetWidth = .nan := by
    rw [magnetParameters_magnetWidth, magnetParameters_magnetGap, harc]
    have h1 : (Num.pinf * (0.1 : Num ℝ)) = Num.pinf := by
      show Num.infTimes _ = _
      simp [Num.infTimes]
      norm_num
    rw [h1]
    rfl
  refine ⟨harc, hw, ?_⟩
  rw [hw]
  exact Num.not_nan_le _

/-- Claim C13, amended: for every motorDiameter, every poleCount other than 0 and every
requested width w and height h, `calculateMagnetParameters` returns magnetWidth <= w,
magnetHeight <= h and magnetWidth <= arcLength - magnetGap; magnetHeight <= h holds
for every poleCount. -/
theorem magnet_within_request (md p w h : ℝ) (hp : p ≠ 0) :
    (calculateMagnetParameters realMath (.fin md) (.fin p) (.fin w) (.fin h)).magnetWidth ≤
        .fin w ∧
      (calculateMagnetParameters realMath (.fin md) (.fin p) (.fin w) (.fin h)).magnetHeight ≤
        .fin h ∧
      (calculateMagnetParameters realMath (.fin md) (.fin p) (.fin w) (.fin h)).magnetWidth ≤
        (calculateMagnetParameters realMath (.fin md) (.fin p) (.fin w) (.fin h)).arcLength -
          (calculateMagnetParameters realMath (.fin md) (.fin p) (.fin w) (.fin h)).magnetGap ∧
      ∀ q : Num ℝ,
        (calculateMagnetParameters realMath (.fin md) q (.fin w) (.fin h)).magnetHeight ≤
          .fin h := by
  refine ⟨?_, ?_, ?_, ?_⟩
  · rw [magnetParameters_magnetWidth, magnetParameters_magnetGap,
      magnetParameters_arcLength md p hp, Num.ofScientific_eq, Num.fin_mul_fin, Num.fin_sub_fin,
      JsMath.min_fin_fin, Num.fin_le_fin]
    exact min_le_left _ _
  · rw [magnetParameters_magnetHeight, Num.fin_le_fin]
    exact min_le_left _ _
  · rw [magnetParameters_magnetWidth, magnetParameters_magnetGap,
      magnetParameters_arcLength md p hp, Num.ofScientific_eq, Num.fin_mul_fin, Num.fin_sub_fin,
      JsMath.min_fin_fin, Num.fin_le_fin]
    exact min_le_right _ _
  · intro q
    rw [magnetParameters_magnetHeight, Num.fin_le_fin]
    exact min_le_left _ _

/-- Witness for claim C13: the input of the magnet test, diameter 30 with 14 poles,
requested width 10 and height 15. -/
theorem magnet_within_request_witness :
    (calculateMagnetParameters realMath (.fin 30) (.fin 14) (.fin 10) (.fin 15)).magnetWidth ≤
        .fin 10 ∧
      (calculateMagnetParameters realMath (.fin 30) (.fin 14) (.fin 10) (.fin 15)).magnetHeight ≤
        .fin 15 :=
  ⟨(magnet_within_request 30 14 10 15 (by norm_num)).1,
    (magnet_within_request 30 14 10 15 (by norm_num)).2.1⟩

/-- Claim C14: for a fixed motorDiameter > 0 and pole counts 0 < p1 < p2 the arc length
for p1 is strictly greater than for p2; the arc length is pi * 0.75 * motorDiameter /
poleCount. -/
theorem arcLength_decreasing (md p1 p2 : ℝ) (w h : Num ℝ) (hmd : 0 < md) (hp1 : 0 < p1)
    (h12 : p1 < p2) :
    (calculateMagnetParameters realMath (.fin md) (.fin p2) w h).arcLength <
        (calculateMagnetParameters realMath (.fin md) (.fin p1) w h).arcLength ∧
      (calculateMagnetParameters realMath (.fin md) (.fin p1) w h).arcLength =
        .fin (Real.pi * 0.75 * md / p1) ∧
      (calculateMagnetParameters realMath (.fin md) (.fin p2) w h).arcLength =
        .fin (Real.pi * 0.75 * md / p2) := by
  have hp2 : 0 < p2 := lt_trans hp1 h12
  have e1 := magnetParameters_arcLength md p1 (ne_of_gt hp1) w h
  have e2 := magnetParameters_arcLength md p2 (ne_of_gt hp2) w h
  refine ⟨?_, e1, e2⟩
  rw [e1, e2, Num.fin_lt_fin]
  have hpi := Real.pi_pos
  apply div_lt_div_of_pos_left _ hp1 h12
  positivity

/-- Witness for claim C14: diameter 30 with 10 against 20 poles, as in the test. -/
theorem arcLength_decreasing_witness :
    (calculateMagnetParameters realMath (.fin 30) (.fin 20) 10 15).arcLength <
      (calculateMagnetParameters realMath (.fin 30) (.fin 10) 10 15).arcLength :=
  (arcLength_decreasing 30 10 20 10 15 (by norm_num) (by norm_num) (by norm_num)).1

theorem calculateAirgap_fin (d : ℝ) :
    calculateAirgap (.fin d : Num ℝ) = .fin (0.5 + d / 200 * 0.5) := by
  have h200 : ((200 : ℕ) : ℝ) ≠ 0 := by norm_num
  simp only [calculateAirgap, Num.ofNat_eq, Num.ofScientific_eq, Num.fin_mul_fin,
    Num.fin_add_fin, Num.fin_div_fin_of_ne _ h200]
  norm_num

/-! ## Efficiency and KV: claims C16 and C17 -/

/-- Claim C16: for every parameter record with poleCount >= 0, lcm >= 0,
turnsPerCoil >= 0 and maxTurnsPerCoil > 0, `calculateEfficiency` returns a number e
with 0 < e <= 0.96 and e >= 0.82. -/
theorem calculateEfficiency_range (o : Obj ℝ) (pc l k m : ℝ)
    (hpc : o.num "poleCount" = .fin pc) (hl : o.num "lcm" = .fin l)
    (hk : o.num "turnsPerCoil" = .fin k) (hm : o.num "maxTurnsPerCoil" = .fin m)
    (hpc0 : 0 ≤ pc) (hl0 : 0 ≤ l) (hk0 : 0 ≤ k) (hm0 : 0 < m) :
    ∃ e : ℝ, calculateEfficiency realMath o = .fin e ∧ 0 < e ∧ e ≤ 0.96 ∧ 0.82 ≤ e ∧
      e = min 0.96 (0.82 + pc / 40 * 0.05 + l / 300 * 0.03 + k / m * 0.02) := by
  have h40 : ((40 : ℕ) : ℝ) ≠ 0 := by norm_num
  have h300 : ((300 : ℕ) : ℝ) ≠ 0 := by norm_num
  have e1 : calculateEfficiency realMath o =
      .fin (min 0.96 (0.82 + pc / 40 * 0.05 + l / 300 * 0.03 + k / m * 0.02)) := by
    simp only [calculateEfficiency, hpc, hl, hk, hm, Num.ofNat_eq, Num.ofScientific_eq,
      Num.fin_mul_fin, Num.fin_add_fin, Num.fin_div_fin_of_ne _ h40,
      Num.fin_div_fin_of_ne _ h300, Num.fin_div_fin_of_ne _ (ne_of_gt hm0), JsMath.min_fin_fin]
    norm_num
  have hsum : (0.82 : ℝ) ≤ 0.82 + pc / 40 * 0.05 + l / 300 * 0.03 + k / m * 0.02 := by
    have a1 : 0 ≤ pc / 40 * 0.05 := by positivity
    have a2 : 0 ≤ l / 300 * 0.03 := by positivity
    have a3 : 0 ≤ k / m * 0.02 := by positivity
    linarith
  have hge : (0.82 : ℝ) ≤ min 0.96 (0.82 + pc / 40 * 0.05 + l / 300 * 0.03 + k / m * 0.02) :=
    le_min (by norm_num) hsum
  refine ⟨_, e1, ?_, min_le_left _ _, hge, rfl⟩
  have : (0 : ℝ) < 0.82 := by norm_num
  linarith

/-- Witness for claim C16: the record of the test, poleCount 14, lcm 84, turnsPerCoil 10
and maxTurnsPerCoil 20. -/
theorem calculateEfficiency_range_witness :
    ∃ e : ℝ, calculateEfficiency realMath testMotorParams = .fin e ∧ 0 < e ∧ e ≤ 0.96 ∧
      0.82 ≤ e := by
  obtain ⟨e, h1, h2, h3, h4, _⟩ := calculateEfficiency_range testMotorParams 14 84 10 20
    (by simp [testMotorParams, Obj.num, Obj.get, List.lookup, Val.toNumber])
    (by simp [testMotorParams, Obj.num, Obj.get, List.lookup, Val.toNumber])
    (by simp [testMotorParams, Obj.num, Obj.get, List.lookup, Val.toNumber])
    (by simp [testMotorParams, Obj.num, Obj.get, List.lookup, Val.toNumber])
    (by norm_num) (by norm_num) (by norm_num) (by norm_num)
  exact ⟨e, h1, h2, h3, h4⟩

theorem calculateKV_pos (p t s : ℝ) (hp : 0 < p) (ht : 0 < t) (hs : 0 < s) :
    calculateKV realMath (.fin p) (.fin t) (.fin s) .undefined =
      .fin (1352 / (p * Real.sqrt (t * s / 3))) := by
  have harg : 0 < t * (s / 3) := by positivity
  have hdiv : p * Real.sqrt (t * (s / 3)) ≠ 0 :=
    ne_of_gt (mul_pos hp (Real.sqrt_pos.mpr harg))
  rw [calculateKV_fin _ _ _ (le_of_lt harg), Num.fin_div_fin_of_ne _ hdiv, mul_div_assoc]

/-- Claim C17: with the default magnet strength and positive arguments, `calculateKV`
returns 1352 / (poleCount * sqrt(turnsPerCoil * slotCount / 3)), which is positive,
strictly decreasing in poleCount and strictly decreasing in turnsPerCoil. -/
theorem calculateKV_decreasing (p t s : ℝ) (hp : 0 < p) (ht : 0 < t) (hs : 0 < s) :
    calculateKV realMath (.fin p) (.fin t) (.fin s) .undefined =
        .fin (1352 / (p * Real.sqrt (t * s / 3))) ∧
      (0 : Num ℝ) < calculateKV realMath (.fin p) (.fin t) (.fin s) .undefined ∧
      (∀ p2 : ℝ, p < p2 →
        calculateKV realMath (.fin p2) (.fin t) (.fin s) .undefined <
          calculateKV realMath (.fin p) (.fin t) (.fin s) .undefined) ∧
      (∀ t2 : ℝ, t < t2 →
        calculateKV realMath (.fin p) (.fin t2) (.fin s) .undefined <
          calculateKV realMath (.fin p) (.fin t) (.fin s) .undefined) := by
  have hsq : 0 < Real.sqrt (t * s / 3) := Real.sqrt_pos.mpr (by positivity)
  refine ⟨calculateKV_pos p t s hp ht hs, ?_, ?_, ?_⟩
  · rw [calculateKV_pos p t s hp ht hs, Num.ofNat_eq, Num.fin_lt_fin]
    norm_num
    positivity
  · intro p2 hp2
    rw [calculateKV_pos p t s hp ht hs, calculateKV_pos p2 t s (lt_trans hp hp2) ht hs,
      Num.fin_lt_fin]
    apply div_lt_div_of_pos_left (by norm_num) (mul_pos hp hsq)
    exact mul_lt_mul_of_pos_right hp2 hsq
  · intro t2 ht2
    have ht20 : 0 < t2 := lt_trans ht ht2
    rw [calculateKV_pos p t s hp ht hs, calculateKV_pos p t2 s hp ht20 hs, Num.fin_lt_fin]
    apply div_lt_div_of_pos_left (by norm_num) (mul_pos hp hsq)
    apply mul_lt_mul_of_pos_left _ hp
    apply Real.sqrt_lt_sqrt (by positivity)
    apply div_lt_div_of_pos_right _ (by norm_num)
    exact mul_lt_mul_of_pos_right ht2 hs

/-- Witness for claim C17: the inputs of the tests, (10, 10, 12) against (20, 10, 12)
and (14, 5, 12) against (14, 10, 12). -/
theorem calculateKV_decreasing_witness :
    calculateKV realMath (.fin 20) (.fin 10) (.fin 12) .undefined <
        calculateKV realMath (.fin 10) (.fin 10) (.fin 12) .undefined ∧
      calculateKV realMath (.fin 14) (.fin 10) (.fin 12) .undefined <
        calculateKV realMath (.fin 14) (.fin 5) (.fin 12) .undefined :=
  ⟨(calculateKV_decreasing 10 10 12 (by norm_num) (by norm_num) (by norm_num)).2.2.1 20
      (by norm_num),
    (calculateKV_decreasing 14 5 12 (by norm_num) (by norm_num) (by norm_num)).2.2.2 10
      (by norm_num)⟩

/-! ## Wire properties: claims C18 and C19 -/

theorem wireProperties_fields (d : ℝ) (hd : d ≠ 0) :
    (calculateWireProperties realMath (.fin d)).diameter = .fin d ∧
      (calculateWireProperties realMath (.fin d)).area = .fin (Real.pi * (d / 2) ^ 2) ∧
      (calculateWireProperties realMath (.fin d)).currentCapacity =
        .fin (5 * (Real.pi * (d / 2) ^ 2)) ∧
      (calculateWireProperties realMath (.fin d)).resistancePerMeter =
        .fin (1.68e-8 / (Real.pi * (d / 2) ^ 2 * 1e-6)) ∧
      (calculateWireProperties realMath (.fin d)).massPerMeter =
        .fin (Real.pi * (d / 2) ^ 2 * 1e-6 * 8960) := by
  have h1000 : ((1000 : ℕ) : ℝ) ≠ 0 := by norm_num
  have h2 : ((2 : ℕ) : ℝ) ≠ 0 := by norm_num
  have hpi := Real.pi_ne_zero
  have harea : Real.pi * (d / ((1000 : ℕ) : ℝ) / ((2 : ℕ) : ℝ)) ^ 2 ≠ 0 := by
    apply mul_ne_zero hpi
    apply pow_ne_zero
    exact div_ne_zero (div_ne_zero hd h1000) h2
  have hpow : realMath.pow (Num.fin (d / ((1000 : ℕ) : ℝ) / ((2 : ℕ) : ℝ)))
      (Num.fin ((2 : ℕ) : ℝ)) = .fin ((d / ((1000 : ℕ) : ℝ) / ((2 : ℕ) : ℝ)) ^ 2) :=
    realMath_pow_two _
  refine ⟨rfl, ?_, ?_, ?_, ?_⟩
  · rw [wireProperties_area]
    congr 1
    ring
  · simp only [calculateWireProperties, realMath_PI, Num.ofNat_eq, Num.ofScientific_eq,
      Num.fin_div_fin_of_ne _ h1000, Num.fin_div_fin_of_ne _ h2, hpow, Num.fin_mul_fin]
    congr 1
    norm_num
    ring
  · simp only [calculateWireProperties, COPPER_RESISTIVITY, realMath_PI, Num.ofNat_eq,
      Num.ofScientific_eq, Num.fin_div_fin_of_ne _ h1000, Num.fin_div_fin_of_ne _ h2, hpow,
      Num.fin_mul_fin, Num.fin_div_fin_of_ne _ harea]
    congr 1
    norm_num
    field_simp
    ring
  · simp only [calculateWireProperties, COPPER_DENSITY, realMath_PI, Num.ofNat_eq,
      Num.ofScientific_eq, Num.fin_div_fin_of_ne _ h1000, Num.fin_div_fin_of_ne _ h2, hpow,
      Num.fin_mul_fin]
    congr 1
    norm_num
    ring

/-- Claim C18: for every wire diameter d > 0, `calculateWireProperties` returns
diameter = d, area = pi * (d / 2)^2, currentCapacity = 5 * area,
resistancePerMeter = 1.68e-8 / (area * 1e-6) and massPerMeter = (area * 1e-6) * 8960,
all strictly positive. -/
theorem calculateWireProperties_formulas (d : ℝ) (hd : 0 < d) :
    (calculateWireProperties realMath (.fin d)).diameter = .fin d ∧
      (calculateWireProperties realMath (.fin d)).area = .fin (Real.pi * (d / 2) ^ 2) ∧
      (calculateWireProperties realMath (.fin d)).currentCapacity =
        .fin (5 * (Real.pi * (d / 2) ^ 2)) ∧
      (calculateWireProperties realMath (.fin d)).resistancePerMeter =
        .fin (1.68e-8 / (Real.pi * (d / 2) ^ 2 * 1e-6)) ∧
      (calculateWireProperties realMath (.fin d)).massPerMeter =
        .fin (Real.pi * (d / 2) ^ 2 * 1e-6 * 8960) ∧
      0 < d ∧ 0 < Real.pi * (d / 2) ^ 2 ∧ 0 < 5 * (Real.pi * (d / 2) ^ 2) ∧
      (0 : ℝ) < 1.68e-8 / (Real.pi * (d / 2) ^ 2 * 1e-6) ∧
      0 < Real.pi * (d / 2) ^ 2 * 1e-6 * 8960 := by
  obtain ⟨h1, h2, h3, h4, h5⟩ := wireProperties_fields d (ne_of_gt hd)
  have hpi := Real.pi_pos
  have ha : 0 < Real.pi * (d / 2) ^ 2 := by positivity
  refine ⟨h1, h2, h3, h4, h5, hd, ha, by positivity, ?_, ?_⟩
  · apply div_pos (by norm_num)
    apply mul_pos ha
    norm_num
  · apply mul_pos (mul_pos ha (by norm_num))
    norm_num

/-- Witness for claim C18: wire of 0.8 mm, whose area is within 0.00005 of 0.5027. -/
theorem calculateWireProperties_formulas_witness :
    (calculateWireProperties realMath (.fin 0.8)).area = .fin (Real.pi * (0.8 / 2) ^ 2) ∧
      |Real.pi * (0.8 / 2) ^ 2 - 0.5027| < 0.00005 := by
  refine ⟨(calculateWireProperties_formulas 0.8 (by norm_num)).2.1, ?_⟩
  have h1 := Real.pi_gt_d6
  have h2 := Real.pi_lt_d6
  rw [abs_lt]
  constructor <;> norm_num <;> linarith

/-- Claim C19: for all wire diameters d1 > 0 and d2 > 0 the ratio of the resistances per
metre is (d2 / d1)^2. -/
theorem resistance_ratio (d1 d2 : ℝ) (h1 : 0 < d1) (h2 : 0 < d2) :
    (calculateWireProperties realMath (.fin d1)).resistancePerMeter /
        (calculateWireProperties realMath (.fin d2)).resistancePerMeter =
      .fin ((d2 / d1) ^ 2) := by
  obtain ⟨_, _, _, e1, _⟩ := wireProperties_fields d1 (ne_of_gt h1)
  obtain ⟨_, _, _, e2, _⟩ := wireProperties_fields d2 (ne_of_gt h2)
  have hpi := Real.pi_pos
  have hr2 : (1.68e-8 : ℝ) / (Real.pi * (d2 / 2) ^ 2 * 1e-6) ≠ 0 := by
    apply ne_of_gt
    apply div_pos (by norm_num)
    apply mul_pos (by positivity)
    norm_num
  rw [e1, e2, Num.fin_div_fin_of_ne _ hr2]
  congr 1
  have hd1 := ne_of_gt h1
  have hd2 := ne_of_gt h2
  have hpi0 := ne_of_gt hpi
  field_simp
  ring

/-- Witness for claim C19: wire of 0.5 mm against 1.0 mm, with ratio 4. -/
theorem resistance_ratio_witness :
    (calculateWireProperties realMath (.fin 0.5)).resistancePerMeter /
        (calculateWireProperties realMath (.fin 1.0)).resistancePerMeter = .fin 4 := by
  rw [resistance_ratio 0.5 1.0 (by norm_num) (by norm_num)]
  norm_num

/-! ## AWG to diameter: claim C20 -/

theorem lookup_cons_ne {β : Type} (a k : ℝ) (b : β) (es : List (ℝ × β)) (h : a ≠ k) :
    List.lookup a ((k, b) :: es) = List.lookup a es := by
  have hb : (a == k) = false := by simpa using h
  rw [List.lookup_cons, hb]

theorem lookup_cons_self {β : Type} (a : ℝ) (b : β) (es : List (ℝ × β)) :
    List.lookup a ((a, b) :: es) = some b := by
  have hb : (a == a) = true := by simp
  rw [List.lookup_cons, hb]

/-- The table has an entry, with a non-zero diameter, for every even gauge from 8 to
38. -/
theorem table_lookup_even (k : ℕ) (hk : k < 16) :
    ∃ d : ℝ, d ≠ 0 ∧
      (WIRE_GAUGE_TABLE : List (ℝ × Num ℝ)).lookup (2 * (k : ℝ) + 8) = some (.fin d) ∧
      (2 * (k : ℝ) + 8, Num.fin d) ∈ (WIRE_GAUGE_TABLE : List (ℝ × Num ℝ)) := by
  interval_cases k <;>
  · apply Exists.intro
    refine ⟨?_, ?_, ?_⟩
    rotate_left
    · unfold WIRE_GAUGE_TABLE
      norm_num only [Nat.cast_ofNat, Nat.cast_zero, Nat.cast_one]
      repeat (first | rw [lookup_cons_self] | rw [lookup_cons_ne _ _ _ _ (by norm_num)])
      rfl
    · unfold WIRE_GAUGE_TABLE
      norm_num only [Nat.cast_ofNat, Nat.cast_zero, Nat.cast_one]
      simp
      norm_num
    · norm_num

theorem awgToDiameter_of_lookup (x d : ℝ) (hd : d ≠ 0)
    (h : (WIRE_GAUGE_TABLE : List (ℝ × Num ℝ)).lookup x = some (.fin d)) :
    awgToDiameter realMath (.fin x) = .fin d := by
  have hl : wireGaugeLookup (.fin x : Num ℝ) = .num (.fin d) := by
    unfold wireGaugeLookup
    simp only [h]
  have ht : (Val.num (Num.fin d) : Val ℝ).truthy = true := by
    simp [Val.truthy, hd]
  unfold awgToDiameter
  rw [hl, if_pos ht]
  rfl

theorem realMath_pow_92 (y : ℝ) : realMath.pow 92 (.fin y) = .fin ((92 : ℝ) ^ y) := by
  show realPow (.fin ((92 : ℕ) : ℝ)) (.fin y) = _
  by_cases hy : y = 0
  · subst hy
    simp [realPow]
  · have h92 : (0 : ℝ) < ((92 : ℕ) : ℝ) := by norm_num
    simp only [realPow, if_neg hy, if_pos h92]
    norm_num

theorem awgToDiameter_of_lookup_none (x : ℝ)
    (h : (WIRE_GAUGE_TABLE : List (ℝ × Num ℝ)).lookup x = none) :
    awgToDiameter realMath (.fin x) = .fin (0.127 * (92 : ℝ) ^ ((36 - x) / 39)) := by
  have hl : wireGaugeLookup (.fin x : Num ℝ) = .undefined := by
    unfold wireGaugeLookup
    simp only [h]
  have ht : ¬ ((Val.undefined : Val ℝ).truthy = true) := by
    simp [Val.truthy]
  have h39 : ((39 : ℕ) : ℝ) ≠ 0 := by norm_num
  unfold awgToDiameter
  rw [hl, if_neg ht]
  rw [show ((36 : Num ℝ) - Num.fin x) / 39 = Num.fin ((36 - x) / 39) by
    simp only [Num.ofNat_eq, Num.fin_sub_fin, Num.fin_div_fin_of_ne _ h39]
    norm_num]
  rw [realMath_pow_92, Num.ofScientific_eq, Num.fin_mul_fin]

theorem table_lookup_other (n : ℤ) (hn : ¬ (n % 2 = 0 ∧ 8 ≤ n ∧ n ≤ 38)) :
    (WIRE_GAUGE_TABLE : List (ℝ × Num ℝ)).lookup (n : ℝ) = none := by
  have key : ∀ m : ℤ, (m % 2 = 0 ∧ 8 ≤ m ∧ m ≤ 38) → (n : ℝ) ≠ (m : ℝ) := by
    intro m hm h
    have : n = m := by exact_mod_cast h
    subst this
    exact hn hm
  unfold WIRE_GAUGE_TABLE
  rw [lookup_cons_ne _ _ _ _ (by have := key 8 (by omega); exact_mod_cast this),
    lookup_cons_ne _ _ _ _ (by have := key 10 (by omega); exact_mod_cast this),
    lookup_cons_ne _ _ _ _ (by have := key 12 (by omega); exact_mod_cast this),
    lookup_cons_ne _ _ _ _ (by have := key 14 (by omega); exact_mod_cast this),
    lookup_cons_ne _ _ _ _ (by have := key 16 (by omega); exact_mod_cast this),
    lookup_cons_ne _ _ _ _ (by have := key 18 (by omega); exact_mod_cast this),
    lookup_cons_ne _ _ _ _ (by have := key 20 (by omega); exact_mod_cast this),
    lookup_cons_ne _ _ _ _ (by have := key 22 (by omega); exact_mod_cast this),
    lookup_cons_ne _ _ _ _ (by have := key 24 (by omega); exact_mod_cast this),
    lookup_cons_ne _ _ _ _ (by have := key 26 (by omega); exact_mod_cast this),
    lookup_cons_ne _ _ _ _ (by have := key 28 (by omega); exact_mod_cast this),
    lookup_cons_ne _ _ _ _ (by have := key 30 (by omega); exact_mod_cast this),
    lookup_cons_ne _ _ _ _ (by have := key 32 (by omega); exact_mod_cast this),
    lookup_cons_ne _ _ _ _ (by have := key 34 (by omega); exact_mod_cast this),
    lookup_cons_ne _ _ _ _ (by have := key 36 (by omega); exact_mod_cast this),
    lookup_cons_ne _ _ _ _ (by have := key 38 (by omega); exact_mod_cast this)]
  rfl

/-- Claim C20: for every even integer gauge from 8 to 38 `awgToDiameter` returns the
value of the wire-gauge table; for every other integer gauge it returns
0.127 * 92^((36 - awg) / 39); gauges 20 and 30 give 0.812 and 0.255. The function is
total. -/
theorem awgToDiameter_table_or_formula (n : ℤ) :
    (Even n → 8 ≤ n → n ≤ 38 →
      ∃ d : Num ℝ, ((n : ℝ), d) ∈ (WIRE_GAUGE_TABLE : List (ℝ × Num ℝ)) ∧
        awgToDiameter realMath (.fin (n : ℝ)) = d) ∧
      (¬ (Even n ∧ 8 ≤ n ∧ n ≤ 38) →
        awgToDiameter realMath (.fin (n : ℝ)) =
          .fin (0.127 * (92 : ℝ) ^ ((36 - (n : ℝ)) / 39))) ∧
      awgToDiameter realMath 20 = (0.812 : Num ℝ) ∧
      awgToDiameter realMath 30 = (0.255 : Num ℝ) := by
  refine ⟨?_, ?_, ?_, ?_⟩
  · intro he h8 h38
    rw [Int.even_iff] at he
    obtain ⟨k, hk⟩ : ∃ k : ℕ, n = 2 * (k : ℤ) + 8 := ⟨((n - 8) / 2).toNat, by omega⟩
    have hk16 : k < 16 := by omega
    obtain ⟨d, hd, hl, hm⟩ := table_lookup_even k hk16
    have hcast : (n : ℝ) = 2 * (k : ℝ) + 8 := by
      rw [hk]
      push_cast
      ring
    rw [hcast]
    exact ⟨_, hm, awgToDiameter_of_lookup _ d hd hl⟩
  · intro hn
    rw [Int.even_iff] at hn
    exact awgToDiameter_of_lookup_none _ (table_lookup_other n hn)
  · have hl : (WIRE_GAUGE_TABLE : List (ℝ × Num ℝ)).lookup 20 = some (.fin 0.812) := by
      unfold WIRE_GAUGE_TABLE
      repeat (first | rw [lookup_cons_self] | rw [lookup_cons_ne _ _ _ _ (by norm_num)])
      rfl
    show awgToDiameter realMath (.fin ((20 : ℕ) : ℝ)) = _
    rw [show ((20 : ℕ) : ℝ) = 20 by norm_num]
    exact awgToDiameter_of_lookup 20 0.812 (by norm_num) hl
  · have hl : (WIRE_GAUGE_TABLE : List (ℝ × Num ℝ)).lookup 30 = some (.fin 0.255) := by
      unfold WIRE_GAUGE_TABLE
      repeat (first | rw [lookup_cons_self] | rw [lookup_cons_ne _ _ _ _ (by norm_num)])
      rfl
    show awgToDiameter realMath (.fin ((30 : ℕ) : ℝ)) = _
    rw [show ((30 : ℕ) : ℝ) = 30 by norm_num]
    exact awgToDiameter_of_lookup 30 0.255 (by norm_num) hl

/-- Witness for claim C20: gauge 20, in the table, and gauge 21, not in it. -/
theorem awgToDiameter_table_or_formula_witness :
    (∃ d : Num ℝ, (((20 : ℤ) : ℝ), d) ∈ (WIRE_GAUGE_TABLE : List (ℝ × Num ℝ)) ∧
        awgToDiameter realMath (.fin ((20 : ℤ) : ℝ)) = d) ∧
      awgToDiameter realMath (.fin ((21 : ℤ) : ℝ)) =
        .fin (0.127 * (92 : ℝ) ^ ((36 - ((21 : ℤ) : ℝ)) / 39)) :=
  ⟨(awgToDiameter_table_or_formula 20).1 (by decide) (by norm_num) (by norm_num),
    (awgToDiameter_table_or_formula 21).2.1 (by
      intro h
      exact absurd h.1 (by decide))⟩

/-! ## The catalog, determinism and validation: claims C21 to C23 -/

/-- Claim C21: the catalog has exactly 13 entries, each with slots > 0 and poles > 0,
and in every entry the tabulated lcm is the least common multiple of slots and
poles. -/
theorem catalog_lcm :
    (SLOTS_POLES_COMBINATIONS : List (Obj ℝ)).length = 13 ∧
      ∀ c ∈ (SLOTS_POLES_COMBINATIONS : List (Obj ℝ)),
        ∃ slots poles lcm : ℕ, c.get "slots" = .num (.fin (slots : ℝ)) ∧
          c.get "poles" = .num (.fin (poles : ℝ)) ∧ c.get "lcm" = .num (.fin (lcm : ℝ)) ∧
          0 < slots ∧ 0 < poles ∧ Nat.lcm slots poles = lcm := by
  refine ⟨rfl, ?_⟩
  intro c hc
  simp only [SLOTS_POLES_COMBINATIONS, List.mem_cons, List.mem_singleton, List.not_mem_nil,
    or_false] at hc
  rcases hc with h | h | h | h | h | h | h | h | h | h | h | h | h <;> subst h
  · exact ⟨12, 14, 84, rfl, rfl, rfl, by decide, by decide, by decide⟩
  · exact ⟨9, 10, 90, rfl, rfl, rfl, by decide, by decide, by decide⟩
  · exact ⟨12, 10, 60, rfl, rfl, rfl, by decide, by decide, by decide⟩
  · exact ⟨24, 22, 264, rfl, rfl, rfl, by decide, by decide, by decide⟩
  · exact ⟨36, 42, 252, rfl, rfl, rfl, by decide, by decide, by decide⟩
  · exact ⟨9, 8, 72, rfl, rfl, rfl, by decide, by decide, by decide⟩
  · exact ⟨9, 12, 36, rfl, rfl, rfl, by decide, by decide, by decide⟩
  · exact ⟨15, 14, 210, rfl, rfl, rfl, by decide, by decide, by decide⟩
  · exact ⟨18, 16, 144, rfl, rfl, rfl, by decide, by decide, by decide⟩
  · exact ⟨18, 20, 180, rfl, rfl, rfl, by decide, by decide, by decide⟩
  · exact ⟨27, 24, 216, rfl, rfl, rfl, by decide, by decide, by decide⟩
  · exact ⟨21, 22, 462, rfl, rfl, rfl, by decide, by decide, by decide⟩
  · exact ⟨6, 8, 24, rfl, rfl, rfl, by decide, by decide, by decide⟩

/-- Claim C22: two calls of `calculateMotorDesign` with identical params, at any two
clock readings, return designs that agree on every field other than timestamp. -/
theorem calculateMotorDesign_deterministic (now1 now2 : String) (p : Params ℝ) :
    { calculateMotorDesign realMath now1 p with timestamp := "" } =
      { calculateMotorDesign realMath now2 p with timestamp := "" } := rfl

/-- Claim C23, counterexample: for the params of the tests with wireThickness 0, which
violate the entry-point constraints, `calculateMotorDesign` returns a design record,
with motorDiameter 35, wireDiameter 0 and an infinite maxTurnsPerCoil. -/
theorem design_for_zero_wire :
    validParams (zeroWireParams : Params ℝ) = false ∧
      (calculateMotorDesign realMath testClock zeroWireParams).motorDiameter = .fin 35 ∧
      (calculateMotorDesign realMath testClock zeroWireParams).wireDiameter = .fin 0 ∧
      (calculateMotorDesign realMath testClock zeroWireParams).maxTurnsPerCoil = .pinf := by
  have h2 : ((2 : ℕ) : ℝ) ≠ 0 := by norm_num
  have hmd : ((30 : Num ℝ) + 40) / 2 = .fin 35 := by
    simp only [Num.ofNat_eq, Num.fin_add_fin, Num.fin_div_fin_of_ne _ h2]
    norm_num
  refine ⟨?_, ?_, ?_, ?_⟩
  · simp [validParams, zeroWireParams, Num.isPositive]
  · rw [calculateMotorDesign_motorDiameter]
    exact hmd
  · show (0 : Num ℝ) = _
    simp
  · rw [calculateMotorDesign_maxTurnsPerCoil]
    have hc : calculateConfiguration realMath (zeroWireParams : Params ℝ).minDiameter
        (zeroWireParams : Params ℝ).maxDiameter (zeroWireParams : Params ℝ).targetKV =
        scoredEntry realMath 30 40 (.fin ((800 : ℕ) : ℝ))
          (combination 21 22 "distributed" 462 22) := calculateConfiguration_30_40 _
    have hmd2 : ((zeroWireParams : Params ℝ).minDiameter + (zeroWireParams : Params ℝ).maxDiameter)
        / 2 = .fin 35 := hmd
    rw [hc, hmd2, coilDimensions_maxTurns_eq,
      coilDimensions_slotArea 35 21 (by norm_num) (by norm_num) _ (by
        simp [scoredEntry, Obj.num, Obj.get, Obj.spread, combination, List.lookup,
          Val.toNumber])]
    have hw : (zeroWireParams : Params ℝ).wireThickness = .fin 0 := by
      show (0 : Num ℝ) = _
      simp
    rw [hw, wireProperties_area, Num.ofScientific_eq, Num.fin_mul_fin]
    have hz : Real.pi * (0 : ℝ) ^ 2 / 4 = 0 := by norm_num
    rw [hz, Num.fin_div_fin, if_pos rfl]
    have hpos : (0 : ℝ) < 0.0643125 * Real.pi * 35 ^ 2 / 21 * OfScientific.ofScientific 45 true 2
        := by
      have := Real.pi_pos
      positivity
    simp only [Num.infTimes, if_neg (ne_of_gt hpos), if_pos hpos]
    rfl

/-- Claim C23, amended: `calculateMotorDesign` validates nothing and rejects nothing:
for every params record, valid or not, it returns a design record that echoes
wireThickness, magnetThickness and targetKV, has motorDiameter =
(minDiameter + maxDiameter) / 2 and carries the clock reading. -/
theorem calculateMotorDesign_no_validation (now : String) (p : Params ℝ) :
    (calculateMotorDesign realMath now p).wireDiameter = p.wireThickness ∧
      (calculateMotorDesign realMath now p).magnetThickness = p.magnetThickness ∧
      (calculateMotorDesign realMath now p).targetKV = p.targetKV ∧
      (calculateMotorDesign realMath now p).motorDiameter =
        (p.minDiameter + p.maxDiameter) / 2 ∧
      (calculateMotorDesign realMath now p).timestamp = now :=
  ⟨rfl, rfl, rfl, rfl, rfl⟩

/-! ## Claims C25, C27 and C30 -/

/-- Claim C25: over the reals, for every minDiameter >= 0, every maxDiameter >=
105 / pi (so for every such maxDiameter > minDiameter) and every target KV, the
configuration returned is the entry with 21 slots and 22 poles, distributed, lcm
462. -/
theorem configuration_is_21_22 (mn mx t : ℝ) (hmn : 0 ≤ mn) (hmx : 105 / Real.pi ≤ mx) :
    calculateConfiguration realMath (.fin mn) (.fin mx) (.fin t) =
        scoredEntry realMath (.fin mn) (.fin mx) (.fin t)
          (combination 21 22 "distributed" 462 22) ∧
      (calculateConfiguration realMath (.fin mn) (.fin mx) (.fin t)).get "slots" = .num 21 ∧
      (calculateConfiguration realMath (.fin mn) (.fin mx) (.fin t)).get "poles" = .num 22 ∧
      (calculateConfiguration realMath (.fin mn) (.fin mx) (.fin t)).get "winding" =
        .str "distributed" ∧
      (calculateConfiguration realMath (.fin mn) (.fin mx) (.fin t)).get "lcm" = .num 462 := by
  have h := calculateConfiguration_entry_21_22 mn mx t hmn hmx
  rw [h]
  exact ⟨rfl, rfl, rfl, rfl, rfl⟩

/-- Witness for claim C25: the range 30 to 40 with target KV 800. -/
theorem configuration_is_21_22_witness :
    (calculateConfiguration realMath (.fin 30) (.fin 40) (.fin 800)).get "slots" = .num 21 ∧
      (calculateConfiguration realMath (.fin 30) (.fin 40) (.fin 800)).get "poles" = .num 22 :=
  ⟨(configuration_is_21_22 30 40 800 (by norm_num)
      (by have := pi_range_30_40; norm_num at this; exact this)).2.1,
    (configuration_is_21_22 30 40 800 (by norm_num)
      (by have := pi_range_30_40; norm_num at this; exact this)).2.2.1⟩

theorem sqrt_two_gt : (1.41 : ℝ) < Real.sqrt 2 := by
  rw [Real.lt_sqrt (by norm_num)]
  norm_num

/-- With at least 8 poles, at least 6 slots and at least one turn per coil, the KV
estimate is at most 1352 / (8 * sqrt 2). -/
theorem calculateKV_le (p k s : ℝ) (hp : 8 ≤ p) (hk : 1 ≤ k) (hs : 6 ≤ s) :
    (1352 : ℝ) / (p * Real.sqrt (k * s / 3)) ≤ 1352 / (8 * Real.sqrt 2) := by
  have h2 : Real.sqrt 2 ≤ Real.sqrt (k * s / 3) := by
    apply Real.sqrt_le_sqrt
    rw [le_div_iff₀ (by norm_num)]
    nlinarith
  have hs2 : 0 < Real.sqrt 2 := Real.sqrt_pos.mpr (by norm_num)
  apply div_le_div_of_nonneg_left (by norm_num) (by positivity)
  exact mul_le_mul hp h2 (le_of_lt hs2) (by linarith)

theorem kv_bound_lt_120 : (1352 : ℝ) / (8 * Real.sqrt 2) < 120 := by
  have h := sqrt_two_gt
  rw [div_lt_iff₀ (by positivity)]
  nlinarith

/-- Claim C27: for every catalog entry and for the fallback, and every number of turns
per coil >= 1, `calculateKV(poles, turnsPerCoil, slots)` with the default magnet
strength is at most 1352 / (8 * sqrt 2), which is below 120; so every design with
turnsPerCoil >= 1 has estimatedKV < 120, whatever the params. -/
theorem estimatedKV_below_120 (k : ℝ) (hk : 1 ≤ k) :
    (∀ c ∈ specFallback realMath 0 0 :: (SLOTS_POLES_COMBINATIONS : List (Obj ℝ)),
        ∃ kv : ℝ, calculateKV realMath (c.num "poles") (.fin k) (c.num "slots") .undefined =
          .fin kv ∧ kv ≤ 1352 / (8 * Real.sqrt 2)) ∧
      (1352 : ℝ) / (8 * Real.sqrt 2) < 120 ∧
      ∀ (now : String) (P : Params ℝ),
        (1 : Num ℝ) ≤ (calculateMotorDesign realMath now P).turnsPerCoil →
          (calculateMotorDesign realMath now P).estimatedKV < (120 : Num ℝ) := by
  refine ⟨?_, kv_bound_lt_120, ?_⟩
  · intro c hc
    rcases List.mem_cons.mp hc with h | h
    · subst h
      have e1 : (specFallback realMath 0 0 : Obj ℝ).num "poles" = .fin 14 := by
        simp [specFallback, Obj.num, Obj.get, List.lookup, Val.toNumber]
      have e2 : (specFallback realMath 0 0 : Obj ℝ).num "slots" = .fin 12 := by
        simp [specFallback, Obj.num, Obj.get, List.lookup, Val.toNumber]
      rw [e1, e2, calculateKV_pos 14 k 12 (by norm_num) (by linarith) (by norm_num)]
      exact ⟨_, rfl, calculateKV_le 14 k 12 (by norm_num) hk (by norm_num)⟩
    · obtain ⟨s, p, l, cf, w, rfl, hs, hp, _⟩ := catalog_shape c h
      have e1 : (combination (.fin s) (.fin p) w (.fin l) (.fin cf) : Obj ℝ).num "poles" =
          .fin p := rfl
      have e2 : (combination (.fin s) (.fin p) w (.fin l) (.fin cf) : Obj ℝ).num "slots" =
          .fin s := rfl
      rw [e1, e2, calculateKV_pos p k s (by linarith) (by linarith) (by linarith)]
      exact ⟨_, rfl, calculateKV_le p k s hp hk hs⟩
  · intro now P hturns
    obtain ⟨s, p, _, hs, hp, _, hslots, hpoles, _⟩ :=
      calculateConfiguration_fields realMath P.minDiameter P.maxDiameter P.targetKV
    rw [calculateMotorDesign_estimatedKV, num_of_get hslots, num_of_get hpoles]
    have h3 : ((3 : ℕ) : ℝ) ≠ 0 := by norm_num
    cases hT : (calculateMotorDesign realMath now P).turnsPerCoil with
    | nan =>
      rw [hT] at hturns
      exact absurd hturns (Num.not_le_nan _)
    | ninf =>
      rw [hT] at hturns
      exact absurd hturns (by
        show ¬ (Num.ble (Num.fin ((1 : ℕ) : ℝ)) Num.ninf = true)
        simp [Num.ble])
    | pinf =>
      have hs3 : (0 : ℝ) < s / ((3 : ℕ) : ℝ) := by
        apply div_pos (by linarith)
        norm_num
      have hp0 : (0 : ℝ) < p := by linarith
      have e1 : (Num.pinf * (Num.fin s / 3) : Num ℝ) = .pinf := by
        rw [Num.ofNat_eq, Num.fin_div_fin_of_ne _ h3]
        show Num.infTimes _ = _
        simp only [Num.infTimes, if_neg (ne_of_gt hs3), if_pos hs3]
      have e2 : (Num.fin p * Num.pinf : Num ℝ) = .pinf := by
        show Num.infTimes _ = _
        simp only [Num.infTimes, if_neg (ne_of_gt hp0), if_pos hp0]
      have h12 : (OfScientific.ofScientific 12 true 1 : ℝ) ≠ 0 := by norm_num
      have e0 : ((1.2 : Num ℝ) / 1.2) = .fin 1 := by
        simp only [Num.ofScientific_eq, Num.fin_div_fin_of_ne _ h12]
        congr 1
        exact div_self h12
      have e3 : (Num.pinf * ((1.2 : Num ℝ) / 1.2) : Num ℝ) = .pinf := by
        rw [e0]
        show Num.infTimes _ = _
        simp [Num.infTimes]
      have hkv : calculateKV realMath (.fin p) .pinf (.fin s) .undefined = .fin 0 := by
        unfold calculateKV
        simp only [e1]
        rw [show realMath.sqrt Num.pinf = Num.pinf from rfl, e2, e3]
        rfl
      rw [hkv, Num.ofNat_eq, Num.fin_lt_fin]
      norm_num
    | fin k2 =>
      rw [hT, Num.ofNat_eq, Num.fin_le_fin] at hturns
      have hk2 : (1 : ℝ) ≤ k2 := by simpa using hturns
      rw [calculateKV_pos p k2 s (by linarith) (by linarith) (by linarith), Num.ofNat_eq,
        Num.fin_lt_fin]
      have h1 := calculateKV_le p k2 s hp hk2 hs
      have h2 := kv_bound_lt_120
      have h120 : ((120 : ℕ) : ℝ) = 120 := by norm_num
      rw [h120]
      exact lt_of_le_of_lt h1 h2

/-- Witness for claim C27: one turn per coil. -/
theorem estimatedKV_below_120_witness :
    ∃ kv : ℝ, calculateKV realMath 8 (.fin 1) 6 .undefined = .fin kv ∧
      kv ≤ 1352 / (8 * Real.sqrt 2) := by
  have h := (estimatedKV_below_120 1 (le_refl 1)).1 _
    (List.mem_cons_of_mem _ entry_6_8_mem)
  exact h

theorem magnetParameters_rotorInnerDiameter (Math : JsMath ℝ) (md p w h : Num ℝ) :
    (calculateMagnetParameters Math md p w h).rotorInnerDiameter = md * 0.75 := rfl

theorem coilDimensions_statorOuterDiameter (Math : JsMath ℝ) (md : Num ℝ) (config : Obj ℝ)
    (d kv : Num ℝ) :
    (calculateCoilDimensions Math md config d kv).statorOuterDiameter = md * 0.7 := rfl

/-- In exact arithmetic: for every motorDiameter D the recommended airgap is at most
the radial clearance (rotorInnerDiameter - statorOuterDiameter) / 2, with
rotorInnerDiameter = 0.75 * D and statorOuterDiameter = 0.7 * D, exactly when
D >= 200 / 9. -/
theorem airgap_fits_iff (D : ℝ) (p w h d kv : Num ℝ) (config : Obj ℝ) :
    calculateAirgap (.fin D : Num ℝ) ≤
        ((calculateMagnetParameters realMath (.fin D) p w h).rotorInnerDiameter -
          (calculateCoilDimensions realMath (.fin D) config d kv).statorOuterDiameter) / 2 ↔
      200 / 9 ≤ D := by
  have h2 : ((2 : ℕ) : ℝ) ≠ 0 := by norm_num
  rw [calculateAirgap_fin, magnetParameters_rotorInnerDiameter,
    coilDimensions_statorOuterDiameter, Num.ofScientific_eq, Num.ofScientific_eq,
    Num.fin_mul_fin, Num.fin_mul_fin, Num.fin_sub_fin, Num.ofNat_eq,
    Num.fin_div_fin_of_ne _ h2, Num.fin_le_fin]
  constructor <;> intro hh <;> norm_num at hh ⊢ <;> linarith

/-- Motor diameter 35, above 200 / 9: in exact arithmetic the airgap fits. -/
theorem airgap_fits_iff_witness :
    calculateAirgap (.fin 35 : Num ℝ) ≤
      ((calculateMagnetParameters realMath (.fin 35) 22 10 15).rotorInnerDiameter -
        (calculateCoilDimensions realMath (.fin 35) testConfig 0.8 800).statorOuterDiameter) / 2 :=
  (airgap_fits_iff 35 22 10 15 0.8 800 testConfig).mpr (by norm_num)

/-- Claim C30: for every motorDiameter > 0, configuration with slots > 0 and targetKv,
maxTurnsPerCoil is a non-negative integer, and it is non-increasing in the wire
diameter: for 0 < d1 <= d2, maxTurnsPerCoil(d1) >= maxTurnsPerCoil(d2). -/
theorem maxTurns_antitone (md s d1 d2 : ℝ) (config : Obj ℝ) (kv : Num ℝ) (hmd : 0 < md)
    (hs : 0 < s) (hslots : config.num "slots" = .fin s) (hd1 : 0 < d1) (h12 : d1 ≤ d2) :
    (∃ n : ℕ,
        (calculateCoilDimensions realMath (.fin md) config (.fin d1) kv).maxTurnsPerCoil =
          .fin (n : ℝ)) ∧
      (calculateCoilDimensions realMath (.fin md) config (.fin d2) kv).maxTurnsPerCoil ≤
        (calculateCoilDimensions realMath (.fin md) config (.fin d1) kv).maxTurnsPerCoil := by
  have hd2 : 0 < d2 := lt_of_lt_of_le hd1 h12
  have e1 := coilDimensions_maxTurns md s d1 (ne_of_gt hmd) (ne_of_gt hs) (ne_of_gt hd1) config
    hslots kv
  have e2 := coilDimensions_maxTurns md s d2 (ne_of_gt hmd) (ne_of_gt hs) (ne_of_gt hd2) config
    hslots kv
  constructor
  · have h0 : 0 ≤ ⌊0.1157625 * md ^ 2 / (s * d1 ^ 2)⌋ := by
      apply Int.floor_nonneg.mpr
      positivity
    refine ⟨(⌊0.1157625 * md ^ 2 / (s * d1 ^ 2)⌋).toNat, ?_⟩
    rw [e1]
    congr 1
    have : ((⌊0.1157625 * md ^ 2 / (s * d1 ^ 2)⌋.toNat : ℤ)) =
        ⌊0.1157625 * md ^ 2 / (s * d1 ^ 2)⌋ := Int.toNat_of_nonneg h0
    exact_mod_cast this.symm
  · rw [e1, e2, Num.fin_le_fin, Int.cast_le]
    apply Int.floor_le_floor
    apply div_le_div_of_nonneg_left (by positivity) (by positivity)
    apply mul_le_mul_of_nonneg_left _ (le_of_lt hs)
    exact pow_le_pow_left₀ (le_of_lt hd1) h12 2

/-- Witness for claim C30: motorDiameter 30 with 12 slots, wire 0.5 against 1.0. -/
theorem maxTurns_antitone_witness :
    (calculateCoilDimensions realMath (.fin 30) testConfig (.fin 1.0) 800).maxTurnsPerCoil ≤
      (calculateCoilDimensions realMath (.fin 30) testConfig (.fin 0.5) 800).maxTurnsPerCoil :=
  (maxTurns_antitone 30 12 0.5 1.0 testConfig 800 (by norm_num) (by norm_num)
    (by simp [testConfig, Obj.num, Obj.get, List.lookup, Val.toNumber]) (by norm_num)
    (by norm_num)).2

/-! ## The weight estimate: claim C24 -/

theorem calculateMotorDesign_estimatedWeight (now : String) (p : Params ℝ) :
    (calculateMotorDesign realMath now p).estimatedWeight =
      ((calculateWireProperties realMath p.wireThickness).massPerMeter *
          (calculateMotorDesign realMath now p).turnsPerCoil *
          (calculateConfiguration realMath p.minDiameter p.maxDiameter p.targetKV).num "slots" *
          0.2) +
        ((calculateMotorDesign realMath now p).magnetWidth *
          (calculateMotorDesign realMath now p).magnetHeight * p.magnetThickness *
          (calculateConfiguration realMath p.minDiameter p.maxDiameter p.targetKV).num "poles" *
          7.5 / 1000) := rfl

theorem calculateMotorDesign_magnet (now : String) (p : Params ℝ) :
    (calculateMotorDesign realMath now p).magnetWidth =
        (calculateMagnetParameters realMath ((p.minDiameter + p.maxDiameter) / 2)
          ((calculateConfiguration realMath p.minDiameter p.maxDiameter p.targetKV).num "poles")
          p.magnetWidth p.magnetHeight).magnetWidth ∧
      (calculateMotorDesign realMath now p).magnetHeight =
        (calculateMagnetParameters realMath ((p.minDiameter + p.maxDiameter) / 2)
          ((calculateConfiguration realMath p.minDiameter p.maxDiameter p.targetKV).num "poles")
          p.magnetWidth p.magnetHeight).magnetHeight :=
  ⟨rfl, rfl⟩

theorem testDesign_magnet (now : String) :
    (calculateMotorDesign realMath now testParams).magnetWidth =
        .fin (0.9 * (Real.pi * 0.75 * 35 / 22)) ∧
      (calculateMotorDesign realMath now testParams).magnetHeight = .fin 3.9375 := by
  have h2 : ((2 : ℕ) : ℝ) ≠ 0 := by norm_num
  have hmd : ((testParams : Params ℝ).minDiameter + (testParams : Params ℝ).maxDiameter) / 2 =
      .fin 35 := by
    show ((30 : Num ℝ) + 40) / 2 = _
    simp only [Num.ofNat_eq, Num.fin_add_fin, Num.fin_div_fin_of_ne _ h2]
    norm_num
  have hc : calculateConfiguration realMath (testParams : Params ℝ).minDiameter
      (testParams : Params ℝ).maxDiameter (testParams : Params ℝ).targetKV =
      scoredEntry realMath 30 40 (.fin ((800 : ℕ) : ℝ))
        (combination 21 22 "distributed" 462 22) := calculateConfiguration_30_40 _
  have hp : (scoredEntry realMath 30 40 (.fin ((800 : ℕ) : ℝ))
      (combination 21 22 "distributed" 462 22)).num "poles" = .fin 22 := by
    simp [scoredEntry, Obj.num, Obj.get, Obj.spread, combination, List.lookup, Val.toNumber]
  have hw : (testParams : Params ℝ).magnetWidth = .fin 10 := by
    show (10 : Num ℝ) = _
    simp
  have hh : (testParams : Params ℝ).magnetHeight = .fin 15 := by
    show (15 : Num ℝ) = _
    simp
  obtain ⟨e1, e2⟩ := calculateMotorDesign_magnet now (testParams : Params ℝ)
  rw [e1, e2, hmd, hc, hp, hw, hh]
  have hpi3 := Real.pi_gt_three
  have hpi4 := Real.pi_le_four
  constructor
  · rw [magnetParameters_magnetWidth, magnetParameters_magnetGap,
      magnetParameters_arcLength 35 22 (by norm_num), Num.ofScientific_eq, Num.fin_mul_fin,
      Num.fin_sub_fin, JsMath.min_fin_fin]
    congr 1
    rw [min_eq_right]
    · norm_num
      ring
    · norm_num
      linarith
  · rw [magnetParameters_magnetHeight]
    congr 1
    rw [min_eq_right] <;> norm_num

/-- Claim C24 (defect in the code): for the params of the tests the estimatedWeight is
the copper mass in kilograms, pi * 0.16e-6 * 8960 * 4 * 21 * 0.2, plus the
magnet mass in grams, so it is below 7, although the weight in grams that the claim
and the code comment state (1000 times the copper term plus the magnet term) is
above 80. -/
theorem design_estimatedWeight_testParams (now : String) :
    (calculateMotorDesign realMath now testParams).estimatedWeight =
        .fin (Real.pi * (0.8 / 2) ^ 2 * 1e-6 * 8960 * 4 * 21 * 0.2 +
          0.9 * (Real.pi * 0.75 * 35 / 22) * 3.9375 * 3 * 22 * 7.5 / 1000) ∧
      Real.pi * (0.8 / 2) ^ 2 * 1e-6 * 8960 * 4 * 21 * 0.2 +
          0.9 * (Real.pi * 0.75 * 35 / 22) * 3.9375 * 3 * 22 * 7.5 / 1000 < 7 ∧
      80 < 1000 * (Real.pi * (0.8 / 2) ^ 2 * 1e-6 * 8960 * 4 * 21 * 0.2) +
          0.9 * (Real.pi * 0.75 * 35 / 22) * 3.9375 * 3 * 22 * 7.5 / 1000 := by
  have hpi3 := Real.pi_gt_d2
  have hpi4 := Real.pi_lt_d2
  refine ⟨?_, ?_, ?_⟩
  · have hc : calculateConfiguration realMath (testParams : Params ℝ).minDiameter
        (testParams : Params ℝ).maxDiameter (testParams : Params ℝ).targetKV =
        scoredEntry realMath 30 40 (.fin ((800 : ℕ) : ℝ))
          (combination 21 22 "distributed" 462 22) := calculateConfiguration_30_40 _
    have hp : (scoredEntry realMath 30 40 (.fin ((800 : ℕ) : ℝ))
        (combination 21 22 "distributed" 462 22)).num "poles" = .fin 22 := by
      simp [scoredEntry, Obj.num, Obj.get, Obj.spread, combination, List.lookup, Val.toNumber]
    have hs : (scoredEntry realMath 30 40 (.fin ((800 : ℕ) : ℝ))
        (combination 21 22 "distributed" 462 22)).num "slots" = .fin 21 := by
      simp [scoredEntry, Obj.num, Obj.get, Obj.spread, combination, List.lookup, Val.toNumber]
    have hwt : (testParams : Params ℝ).wireThickness = .fin 0.8 := rfl
    have hmt : (testParams : Params ℝ).magnetThickness = .fin 3 := by
      show (3 : Num ℝ) = _
      simp
    have h1000 : ((1000 : ℕ) : ℝ) ≠ 0 := by norm_num
    obtain ⟨_, _, _, _, hmass⟩ := wireProperties_fields 0.8 (by norm_num)
    obtain ⟨hmw, hmh⟩ := testDesign_magnet now
    rw [calculateMotorDesign_estimatedWeight, hmw, hmh, testDesign_turnsPerCoil, hc, hp, hs,
      hwt, hmass, hmt]
    simp only [Num.ofNat_eq, Num.ofScientific_eq, Num.fin_mul_fin, Num.fin_add_fin,
      Num.fin_div_fin_of_ne _ h1000]
    congr 1
  · norm_num
    linarith
  · norm_num
    linarith

/-! ## Target KV above 125: claim C26 -/

section SortCongr

variable {α β : Type}

theorem insertSorted_map (g : β → α) (cmp : α → α → Num ℝ) (a : β) (l : List β) :
    insertSorted cmp (g a) (l.map g) =
      (insertSorted (fun x y => cmp (g x) (g y)) a l).map g := by
  induction l with
  | nil => rfl
  | cons b t ih =>
    simp only [List.map_cons, insertSorted]
    split
    · rw [ih]
      rfl
    · rfl

theorem sort_map (g : β → α) (cmp : α → α → Num ℝ) (l : List β) :
    sort cmp (l.map g) = (sort (fun x y => cmp (g x) (g y)) l).map g := by
  induction l with
  | nil => rfl
  | cons a t ih =>
    simp only [List.map_cons, sort]
    rw [ih, insertSorted_map]

theorem insertSorted_congr (c1 c2 : α → α → Num ℝ) (a : α) (l : List α)
    (h : ∀ b ∈ l, ((0 : Num ℝ) < c1 a b ↔ (0 : Num ℝ) < c2 a b)) :
    insertSorted c1 a l = insertSorted c2 a l := by
  induction l with
  | nil => rfl
  | cons b t ih =>
    have hb := h b (List.mem_cons_self _ _)
    have ht := ih (fun x hx => h x (List.mem_cons_of_mem _ hx))
    simp only [insertSorted]
    by_cases hc : (0 : Num ℝ) < c1 a b
    · rw [if_pos hc, if_pos (hb.mp hc), ht]
    · rw [if_neg hc, if_neg (fun h2 => hc (hb.mpr h2))]

theorem sort_congr (c1 c2 : α → α → Num ℝ) (l : List α)
    (h : ∀ a ∈ l, ∀ b ∈ l, ((0 : Num ℝ) < c1 a b ↔ (0 : Num ℝ) < c2 a b)) :
    sort c1 l = sort c2 l := by
  induction l with
  | nil => rfl
  | cons a t ih =>
    have ht := ih (fun x hx y hy => h x (List.mem_cons_of_mem _ hx) y (List.mem_cons_of_mem _ hy))
    simp only [sort]
    rw [ht]
    apply insertSorted_congr
    intro b hb
    rw [mem_sort] at hb
    exact h a (List.mem_cons_self _ _) b (List.mem_cons_of_mem _ hb)

theorem filterMap_ite_eq_map_filter (P : β → Prop) [DecidablePred P] (g : β → α) (l : List β) :
    l.filterMap (fun c => if P c then some (g c) else none) =
      (l.filter (fun c => decide (P c))).map g := by
  induction l with
  | nil => rfl
  | cons a t ih =>
    by_cases h : P a
    · simp [List.filterMap_cons, List.filter_cons, h, ih]
    · simp [List.filterMap_cons, List.filter_cons, h, ih]

end SortCongr

/-- The configuration returned, through the catalog entries that pass the fit test,
sorted by the comparator on their total scores. -/
theorem calculateConfiguration_eq_sorted (mn mx t : ℝ) :
    calculateConfiguration realMath (.fin mn) (.fin mx) (.fin t) =
      match (sort (fun a b : Obj ℝ =>
          specTotalScore realMath (.fin mn) (.fin mx) (.fin t) b -
            specTotalScore realMath (.fin mn) (.fin mx) (.fin t) a)
          ((SLOTS_POLES_COMBINATIONS : List (Obj ℝ)).filter
            (fun c => decide (fitsDiameter realMath (.fin mx) c)))) with
      | [] => specFallback realMath (.fin mn) (.fin mx)
      | c :: _ => scoredEntry realMath (.fin mn) (.fin mx) (.fin t) c := by
  unfold calculateConfiguration
  simp only [suitableConfigs_eq]
  rw [filterMap_ite_eq_map_filter, sort_map]
  simp only [scoredEntry_score]
  cases sort (fun a b : Obj ℝ =>
      specTotalScore realMath (.fin mn) (.fin mx) (.fin t) b -
        specTotalScore realMath (.fin mn) (.fin mx) (.fin t) a)
      ((SLOTS_POLES_COMBINATIONS : List (Obj ℝ)).filter
        (fun c => decide (fitsDiameter realMath (.fin mx) c))) with
  | nil => rfl
  | cons c rest => rfl

/-- For target KVs of at least 125 the comparison of two catalog entries does not depend
on the target. -/
theorem comparator_target_free (mn mx t1 t2 : ℝ) (h1 : 125 ≤ t1) (h2 : 125 ≤ t2)
    (a b : Obj ℝ) (ha : a ∈ (SLOTS_POLES_COMBINATIONS : List (Obj ℝ)))
    (hb : b ∈ (SLOTS_POLES_COMBINATIONS : List (Obj ℝ))) :
    ((0 : Num ℝ) < specTotalScore realMath (.fin mn) (.fin mx) (.fin t1) b -
        specTotalScore realMath (.fin mn) (.fin mx) (.fin t1) a) ↔
      ((0 : Num ℝ) < specTotalScore realMath (.fin mn) (.fin mx) (.fin t2) b -
        specTotalScore realMath (.fin mn) (.fin mx) (.fin t2) a) := by
  by_cases hsum : mn + mx = 0
  · rw [(survivor_score mn mx t1 a ha).2 hsum, (survivor_score mn mx t1 b hb).2 hsum,
      (survivor_score mn mx t2 a ha).2 hsum, (survivor_score mn mx t2 b hb).2 hsum]
  · obtain ⟨sa, pa, la, cfa, wa, rfl, _, hpa, _⟩ := catalog_shape a ha
    obtain ⟨sb, pb, lb, cfb, wb, rfl, _, hpb, _⟩ := catalog_shape b hb
    have hpa0 : pa ≠ 0 := by linarith
    have hpb0 : pb ≠ 0 := by linarith
    have habs : ∀ t p : ℝ, 125 ≤ t → 8 ≤ p → |t - 1000 / p| = t - 1000 / p := by
      intro t p ht hp
      apply abs_of_nonneg
      have : 1000 / p ≤ 125 := by
        rw [div_le_iff₀ (by linarith)]
        linarith
      linarith
    rw [specTotalScore_combination mn mx t1 sa pa la cfa wa hpa0 hsum,
      specTotalScore_combination mn mx t1 sb pb lb cfb wb hpb0 hsum,
      specTotalScore_combination mn mx t2 sa pa la cfa wa hpa0 hsum,
      specTotalScore_combination mn mx t2 sb pb lb cfb wb hpb0 hsum,
      habs t1 pa h1 hpa, habs t1 pb h1 hpb, habs t2 pa h2 hpa, habs t2 pb h2 hpb]
    simp only [Num.fin_sub_fin, Num.ofNat_eq, Nat.cast_zero, Num.fin_lt_fin]
    constructor <;> intro h <;> linarith

/-- Claim C26: over the reals, for every minDiameter and maxDiameter and any two target
KVs of at least 125, the two configurations returned have the same slots, poles,
winding, lcm, coggingFactor and polePitch. -/
theorem configuration_target_free (mn mx t1 t2 : ℝ) (h1 : 125 ≤ t1) (h2 : 125 ≤ t2) :
    (calculateConfiguration realMath (.fin mn) (.fin mx) (.fin t1)).get "slots" =
        (calculateConfiguration realMath (.fin mn) (.fin mx) (.fin t2)).get "slots" ∧
      (calculateConfiguration realMath (.fin mn) (.fin mx) (.fin t1)).get "poles" =
        (calculateConfiguration realMath (.fin mn) (.fin mx) (.fin t2)).get "poles" ∧
      (calculateConfiguration realMath (.fin mn) (.fin mx) (.fin t1)).get "winding" =
        (calculateConfiguration realMath (.fin mn) (.fin mx) (.fin t2)).get "winding" ∧
      (calculateConfiguration realMath (.fin mn) (.fin mx) (.fin t1)).get "lcm" =
        (calculateConfiguration realMath (.fin mn) (.fin mx) (.fin t2)).get "lcm" ∧
      (calculateConfiguration realMath (.fin mn) (.fin mx) (.fin t1)).get "coggingFactor" =
        (calculateConfiguration realMath (.fin mn) (.fin mx) (.fin t2)).get "coggingFactor" ∧
      (calculateConfiguration realMath (.fin mn) (.fin mx) (.fin t1)).get "polePitch" =
        (calculateConfiguration realMath (.fin mn) (.fin mx) (.fin t2)).get "polePitch" := by
  have hsort := sort_congr
    (fun a b : Obj ℝ => specTotalScore realMath (.fin mn) (.fin mx) (.fin t1) b -
      specTotalScore realMath (.fin mn) (.fin mx) (.fin t1) a)
    (fun a b : Obj ℝ => specTotalScore realMath (.fin mn) (.fin mx) (.fin t2) b -
      specTotalScore realMath (.fin mn) (.fin mx) (.fin t2) a)
    ((SLOTS_POLES_COMBINATIONS : List (Obj ℝ)).filter
      (fun c => decide (fitsDiameter realMath (.fin mx) c)))
    (fun a ha b hb => comparator_target_free mn mx t1 t2 h1 h2 a b
      (List.mem_of_mem_filter ha) (List.mem_of_mem_filter hb))
  rw [calculateConfiguration_eq_sorted mn mx t1, calculateConfiguration_eq_sorted mn mx t2,
    hsort]
  cases hS : sort (fun a b : Obj ℝ => specTotalScore realMath (.fin mn) (.fin mx) (.fin t2) b -
      specTotalScore realMath (.fin mn) (.fin mx) (.fin t2) a)
      ((SLOTS_POLES_COMBINATIONS : List (Obj ℝ)).filter
        (fun c => decide (fitsDiameter realMath (.fin mx) c))) with
  | nil => exact ⟨rfl, rfl, rfl, rfl, rfl, rfl⟩
  | cons c rest =>
    have hc : c ∈ (SLOTS_POLES_COMBINATIONS : List (Obj ℝ)) := by
      have : c ∈ sort (fun a b : Obj ℝ =>
          specTotalScore realMath (.fin mn) (.fin mx) (.fin t2) b -
            specTotalScore realMath (.fin mn) (.fin mx) (.fin t2) a)
          ((SLOTS_POLES_COMBINATIONS : List (Obj ℝ)).filter
            (fun c => decide (fitsDiameter realMath (.fin mx) c))) := by
        rw [hS]
        exact List.mem_cons_self _ _
      rw [mem_sort] at this
      exact List.mem_of_mem_filter this
    obtain ⟨s, p, l, cf, w, rfl, _, _, _⟩ := catalog_shape c hc
    exact ⟨rfl, rfl, rfl, rfl, rfl, rfl⟩

/-- Witness for claim C26: the range 30 to 40 with target KVs 800 and 2000. -/
theorem configuration_target_free_witness :
    (calculateConfiguration realMath (.fin 30) (.fin 40) (.fin 800)).get "slots" =
        (calculateConfiguration realMath (.fin 30) (.fin 40) (.fin 2000)).get "slots" ∧
      (calculateConfiguration realMath (.fin 30) (.fin 40) (.fin 800)).get "polePitch" =
        (calculateConfiguration realMath (.fin 30) (.fin 40) (.fin 2000)).get "polePitch" :=
  ⟨(configuration_target_free 30 40 800 2000 (by norm_num) (by norm_num)).1,
    (configuration_target_free 30 40 800 2000 (by norm_num) (by norm_num)).2.2.2.2.2⟩

/-! ## Rounding to the nearest double

Rounding is monotone, its relative error in the normal range is at most `2^(-53)`,
and twice a double is a double. -/

theorem roundHalfEven_mono {q r : ℚ} (h : q ≤ r) : roundHalfEven q ≤ roundHalfEven r := by
  have hfl : ⌊q⌋ ≤ ⌊r⌋ := Int.floor_mono h
  rcases eq_or_lt_of_le hfl with heq | hlt
  · unfold roundHalfEven
    rw [← heq]
    split_ifs <;> first | omega | (exfalso; linarith)
  · have h1 : roundHalfEven q ≤ ⌊q⌋ + 1 := by
      unfold roundHalfEven
      split_ifs <;> omega
    have h2 : ⌊r⌋ ≤ roundHalfEven r := by
      unfold roundHalfEven
      split_ifs <;> omega
    omega

theorem roundHalfEven_intCast (n : ℤ) : roundHalfEven (n : ℚ) = n := by
  unfold roundHalfEven
  simp

theorem le_roundHalfEven {n : ℤ} {q : ℚ} (h : (n : ℚ) ≤ q) : n ≤ roundHalfEven q := by
  have := roundHalfEven_mono h
  rwa [roundHalfEven_intCast] at this

theorem roundHalfEven_le {n : ℤ} {q : ℚ} (h : q ≤ (n : ℚ)) : roundHalfEven q ≤ n := by
  have := roundHalfEven_mono h
  rwa [roundHalfEven_intCast] at this

theorem roundHalfEven_neg (q : ℚ) : roundHalfEven (-q) = -roundHalfEven q := by
  have h1 := Int.floor_le q
  have h2 := Int.lt_floor_add_one q
  rcases eq_or_lt_of_le h1 with heq | hlt
  · rw [← heq, ← Int.cast_neg, roundHalfEven_intCast, roundHalfEven_intCast]
  · have hfl : ⌊-q⌋ = -⌊q⌋ - 1 := by
      rw [Int.floor_eq_iff]
      push_cast
      constructor <;> linarith
    unfold roundHalfEven
    rw [hfl]
    push_cast
    split_ifs <;> first | omega | (exfalso; linarith)

theorem roundHalfEven_sub_le (q : ℚ) :
    (roundHalfEven q : ℚ) ≤ q + 1 / 2 ∧ q - 1 / 2 ≤ (roundHalfEven q : ℚ) := by
  have h1 := Int.floor_le q
  have h2 := Int.lt_floor_add_one q
  unfold roundHalfEven
  split_ifs <;> push_cast <;> constructor <;> linarith

theorem log2Fuel_spec : ∀ (fuel n : ℕ), 1 ≤ n → n < 2 ^ fuel →
    2 ^ log2Fuel fuel n ≤ n ∧ n < 2 ^ (log2Fuel fuel n + 1)
  | 0, n, h1, h2 => by
    simp at h2
    omega
  | fuel + 1, n, h1, h2 => by
    unfold log2Fuel
    split_ifs with h
    · simp
      omega
    · have ih := log2Fuel_spec fuel (n / 2) (by omega) (by rw [pow_succ] at h2; omega)
      rw [pow_succ, pow_succ]
      omega

theorem log2Fuel_self (n : ℕ) (h : 1 ≤ n) :
    2 ^ log2Fuel n n ≤ n ∧ n < 2 ^ (log2Fuel n n + 1) :=
  log2Fuel_spec n n h (Nat.lt_two_pow n)

theorem abs_eq_natAbs_div_den (x : ℚ) : |x| = (x.num.natAbs : ℚ) / (x.den : ℚ) := by
  conv_lhs => rw [← Rat.num_div_den x]
  rw [abs_div, Nat.abs_cast, Nat.cast_natAbs, Int.cast_abs]

theorem binadeExponent_spec (x : ℚ) (hx : x ≠ 0) :
    (2 : ℚ) ^ binadeExponent x ≤ |x| ∧ |x| < (2 : ℚ) ^ (binadeExponent x + 1) := by
  unfold binadeExponent
  have hN : 1 ≤ x.num.natAbs := by
    have : x.num ≠ 0 := Rat.num_ne_zero.mpr hx
    omega
  have hD : 1 ≤ x.den := x.den_pos
  obtain ⟨a1, a2⟩ := log2Fuel_self _ hN
  obtain ⟨b1, b2⟩ := log2Fuel_self _ hD
  have a1q : (2 : ℚ) ^ (log2Fuel x.num.natAbs x.num.natAbs : ℤ) ≤ (x.num.natAbs : ℚ) := by
    rw [zpow_natCast]
    exact_mod_cast a1
  have a2q : (x.num.natAbs : ℚ) <
      (2 : ℚ) ^ ((log2Fuel x.num.natAbs x.num.natAbs : ℤ) + 1) := by
    rw [show ((log2Fuel x.num.natAbs x.num.natAbs : ℤ) + 1) =
      ((log2Fuel x.num.natAbs x.num.natAbs + 1 : ℕ) : ℤ) by push_cast; rfl, zpow_natCast]
    exact_mod_cast a2
  have b1q : (2 : ℚ) ^ (log2Fuel x.den x.den : ℤ) ≤ (x.den : ℚ) := by
    rw [zpow_natCast]
    exact_mod_cast b1
  have b2q : (x.den : ℚ) < (2 : ℚ) ^ ((log2Fuel x.den x.den : ℤ) + 1) := by
    rw [show ((log2Fuel x.den x.den : ℤ) + 1) = ((log2Fuel x.den x.den + 1 : ℕ) : ℤ) by
      push_cast; rfl, zpow_natCast]
    exact_mod_cast b2
  have hDq : (0 : ℚ) < (x.den : ℚ) := by exact_mod_cast hD
  have h2 : (2 : ℚ) ≠ 0 := by norm_num
  have habs := abs_eq_natAbs_div_den x
  generalize (log2Fuel x.num.natAbs x.num.natAbs : ℤ) = a at *
  generalize (log2Fuel x.den x.den : ℤ) = b at *
  have hpa : (0 : ℚ) < 2 ^ a := by positivity
  have hpb : (0 : ℚ) < 2 ^ b := by positivity
  split_ifs with h
  · refine ⟨h, ?_⟩
    rw [habs, div_lt_iff₀ hDq, show a - b + 1 = (a + 1) - b by ring, zpow_sub₀ h2]
    calc (x.num.natAbs : ℚ) < 2 ^ (a + 1) := a2q
      _ = 2 ^ (a + 1) / 2 ^ b * 2 ^ b := by field_simp
      _ ≤ 2 ^ (a + 1) / 2 ^ b * x.den := by
          apply mul_le_mul_of_nonneg_left b1q
          positivity
  · refine ⟨?_, ?_⟩
    · rw [habs, le_div_iff₀ hDq, show a - b - 1 = a - (b + 1) by ring, zpow_sub₀ h2]
      calc 2 ^ a / 2 ^ (b + 1) * (x.den : ℚ) ≤ 2 ^ a / 2 ^ (b + 1) * 2 ^ (b + 1) := by
            apply mul_le_mul_of_nonneg_left (le_of_lt b2q)
            positivity
        _ = 2 ^ a := by field_simp
        _ ≤ (x.num.natAbs : ℚ) := a1q
    · rw [show a - b - 1 + 1 = a - b by ring]
      exact lt_of_not_le h

theorem binadeExponent_unique (x : ℚ) (e : ℤ) (h1 : (2 : ℚ) ^ e ≤ |x|)
    (h2 : |x| < (2 : ℚ) ^ (e + 1)) : binadeExponent x = e := by
  have hx : x ≠ 0 := by
    intro h0
    rw [h0, abs_zero] at h1
    have : (0 : ℚ) < 2 ^ e := by positivity
    linarith
  obtain ⟨s1, s2⟩ := binadeExponent_spec x hx
  have one_lt : (1 : ℚ) < 2 := by norm_num
  have l1 : (2 : ℚ) ^ e < 2 ^ (binadeExponent x + 1) := lt_of_le_of_lt h1 s2
  have l2 : (2 : ℚ) ^ binadeExponent x < 2 ^ (e + 1) := lt_of_le_of_lt s1 h2
  rw [zpow_lt_zpow_iff_right₀ one_lt] at l1 l2
  omega

theorem binadeExponent_mono (x y : ℚ) (hx : x ≠ 0) (hxy : |x| ≤ |y|) :
    binadeExponent x ≤ binadeExponent y := by
  have hy : y ≠ 0 := by
    intro h0
    rw [h0, abs_zero] at hxy
    exact hx (abs_eq_zero.mp (le_antisymm hxy (abs_nonneg x)))
  obtain ⟨s1, _⟩ := binadeExponent_spec x hx
  obtain ⟨_, t2⟩ := binadeExponent_spec y hy
  have one_lt : (1 : ℚ) < 2 := by norm_num
  have l1 : (2 : ℚ) ^ binadeExponent x < 2 ^ (binadeExponent y + 1) :=
    lt_of_le_of_lt (le_trans s1 hxy) t2
  rw [zpow_lt_zpow_iff_right₀ one_lt] at l1
  omega

theorem binadeExponent_neg (x : ℚ) : binadeExponent (-x) = binadeExponent x := by
  unfold binadeExponent
  simp only [Rat.neg_num, Int.natAbs_neg, Rat.neg_den, abs_neg]

theorem ulpExponent_neg (x : ℚ) : ulpExponent (-x) = ulpExponent x := by
  unfold ulpExponent
  rw [binadeExponent_neg]

theorem roundToGrid_neg (x : ℚ) : roundToGrid (-x) = -roundToGrid x := by
  unfold roundToGrid
  rw [ulpExponent_neg, neg_div, roundHalfEven_neg]
  push_cast
  ring

theorem roundToGrid_zero : roundToGrid 0 = 0 := by
  unfold roundToGrid
  rw [zero_div, show (0 : ℚ) = ((0 : ℤ) : ℚ) by norm_num, roundHalfEven_intCast]
  simp

theorem roundToGrid_nonneg {x : ℚ} (hx : 0 ≤ x) : 0 ≤ roundToGrid x := by
  unfold roundToGrid
  have hp : (0 : ℚ) < 2 ^ ulpExponent x := by positivity
  have h0 : ((0 : ℤ) : ℚ) ≤ x / 2 ^ ulpExponent x := by
    rw [Int.cast_zero]
    positivity
  have := le_roundHalfEven h0
  have hq : (0 : ℚ) ≤ (roundHalfEven (x / 2 ^ ulpExponent x) : ℚ) := by exact_mod_cast this
  positivity

theorem roundToGrid_le_of_le (x : ℚ) (n : ℤ) (h : x ≤ (n : ℚ) * 2 ^ ulpExponent x) :
    roundToGrid x ≤ (n : ℚ) * 2 ^ ulpExponent x := by
  unfold roundToGrid
  have hp : (0 : ℚ) < 2 ^ ulpExponent x := by positivity
  have hq : x / 2 ^ ulpExponent x ≤ (n : ℚ) := by
    rw [div_le_iff₀ hp]
    exact h
  have hr : (roundHalfEven (x / 2 ^ ulpExponent x) : ℚ) ≤ (n : ℚ) := by
    exact_mod_cast roundHalfEven_le hq
  exact mul_le_mul_of_nonneg_right hr (le_of_lt hp)

theorem le_roundToGrid_of_le (x : ℚ) (n : ℤ) (h : (n : ℚ) * 2 ^ ulpExponent x ≤ x) :
    (n : ℚ) * 2 ^ ulpExponent x ≤ roundToGrid x := by
  unfold roundToGrid
  have hp : (0 : ℚ) < 2 ^ ulpExponent x := by positivity
  have hq : (n : ℚ) ≤ x / 2 ^ ulpExponent x := by
    rw [le_div_iff₀ hp]
    exact h
  have hr : (n : ℚ) ≤ (roundHalfEven (x / 2 ^ ulpExponent x) : ℚ) := by
    exact_mod_cast le_roundHalfEven hq
  exact mul_le_mul_of_nonneg_right hr (le_of_lt hp)

theorem two_zpow_53_mul (k : ℤ) : (((2 : ℤ) ^ 53 : ℤ) : ℚ) * 2 ^ k = 2 ^ (k + 53) := by
  rw [zpow_add₀ (by norm_num : (2 : ℚ) ≠ 0), mul_comm]
  norm_num

theorem two_zpow_52_mul (k : ℤ) : (((2 : ℤ) ^ 52 : ℤ) : ℚ) * 2 ^ k = 2 ^ (k + 52) := by
  rw [zpow_add₀ (by norm_num : (2 : ℚ) ≠ 0), mul_comm]
  norm_num

/-- The rounded value stays within the binade of `x`, closed above. -/
theorem roundToGrid_le_binade (x : ℚ) (hx : 0 < x) :
    roundToGrid x ≤ 2 ^ (max (binadeExponent x) (-1022) + 1) := by
  obtain ⟨_, s2⟩ := binadeExponent_spec x (ne_of_gt hx)
  rw [abs_of_pos hx] at s2
  have one_le : (1 : ℚ) ≤ 2 := by norm_num
  have hle : (2 : ℚ) ^ (binadeExponent x + 1) ≤ 2 ^ (max (binadeExponent x) (-1022) + 1) :=
    zpow_le_zpow_right₀ one_le (by omega)
  have hk : ulpExponent x + 53 = max (binadeExponent x) (-1022) + 1 := by
    unfold ulpExponent
    ring
  have := roundToGrid_le_of_le x ((2 : ℤ) ^ 53) (by
    rw [two_zpow_53_mul, hk]
    linarith)
  rwa [two_zpow_53_mul, hk] at this

/-- A normal number does not round below its binade. -/
theorem le_roundToGrid_binade (x : ℚ) (hx : 0 < x) (hn : -1022 ≤ binadeExponent x) :
    2 ^ binadeExponent x ≤ roundToGrid x := by
  obtain ⟨s1, _⟩ := binadeExponent_spec x (ne_of_gt hx)
  rw [abs_of_pos hx] at s1
  have hk : ulpExponent x + 52 = binadeExponent x := by
    unfold ulpExponent
    rw [max_eq_left hn]
    ring
  have := le_roundToGrid_of_le x ((2 : ℤ) ^ 52) (by
    rw [two_zpow_52_mul, hk]
    exact s1)
  rwa [two_zpow_52_mul, hk] at this

theorem roundToGrid_mono_pos (x y : ℚ) (hx : 0 < x) (hxy : x ≤ y) :
    roundToGrid x ≤ roundToGrid y := by
  have hy : 0 < y := lt_of_lt_of_le hx hxy
  have he : binadeExponent x ≤ binadeExponent y :=
    binadeExponent_mono x y (ne_of_gt hx) (by rwa [abs_of_pos hx, abs_of_pos hy])
  by_cases hk : ulpExponent x = ulpExponent y
  · unfold roundToGrid
    rw [hk]
    have hp : (0 : ℚ) < 2 ^ ulpExponent y := by positivity
    have hq : x / 2 ^ ulpExponent y ≤ y / 2 ^ ulpExponent y :=
      div_le_div_of_nonneg_right hxy (le_of_lt hp)
    have hr : (roundHalfEven (x / 2 ^ ulpExponent y) : ℚ) ≤
        (roundHalfEven (y / 2 ^ ulpExponent y) : ℚ) := by
      exact_mod_cast roundHalfEven_mono hq
    exact mul_le_mul_of_nonneg_right hr (le_of_lt hp)
  · unfold ulpExponent at hk
    have hn : -1022 ≤ binadeExponent y := by omega
    have hlt : max (binadeExponent x) (-1022) + 1 ≤ binadeExponent y := by omega
    have one_le : (1 : ℚ) ≤ 2 := by norm_num
    calc roundToGrid x ≤ 2 ^ (max (binadeExponent x) (-1022) + 1) := roundToGrid_le_binade x hx
      _ ≤ 2 ^ binadeExponent y := zpow_le_zpow_right₀ one_le hlt
      _ ≤ roundToGrid y := le_roundToGrid_binade y hy hn

theorem roundToGrid_mono {x y : ℚ} (hxy : x ≤ y) : roundToGrid x ≤ roundToGrid y := by
  rcases lt_or_le 0 x with hx | hx
  · exact roundToGrid_mono_pos x y hx hxy
  · have hx0 : roundToGrid x ≤ 0 := by
      have := roundToGrid_nonneg (neg_nonneg.mpr hx)
      rw [roundToGrid_neg] at this
      linarith
    rcases le_or_lt 0 y with hy | hy
    · exact le_trans hx0 (roundToGrid_nonneg hy)
    · have := roundToGrid_mono_pos (-y) (-x) (neg_pos.mpr hy) (neg_le_neg hxy)
      rw [roundToGrid_neg, roundToGrid_neg] at this
      linarith

theorem toDouble_mono {x y : ℚ} (hxy : x ≤ y) : toDouble x ≤ toDouble y := by
  have h := roundToGrid_mono hxy
  have hpos : (0 : ℚ) < 2 ^ (1024 : ℤ) := by positivity
  unfold toDouble
  split_ifs <;> first
    | rfl
    | (rw [Num.fin_le_fin]; exact h)
    | (exfalso; linarith)

theorem ninf_le_toDouble (x : ℚ) : Num.ninf ≤ toDouble x := by
  unfold toDouble
  split_ifs <;> rfl

theorem toDouble_le_pinf (x : ℚ) : toDouble x ≤ Num.pinf := by
  unfold toDouble
  split_ifs <;> rfl

theorem roundToGrid_of_int_mul (x : ℚ) (n : ℤ) (h : x = (n : ℚ) * 2 ^ ulpExponent x) :
    roundToGrid x = x := by
  have hp : (2 : ℚ) ^ ulpExponent x ≠ 0 := by positivity
  have hq : x / 2 ^ ulpExponent x = (n : ℚ) := by
    rw [div_eq_iff hp]
    exact h
  unfold roundToGrid
  rw [hq, roundHalfEven_intCast]
  exact h.symm

theorem roundToGrid_two_mul (x : ℚ) (h : roundToGrid x = x) : roundToGrid (2 * x) = 2 * x := by
  by_cases hx : x = 0
  · rw [hx, mul_zero, roundToGrid_zero]
  · obtain ⟨s1, s2⟩ := binadeExponent_spec x hx
    have h2 : (2 : ℚ) ≠ 0 := by norm_num
    have he : binadeExponent (2 * x) = binadeExponent x + 1 := by
      apply binadeExponent_unique
      · rw [abs_mul, abs_two, zpow_add₀ h2, zpow_one, mul_comm]
        linarith
      · rw [abs_mul, abs_two, zpow_add₀ h2 (binadeExponent x + 1), zpow_one, mul_comm]
        linarith
    have hx2 : x = (roundHalfEven (x / 2 ^ ulpExponent x) : ℚ) * 2 ^ ulpExponent x := by
      conv_lhs => rw [← h]
      rfl
    generalize roundHalfEven (x / 2 ^ ulpExponent x) = n at hx2
    by_cases hn : -1022 ≤ binadeExponent x
    · have hk : ulpExponent (2 * x) = ulpExponent x + 1 := by
        unfold ulpExponent
        rw [he]
        omega
      apply roundToGrid_of_int_mul (2 * x) n
      rw [hk, zpow_add₀ h2, zpow_one]
      linarith
    · have hk : ulpExponent (2 * x) = ulpExponent x := by
        unfold ulpExponent
        rw [he]
        omega
      apply roundToGrid_of_int_mul (2 * x) (2 * n)
      rw [hk]
      push_cast
      linarith

theorem toDouble_eq_fin {x v : ℚ} (h : toDouble x = .fin v) : roundToGrid x = v := by
  unfold toDouble at h
  split_ifs at h
  exact Num.fin.inj h

theorem toDouble_isFinite {x : ℚ} (h : (toDouble x).isFinite = true) :
    toDouble x = .fin (roundToGrid x) := by
  unfold toDouble at h ⊢
  split_ifs at h ⊢
  · exact absurd h (by simp [Num.isFinite])
  · exact absurd h (by simp [Num.isFinite])
  · rfl

/-- Rounding of the mean of two doubles: when the sum does not overflow, the result
lies between them. -/
theorem toDouble_mean_between (x y : ℚ) (hx : toDouble x = .fin x) (hy : toDouble y = .fin y)
    (hxy : x ≤ y) :
    Num.fin x ≤ toDouble (roundToGrid (x + y) / 2) ∧
      toDouble (roundToGrid (x + y) / 2) ≤ Num.fin y := by
  have gx := roundToGrid_two_mul x (toDouble_eq_fin hx)
  have gy := roundToGrid_two_mul y (toDouble_eq_fin hy)
  have l1 : roundToGrid (2 * x) ≤ roundToGrid (x + y) := roundToGrid_mono (by linarith)
  have l2 : roundToGrid (x + y) ≤ roundToGrid (2 * y) := roundToGrid_mono (by linarith)
  rw [gx] at l1
  rw [gy] at l2
  constructor
  · rw [← hx]
    exact toDouble_mono (by linarith)
  · rw [← hy]
    exact toDouble_mono (by linarith)

/-- Relative error of rounding in the normal range: at most `2^(-53)`. -/
theorem roundToGrid_rel (x : ℚ) (hlo : (2 : ℚ) ^ (-1022 : ℤ) ≤ x) :
    x * (1 - 2 ^ (-53 : ℤ)) ≤ roundToGrid x ∧
      roundToGrid x ≤ x * (1 + 2 ^ (-53 : ℤ)) := by
  have hx : 0 < x := lt_of_lt_of_le (by positivity) hlo
  obtain ⟨s1, s2⟩ := binadeExponent_spec x (ne_of_gt hx)
  rw [abs_of_pos hx] at s1 s2
  have one_lt : (1 : ℚ) < 2 := by norm_num
  have he : -1022 ≤ binadeExponent x := by
    have := lt_of_le_of_lt hlo s2
    rw [zpow_lt_zpow_iff_right₀ one_lt] at this
    omega
  have hk : ulpExponent x = binadeExponent x - 52 := by
    unfold ulpExponent
    rw [max_eq_left he]
  obtain ⟨r1, r2⟩ := roundHalfEven_sub_le (x / 2 ^ ulpExponent x)
  have hp : (0 : ℚ) < 2 ^ ulpExponent x := by positivity
  have h2 : (2 : ℚ) ≠ 0 := by norm_num
  have hhalf : (2 : ℚ) ^ ulpExponent x * (1 / 2) = 2 ^ binadeExponent x * 2 ^ (-53 : ℤ) := by
    rw [hk, show binadeExponent x - 52 = binadeExponent x + (-52) by ring, zpow_add₀ h2]
    norm_num
    ring
  have hux : (2 : ℚ) ^ binadeExponent x * 2 ^ (-53 : ℤ) ≤ x * 2 ^ (-53 : ℤ) :=
    mul_le_mul_of_nonneg_right s1 (by positivity)
  have hdiv : x / 2 ^ ulpExponent x * 2 ^ ulpExponent x = x := by
    field_simp
  unfold roundToGrid
  constructor
  · have := mul_le_mul_of_nonneg_right r2 (le_of_lt hp)
    rw [sub_mul, hdiv, mul_comm (1 / 2 : ℚ), hhalf] at this
    linarith
  · have := mul_le_mul_of_nonneg_right r1 (le_of_lt hp)
    rw [add_mul, hdiv, mul_comm (1 / 2 : ℚ), hhalf] at this
    linarith

theorem roundToGrid_lower (x : ℚ) (a : ℤ) (ha : -1022 ≤ a) (hlo : (2 : ℚ) ^ a ≤ x) :
    x * (1 - 2 ^ (-53 : ℤ)) ≤ roundToGrid x :=
  (roundToGrid_rel x (le_trans (zpow_le_zpow_right₀ (by norm_num) ha) hlo)).1

/-- One rounding step in the normal range: the result is finite, within the relative
error `2^(-53)` of the exact value, and within a factor two of it. -/
theorem toDouble_step (x : ℚ) (a b : ℤ) (ha : -1022 ≤ a) (hb : b ≤ 1022)
    (hlo : (2 : ℚ) ^ a ≤ x) (hhi : x ≤ (2 : ℚ) ^ b) :
    toDouble x = .fin (roundToGrid x) ∧
      roundToGrid x ≤ x * (1 + 2 ^ (-53 : ℤ)) ∧
      (2 : ℚ) ^ (a - 1) ≤ roundToGrid x ∧ roundToGrid x ≤ (2 : ℚ) ^ (b + 1) := by
  have one_le : (1 : ℚ) ≤ 2 := by norm_num
  have h2 : (2 : ℚ) ≠ 0 := by norm_num
  have hx : 0 < x := lt_of_lt_of_le (by positivity) hlo
  have hlo2 : (2 : ℚ) ^ (-1022 : ℤ) ≤ x := le_trans (zpow_le_zpow_right₀ one_le ha) hlo
  obtain ⟨r1, r2⟩ := roundToGrid_rel x hlo2
  have hu1 : (2 : ℚ) ^ (-53 : ℤ) ≤ 1 / 2 := by norm_num
  have hu0 : (0 : ℚ) < 2 ^ (-53 : ℤ) := by positivity
  have hxu : x * 2 ^ (-53 : ℤ) ≤ x * (1 / 2) := mul_le_mul_of_nonneg_left hu1 (le_of_lt hx)
  have hlow : (2 : ℚ) ^ (a - 1) ≤ roundToGrid x := by
    have e : (2 : ℚ) ^ (a - 1) = 2 ^ a / 2 := by
      rw [zpow_sub₀ h2, zpow_one]
    rw [e]
    generalize (2 : ℚ) ^ (-53 : ℤ) = u at r1 hxu
    linarith
  have hupp : roundToGrid x ≤ (2 : ℚ) ^ (b + 1) := by
    have e : (2 : ℚ) ^ (b + 1) = 2 ^ b * 2 := by
      rw [zpow_add₀ h2, zpow_one]
    rw [e]
    have r2c := r2
    generalize (2 : ℚ) ^ (-53 : ℤ) = u at r2c hxu
    linarith
  refine ⟨?_, r2, hlow, hupp⟩
  have hb2 : (2 : ℚ) ^ (b + 1) < 2 ^ (1024 : ℤ) :=
    zpow_lt_zpow_right₀ (by norm_num) (by omega)
  have hpos : (0 : ℚ) < 2 ^ (a - 1) := by positivity
  have hpos2 : (0 : ℚ) < 2 ^ (1024 : ℤ) := by positivity
  unfold toDouble
  rw [if_neg (by linarith), if_neg (by linarith)]

theorem zpow_bucket_mul {x y : ℚ} {a b c d : ℤ} (e f : ℤ) (hx1 : (2 : ℚ) ^ a ≤ x)
    (hx2 : x ≤ (2 : ℚ) ^ b) (hy1 : (2 : ℚ) ^ c ≤ y) (hy2 : y ≤ (2 : ℚ) ^ d)
    (he : e ≤ a + c) (hf : b + d ≤ f) :
    (2 : ℚ) ^ e ≤ x * y ∧ x * y ≤ (2 : ℚ) ^ f := by
  have one_le : (1 : ℚ) ≤ 2 := by norm_num
  have h2 : (2 : ℚ) ≠ 0 := by norm_num
  have pa : (0 : ℚ) < 2 ^ a := by positivity
  have pc : (0 : ℚ) < 2 ^ c := by positivity
  have px : 0 < x := lt_of_lt_of_le pa hx1
  have py : 0 < y := lt_of_lt_of_le pc hy1
  constructor
  · calc (2 : ℚ) ^ e ≤ 2 ^ (a + c) := zpow_le_zpow_right₀ one_le he
      _ = 2 ^ a * 2 ^ c := zpow_add₀ h2 a c
      _ ≤ x * y := mul_le_mul hx1 hy1 (le_of_lt pc) (le_of_lt px)
  · calc x * y ≤ 2 ^ b * 2 ^ d := mul_le_mul hx2 hy2 (le_of_lt py) (by positivity)
      _ = 2 ^ (b + d) := (zpow_add₀ h2 b d).symm
      _ ≤ 2 ^ f := zpow_le_zpow_right₀ one_le hf

theorem zpow_bucket_div {x y : ℚ} {a b c d : ℤ} (e f : ℤ) (hx1 : (2 : ℚ) ^ a ≤ x)
    (hx2 : x ≤ (2 : ℚ) ^ b) (hy1 : (2 : ℚ) ^ c ≤ y) (hy2 : y ≤ (2 : ℚ) ^ d)
    (he : e ≤ a - d) (hf : b - c ≤ f) :
    (2 : ℚ) ^ e ≤ x / y ∧ x / y ≤ (2 : ℚ) ^ f := by
  have pc : (0 : ℚ) < 2 ^ c := by positivity
  have py : 0 < y := lt_of_lt_of_le pc hy1
  have hi1 : (2 : ℚ) ^ (-d) ≤ y⁻¹ := by
    rw [zpow_neg]
    exact inv_anti₀ py hy2
  have hi2 : y⁻¹ ≤ (2 : ℚ) ^ (-c) := by
    rw [zpow_neg]
    exact inv_anti₀ pc hy1
  rw [div_eq_mul_inv]
  exact zpow_bucket_mul e f hx1 hx2 hi1 hi2 (by omega) (by omega)

/-! ## Order and rounding of JavaScript numbers -/

theorem Num.toDouble_le_toDouble {a b : Num ℚ} (h : a ≤ b) : a.toDouble ≤ b.toDouble := by
  cases a <;> cases b <;> first
    | exact absurd (show false = true from h) Bool.false_ne_true
    | exact BLDC.toDouble_mono ((Num.fin_le_fin _ _).mp h)
    | exact ninf_le_toDouble _
    | exact toDouble_le_pinf _
    | rfl

theorem Num.toDouble_fin (x : ℚ) : (Num.fin x).toDouble = BLDC.toDouble x := rfl

theorem Num.le_trans_num {a b c : Num ℚ} (h1 : a ≤ b) (h2 : b ≤ c) : a ≤ c := by
  cases a <;> cases b <;> cases c <;> first
    | exact absurd (show false = true from h1) Bool.false_ne_true
    | exact absurd (show false = true from h2) Bool.false_ne_true
    | rfl
    | (rw [Num.fin_le_fin] at h1 h2 ⊢
       exact le_trans h1 h2)

theorem Num.le_refl_of_isNaN {a : Num ℚ} (ha : a.isNaN = false) : a ≤ a := by
  cases a with
  | nan => exact absurd ha (by simp [Num.isNaN])
  | ninf => rfl
  | pinf => rfl
  | fin y => rw [Num.fin_le_fin]

theorem Num.fin_of_le_of_le {a : Num ℚ} {lo hi : ℚ} (h1 : Num.fin lo ≤ a)
    (h2 : a ≤ Num.fin hi) :
    ∃ x : ℚ, a = .fin x ∧ lo ≤ x ∧ x ≤ hi := by
  cases a with
  | nan => exact absurd h2 (Num.not_nan_le _)
  | ninf => exact absurd (show false = true from h1) Bool.false_ne_true
  | pinf => exact absurd (show false = true from h2) Bool.false_ne_true
  | fin x =>
    rw [Num.fin_le_fin] at h1 h2
    exact ⟨x, rfl, h1, h2⟩

theorem Num.add_fin_mono {a b : Num ℚ} (c : ℚ) (h : a ≤ b) : a + .fin c ≤ b + .fin c := by
  cases a <;> cases b <;> first
    | exact absurd (show false = true from h) Bool.false_ne_true
    | (show Num.ble (Num.add _ _) (Num.add _ _) = true
       simp only [Num.add]
       first
         | rfl
         | (rw [Num.fin_le_fin] at h
            exact decide_eq_true (add_le_add_right h c)))

theorem Num.fin_mul_mono {a b : Num ℚ} {c : ℚ} (hc : 0 < c) (h : a ≤ b) :
    .fin c * a ≤ .fin c * b := by
  have hc0 : c ≠ 0 := ne_of_gt hc
  have hc1 : ¬ (-c = 0) := by
    rw [neg_eq_zero]
    exact hc0
  have hc2 : ¬ (0 < -c) := by
    rw [neg_pos]
    exact not_lt.mpr (le_of_lt hc)
  cases a <;> cases b <;> first
    | exact absurd (show false = true from h) Bool.false_ne_true
    | (show Num.ble (Num.mul _ _) (Num.mul _ _) = true
       simp only [Num.mul, Num.infTimes, if_pos hc, if_neg hc0, if_neg hc1, if_neg hc2]
       first
         | rfl
         | (rw [Num.fin_le_fin] at h
            exact decide_eq_true (mul_le_mul_of_nonneg_left h (le_of_lt hc))))

namespace Num

variable {K : Type} [LinearOrderedField K]

theorem eq_fin_of_le_of_le {a : Num K} {c : K} (h1 : a ≤ fin c) (h2 : fin c ≤ a) :
    a = fin c := by
  cases a with
  | nan => exact absurd h1 (not_nan_le _)
  | ninf => exact absurd (show false = true from h2) Bool.false_ne_true
  | pinf => exact absurd (show false = true from h1) Bool.false_ne_true
  | fin x =>
    rw [fin_le_fin] at h1 h2
    rw [le_antisymm h1 h2]

theorem div_fin_mono {a b : Num K} {c : K} (hc : 0 < c) (h : a ≤ b) :
    a / fin c ≤ b / fin c := by
  have hc0 : c ≠ 0 := ne_of_gt hc
  have hc1 : 0 ≤ c := le_of_lt hc
  cases a <;> cases b <;> first
    | exact absurd (show false = true from h) Bool.false_ne_true
    | (show ble (div _ _) (div _ _) = true
       simp only [div, if_pos hc1, if_neg hc0]
       first
         | rfl
         | (rw [fin_le_fin] at h
            exact decide_eq_true (div_le_div_of_nonneg_right h hc1)))

theorem mul_fin_mono {a b : Num K} {c : K} (hc : 0 < c) (h : a ≤ b) :
    a * fin c ≤ b * fin c := by
  have hc0 : c ≠ 0 := ne_of_gt hc
  have hc1 : ¬ (-c = 0) := by
    rw [neg_eq_zero]
    exact hc0
  have hc2 : ¬ (0 < -c) := by
    rw [neg_pos]
    exact not_lt.mpr (le_of_lt hc)
  cases a <;> cases b <;> first
    | exact absurd (show false = true from h) Bool.false_ne_true
    | (show ble (mul _ _) (mul _ _) = true
       simp only [mul, infTimes, if_pos hc, if_neg hc0, if_neg hc1, if_neg hc2]
       first
         | rfl
         | (rw [fin_le_fin] at h
            exact decide_eq_true (mul_le_mul_of_nonneg_right h (le_of_lt hc))))

theorem fin_add_mono {a b : Num K} (c : K) (h : a ≤ b) : fin c + a ≤ fin c + b := by
  cases a <;> cases b <;> first
    | exact absurd (show false = true from h) Bool.false_ne_true
    | (show ble (add _ _) (add _ _) = true
       simp only [add]
       first
         | rfl
         | (rw [fin_le_fin] at h
            exact decide_eq_true (add_le_add_left h c)))

end Num

/-! ## Literals -/

namespace Double

theorem val_2 : (2 : Double).val = .fin 2 :=
  Num.eq_fin_of_le_of_le (by decide!) (by decide!)

theorem val_200 : (200 : Double).val = .fin 200 :=
  Num.eq_fin_of_le_of_le (by decide!) (by decide!)

theorem val_0_5 : (0.5 : Double).val = .fin (1 / 2) :=
  Num.eq_fin_of_le_of_le (by decide!) (by decide!)

theorem val_0_75 : (0.75 : Double).val = .fin (3 / 4) :=
  Num.eq_fin_of_le_of_le (by decide!) (by decide!)

theorem val_360 : (360 : Double).val = .fin 360 :=
  Num.eq_fin_of_le_of_le (by decide!) (by decide!)

theorem val_0_1 : (0.1 : Double).val = .fin (3602879701896397 / 36028797018963968) :=
  Num.eq_fin_of_le_of_le (by decide!) (by decide!)

theorem val_PI : PI.val = .fin (884279719003555 / 281474976710656) :=
  Num.eq_fin_of_le_of_le (by decide!) (by decide!)

theorem range_of_bounds (a : Double) (h1 : 1e-90 ≤ a) (h2 : a ≤ 1e90) :
    ∃ x : ℚ, a.val = .fin x ∧ (2 : ℚ) ^ (-300 : ℤ) ≤ x ∧ x ≤ (2 : ℚ) ^ (300 : ℤ) := by
  have l1 : Num.fin ((2 : ℚ) ^ (-300 : ℤ)) ≤ (1e-90 : Double).val := by decide!
  have l2 : (1e90 : Double).val ≤ Num.fin ((2 : ℚ) ^ (300 : ℤ)) := by decide!
  exact Num.fin_of_le_of_le (Num.le_trans_num l1 h1) (Num.le_trans_num h2 l2)

theorem val_0_7 : (0.7 : Double).val = .fin (3152519739159347 / 4503599627370496) :=
  Num.eq_fin_of_le_of_le (by decide!) (by decide!)

theorem val_22_223 : (22.223 : Double).val = .fin (1563804601860227 / 70368744177664) :=
  Num.eq_fin_of_le_of_le (by decide!) (by decide!)

theorem val_22_222 : (22.222 : Double).val = .fin (3127468466232099 / 140737488355328) :=
  Num.eq_fin_of_le_of_le (by decide!) (by decide!)

theorem isDouble_of_toDouble {x : ℚ} (h : toDouble x = .fin x) :
    isDouble ⟨toDouble x⟩ := by
  show (toDouble x).toDouble = toDouble x
  rw [h]
  exact h

theorem isDouble_30 : isDouble 30 :=
  isDouble_of_toDouble (Num.eq_fin_of_le_of_le (by decide!) (by decide!))

theorem isDouble_40 : isDouble 40 :=
  isDouble_of_toDouble (Num.eq_fin_of_le_of_le (by decide!) (by decide!))

end Double

/-! ## The airgap in double precision: claim C15 -/

namespace Double

theorem calculateAirgap_val (d : Double) :
    (calculateAirgap d).val =
      ((Num.fin (1 / 2) : Num ℚ) +
        ((d.val / Num.fin 200).toDouble * Num.fin (1 / 2)).toDouble).toDouble := by
  show ((0.5 : Double).val + ((d.val / (200 : Double).val).toDouble *
    (0.5 : Double).val).toDouble).toDouble = _
  rw [val_200, val_0_5]

theorem calculateAirgap_mono {d1 d2 : Double} (h : d1 ≤ d2) :
    calculateAirgap d1 ≤ calculateAirgap d2 := by
  show (calculateAirgap d1).val ≤ (calculateAirgap d2).val
  rw [calculateAirgap_val, calculateAirgap_val]
  have h200 : (0 : ℚ) < 200 := by norm_num
  have h05 : (0 : ℚ) < 1 / 2 := by norm_num
  exact Num.toDouble_le_toDouble (Num.fin_add_mono _ (Num.toDouble_le_toDouble
    (Num.mul_fin_mono h05 (Num.toDouble_le_toDouble (Num.div_fin_mono h200 h)))))

end Double

/-- Claim C15, counterexample: in double precision the diameters 35 and
35.00000000000001 are different doubles and both give the airgap 0.5875, so the
airgap of the larger diameter is not strictly greater. -/
theorem calculateAirgap_double_not_increasing :
    (35 : Double) < 35.00000000000001 ∧
      (Double.calculateAirgap 35).strictEq 0.5875 = true ∧
      (Double.calculateAirgap 35.00000000000001).strictEq 0.5875 = true ∧
      ¬ (Double.calculateAirgap 35 < Double.calculateAirgap 35.00000000000001) :=
  ⟨by decide!, by decide!, by decide!, by decide!⟩

/-- Claim C15, amended: `calculateAirgap` is non-decreasing in the motor diameter:
for all doubles d1 <= d2, calculateAirgap(d1) <= calculateAirgap(d2), with
calculateAirgap(d) = 0.5 + (d / 200) * 0.5, every operation rounded to a double. -/
theorem calculateAirgap_double_monotone (d1 d2 : Double) (h : d1 ≤ d2) :
    Double.calculateAirgap d1 ≤ Double.calculateAirgap d2 ∧
      Double.calculateAirgap d1 = 0.5 + d1 / 200 * 0.5 ∧
      Double.calculateAirgap d2 = 0.5 + d2 / 200 * 0.5 :=
  ⟨Double.calculateAirgap_mono h, rfl, rfl⟩

/-- Witness for claim C15: diameters 20 and 100, as in the test; the airgaps are 0.55
and 0.75. -/
theorem calculateAirgap_double_monotone_witness :
    (20 : Double) ≤ 100 ∧ Double.calculateAirgap 20 ≤ Double.calculateAirgap 100 ∧
      (Double.calculateAirgap 20).strictEq 0.55 = true ∧
      (Double.calculateAirgap 100).strictEq 0.75 = true ∧
      Double.calculateAirgap 20 < Double.calculateAirgap 100 :=
  ⟨by decide!, (calculateAirgap_double_monotone 20 100 (by decide!)).1, by decide!,
    by decide!, by decide!⟩


/-! ## The working diameter in double precision: claim C10 -/

namespace Double

theorem optimalDiameter_val (a b : Double) :
    (optimalDiameter a b).val = ((a.val + b.val).toDouble / Num.fin 2).toDouble := by
  show ((a.val + b.val).toDouble / (2 : Double).val).toDouble = _
  rw [val_2]

theorem optimalDiameter_between_of_isFinite (minDiameter maxDiameter : Double)
    (hmin : minDiameter.isDouble) (hmax : maxDiameter.isDouble)
    (hle : minDiameter ≤ maxDiameter)
    (hsum : (minDiameter + maxDiameter).val.isFinite = true) :
    minDiameter ≤ optimalDiameter minDiameter maxDiameter ∧
      optimalDiameter minDiameter maxDiameter ≤ maxDiameter := by
  obtain ⟨a⟩ := minDiameter
  obtain ⟨b⟩ := maxDiameter
  have h2 : (2 : ℚ) ≠ 0 := by norm_num
  show a ≤ (optimalDiameter ⟨a⟩ ⟨b⟩).val ∧ (optimalDiameter ⟨a⟩ ⟨b⟩).val ≤ b
  rw [optimalDiameter_val]
  change a.toDouble = a at hmin
  change b.toDouble = b at hmax
  change a ≤ b at hle
  change (a + b).toDouble.isFinite = true at hsum
  cases a <;> cases b <;> first
    | exact absurd (show false = true from hle) Bool.false_ne_true
    | exact absurd (show false = true from hsum) Bool.false_ne_true
    | skip
  rename_i x y
  change toDouble x = .fin x at hmin
  change toDouble y = .fin y at hmax
  change (toDouble (x + y)).isFinite = true at hsum
  rw [Num.fin_le_fin] at hle
  show Num.fin x ≤ ((toDouble (x + y)) / Num.fin 2).toDouble ∧
    ((toDouble (x + y)) / Num.fin 2).toDouble ≤ Num.fin y
  rw [toDouble_isFinite hsum, Num.fin_div_fin_of_ne _ h2]
  exact toDouble_mean_between x y hmin hmax hle

end Double

/-- Claim C10, counterexample: in double precision minDiameter 1e308 and maxDiameter
1.5e308 are finite with minDiameter <= maxDiameter, their sum overflows, and the
working diameter (the design's motorDiameter) is +Infinity: it is not finite, it is
above maxDiameter, and motorDiameter <= maxDiameter fails. -/
theorem optimalDiameter_overflow :
    (1e308 : Double) ≤ 1.5e308 ∧
      (1.5e308 : Double).val.isFinite = true ∧
      (Double.optimalDiameter 1e308 1.5e308).val.isFinite = false ∧
      (1.5e308 : Double) < Double.optimalDiameter 1e308 1.5e308 ∧
      ¬ (Double.optimalDiameter 1e308 1.5e308 ≤ 1.5e308) :=
  ⟨by decide!, by decide!, by decide!, by decide!, by decide!⟩

/-- Claim C10, amended: for doubles minDiameter <= maxDiameter whose sum
minDiameter + maxDiameter is finite (no overflow), the design's motorDiameter, which
is the working diameter (minDiameter + maxDiameter) / 2 in double precision,
satisfies minDiameter <= motorDiameter <= maxDiameter. -/
theorem optimalDiameter_between (minDiameter maxDiameter : Double)
    (hmin : minDiameter.isDouble) (hmax : maxDiameter.isDouble)
    (hle : minDiameter ≤ maxDiameter)
    (hsum : (minDiameter + maxDiameter).val.isFinite = true) :
    Double.optimalDiameter minDiameter maxDiameter = (minDiameter + maxDiameter) / 2 ∧
      minDiameter ≤ Double.optimalDiameter minDiameter maxDiameter ∧
      Double.optimalDiameter minDiameter maxDiameter ≤ maxDiameter :=
  ⟨rfl, Double.optimalDiameter_between_of_isFinite minDiameter maxDiameter hmin hmax hle hsum⟩

/-- Witness for claim C10: the range 30 to 40 of the tests, with motorDiameter 35. -/
theorem optimalDiameter_between_witness :
    (Double.optimalDiameter 30 40).strictEq 35 = true ∧
      (30 : Double) ≤ Double.optimalDiameter 30 40 ∧
      Double.optimalDiameter 30 40 ≤ 40 :=
  ⟨by decide!,
    (optimalDiameter_between 30 40 Double.isDouble_30 Double.isDouble_40 (by decide!)
      (by decide!)).2⟩

/-! ## The magnets in double precision: claim C28

In exact arithmetic a magnet clipped to its arc gives
`poleCount * (magnetWidth + magnetGap) = pi * rotorInnerDiameter`. Each of the
operations on the way rounds with a relative error of at most `2^(-53)`, so that as
computed the left side can exceed the right one, by a factor of at most
`(1 + 2^(-53))^6`. -/

/-- The roundings of `calculateMagnetParameters` and of the product
`poleCount * (magnetWidth + magnetGap)` for a magnet clipped to its arc, one after the
other, with motorDiameter `m` and poleCount `n` in the range `2^(-300)` to `2^300`:
every result is finite, and the product is within `1 + 2^(-50)` of
`Math.PI * rotorInnerDiameter`. -/
theorem magnet_chain (m n : ℚ) (hm1 : (2 : ℚ) ^ (-300 : ℤ) ≤ m)
    (hm2 : m ≤ (2 : ℚ) ^ (300 : ℤ))
    (hn1 : (2 : ℚ) ^ (-300 : ℤ) ≤ n) (hn2 : n ≤ (2 : ℚ) ^ (300 : ℤ)) :
    ∃ r1 r2 r3 r4 r5 r6 r7 r8 r9 : ℚ,
      toDouble (m * (3 / 4)) = .fin r1 ∧
      toDouble (360 / n) = .fin r2 ∧
      toDouble (884279719003555 / 281474976710656 * r1) = .fin r3 ∧
      toDouble (r3 * r2) = .fin r4 ∧
      toDouble (r4 / 360) = .fin r5 ∧
      toDouble (r5 * (3602879701896397 / 36028797018963968)) = .fin r6 ∧
      toDouble (r5 - r6) = .fin r7 ∧
      toDouble (r7 + r6) = .fin r8 ∧
      toDouble (n * r8) = .fin r9 ∧
      r9 ≤ r3 * (1 + 2 ^ (-50 : ℤ)) := by
  have hn0 : 0 < n := lt_of_lt_of_le (by positivity) hn1
  -- rotorInnerDiameter
  have c75 : (2 : ℚ) ^ (-1 : ℤ) ≤ 3 / 4 ∧ (3 / 4 : ℚ) ≤ 2 ^ (0 : ℤ) := by norm_num
  obtain ⟨b1l, b1h⟩ := zpow_bucket_mul (-301) 300 hm1 hm2 c75.1 c75.2 (by norm_num)
    (by norm_num)
  obtain ⟨e1, -, l1, h1⟩ := toDouble_step _ (-301) 300 (by norm_num) (by norm_num) b1l b1h
  generalize roundToGrid (m * (3 / 4)) = r1 at e1 l1 h1
  -- polarAngle
  have c360 : (2 : ℚ) ^ (8 : ℤ) ≤ 360 ∧ (360 : ℚ) ≤ 2 ^ (9 : ℤ) := by norm_num
  obtain ⟨b2l, b2h⟩ := zpow_bucket_div (-292) 309 c360.1 c360.2 hn1 hn2 (by norm_num)
    (by norm_num)
  obtain ⟨e2, u2, l2, h2⟩ := toDouble_step _ (-292) 309 (by norm_num) (by norm_num) b2l b2h
  generalize roundToGrid (360 / n) = r2 at e2 u2 l2 h2
  -- Math.PI * rotorInnerDiameter
  have cpi : (2 : ℚ) ^ (1 : ℤ) ≤ 884279719003555 / 281474976710656 ∧
      (884279719003555 / 281474976710656 : ℚ) ≤ 2 ^ (2 : ℤ) := by norm_num
  obtain ⟨b3l, b3h⟩ := zpow_bucket_mul (-301) 303 cpi.1 cpi.2 l1 h1 (by norm_num)
    (by norm_num)
  obtain ⟨e3, -, l3, h3⟩ := toDouble_step _ (-301) 303 (by norm_num) (by norm_num) b3l b3h
  generalize roundToGrid (884279719003555 / 281474976710656 * r1) = r3 at e3 l3 h3
  -- times polarAngle
  obtain ⟨b4l, b4h⟩ := zpow_bucket_mul (-595) 614 l3 h3 l2 h2 (by norm_num) (by norm_num)
  obtain ⟨e4, u4, l4, h4⟩ := toDouble_step _ (-595) 614 (by norm_num) (by norm_num) b4l b4h
  generalize roundToGrid (r3 * r2) = r4 at e4 u4 l4 h4
  -- arcLength
  obtain ⟨b5l, b5h⟩ := zpow_bucket_div (-605) 607 l4 h4 c360.1 c360.2 (by norm_num)
    (by norm_num)
  obtain ⟨e5, u5, l5, h5⟩ := toDouble_step _ (-605) 607 (by norm_num) (by norm_num) b5l b5h
  generalize roundToGrid (r4 / 360) = r5 at e5 u5 l5 h5
  -- magnetGap
  have c01 : (2 : ℚ) ^ (-4 : ℤ) ≤ 3602879701896397 / 36028797018963968 ∧
      (3602879701896397 / 36028797018963968 : ℚ) ≤ 2 ^ (-3 : ℤ) := by norm_num
  obtain ⟨b6l, b6h⟩ := zpow_bucket_mul (-610) 605 l5 h5 c01.1 c01.2 (by norm_num)
    (by norm_num)
  obtain ⟨e6, u6, l6, h6⟩ := toDouble_step _ (-610) 605 (by norm_num) (by norm_num) b6l b6h
  generalize roundToGrid (r5 * (3602879701896397 / 36028797018963968)) = r6 at e6 u6 l6 h6
  have p5 : 0 < r5 := lt_of_lt_of_le (by positivity) l5
  have p6 : 0 < r6 := lt_of_lt_of_le (by positivity) l6
  have hu : (2 : ℚ) ^ (-53 : ℤ) ≤ 1 := by norm_num
  have hu0 : (0 : ℚ) ≤ 2 ^ (-53 : ℤ) := by positivity
  -- arcLength - magnetGap
  have h65 : r6 ≤ r5 / 4 := by
    have c : (3602879701896397 / 36028797018963968 : ℚ) * (1 + 2 ^ (-53 : ℤ)) ≤ 1 / 4 := by
      norm_num
    calc r6 ≤ r5 * (3602879701896397 / 36028797018963968) * (1 + 2 ^ (-53 : ℤ)) := u6
      _ = r5 * (3602879701896397 / 36028797018963968 * (1 + 2 ^ (-53 : ℤ))) := by ring
      _ ≤ r5 * (1 / 4) := mul_le_mul_of_nonneg_left c (le_of_lt p5)
      _ = r5 / 4 := by ring
  have b7l : (2 : ℚ) ^ (-607 : ℤ) ≤ r5 - r6 := by
    have e : (2 : ℚ) ^ (-607 : ℤ) = 2 ^ (-605 - 1 : ℤ) / 2 := by
      rw [show (-607 : ℤ) = (-605 - 1) - 1 by norm_num,
        zpow_sub₀ (by norm_num : (2 : ℚ) ≠ 0) (-605 - 1) 1, zpow_one]
    rw [e]
    linarith
  have b7h : r5 - r6 ≤ (2 : ℚ) ^ (607 + 1 : ℤ) := by linarith
  obtain ⟨e7, u7, l7, h7⟩ := toDouble_step _ (-607) (607 + 1) (by norm_num) (by norm_num)
    b7l b7h
  generalize roundToGrid (r5 - r6) = r7 at e7 u7 l7 h7
  have p7 : 0 < r7 := lt_of_lt_of_le (by positivity) l7
  -- magnetWidth + magnetGap
  have b8l : (2 : ℚ) ^ (-607 - 1 : ℤ) ≤ r7 + r6 := by linarith
  have b8h : r7 + r6 ≤ (2 : ℚ) ^ (610 : ℤ) := by
    have one_le : (1 : ℚ) ≤ 2 := by norm_num
    have a1 : (2 : ℚ) ^ (607 + 1 + 1 : ℤ) ≤ 2 ^ (609 : ℤ) :=
      zpow_le_zpow_right₀ one_le (by norm_num)
    have a2 : (2 : ℚ) ^ (605 + 1 : ℤ) ≤ 2 ^ (609 : ℤ) :=
      zpow_le_zpow_right₀ one_le (by norm_num)
    have a3 : (2 : ℚ) ^ (610 : ℤ) = 2 ^ (609 : ℤ) * 2 := by
      rw [show (610 : ℤ) = 609 + 1 by norm_num, zpow_add₀ (by norm_num : (2 : ℚ) ≠ 0),
        zpow_one]
    linarith
  obtain ⟨e8, u8, l8, h8⟩ := toDouble_step _ (-607 - 1) 610 (by norm_num) (by norm_num)
    b8l b8h
  generalize roundToGrid (r7 + r6) = r8 at e8 u8 l8 h8
  have p8 : 0 < r8 := lt_of_lt_of_le (by positivity) l8
  -- times poleCount
  obtain ⟨b9l, b9h⟩ := zpow_bucket_mul (-909) 911 hn1 hn2 l8 h8 (by norm_num) (by norm_num)
  obtain ⟨e9, u9, -, -⟩ := toDouble_step _ (-909) 911 (by norm_num) (by norm_num) b9l b9h
  generalize roundToGrid (n * r8) = r9 at e9 u9
  refine ⟨r1, r2, r3, r4, r5, r6, r7, r8, r9, e1, e2, e3, e4, e5, e6, e7, e8, e9, ?_⟩
  have p3 : 0 < r3 := lt_of_lt_of_le (by positivity) l3
  have p2 : 0 < r2 := lt_of_lt_of_le (by positivity) l2
  have p4 : 0 < r4 := lt_of_lt_of_le (by positivity) l4
  have hU : (1 + (2 : ℚ) ^ (-53 : ℤ)) ^ 6 ≤ 1 + 2 ^ (-50 : ℤ) := by norm_num
  generalize (1 + (2 : ℚ) ^ (-50 : ℤ)) = T at hU ⊢
  have hU0 : (0 : ℚ) < 1 + 2 ^ (-53 : ℤ) := by positivity
  have hU1 : (1 : ℚ) ≤ 1 + 2 ^ (-53 : ℤ) := by linarith
  generalize (1 + (2 : ℚ) ^ (-53 : ℤ)) = U at *
  have s78 : r7 + r6 ≤ r5 * U := by
    have : r6 ≤ r6 * U := le_mul_of_one_le_right (le_of_lt p6) hU1
    calc r7 + r6 ≤ (r5 - r6) * U + r6 := by linarith
      _ = r5 * U - r6 * U + r6 := by ring
      _ ≤ r5 * U := by linarith
  have s5 : n * r5 ≤ r3 * U ^ 3 := by
    calc n * r5 ≤ n * (r4 / 360 * U) := by gcongr
      _ ≤ n * (r3 * r2 * U / 360 * U) := by gcongr
      _ ≤ n * (r3 * (360 / n * U) * U / 360 * U) := by gcongr
      _ = r3 * U ^ 3 := by
        field_simp
        ring
  calc r9 ≤ n * r8 * U := u9
    _ ≤ n * ((r7 + r6) * U) * U := by gcongr
    _ ≤ n * (r5 * U * U) * U := by gcongr
    _ = n * r5 * U ^ 3 := by ring
    _ ≤ r3 * U ^ 3 * U ^ 3 := by gcongr
    _ = r3 * U ^ 6 := by ring
    _ ≤ r3 * T := by gcongr

namespace Double

theorem min_le_right_of_isNaN (a b : Double) (ha : a.val.isNaN = false)
    (hb : b.val.isNaN = false) : min a b ≤ b := by
  unfold min
  rw [ha, hb]
  simp only [Bool.or_self, Bool.false_eq_true, if_false]
  split_ifs with h
  · exact h
  · exact Num.le_refl_of_isNaN hb

theorem calculateMagnetParameters_magnetWidth (md p w h : Double) :
    (calculateMagnetParameters md p w h).magnetWidth =
      min w ((calculateMagnetParameters md p w h).arcLength -
        (calculateMagnetParameters md p w h).magnetGap) := rfl

theorem magnets_fit_of_range (motorDiameter poleCount magnetWidth magnetHeight : Double)
    (hmd1 : 1e-90 ≤ motorDiameter) (hmd2 : motorDiameter ≤ 1e90)
    (hp1 : 1e-90 ≤ poleCount) (hp2 : poleCount ≤ 1e90)
    (hw : magnetWidth.val.isNaN = false) :
    (calculateMagnetParameters motorDiameter poleCount magnetWidth magnetHeight).magnetWidth ≤
        (calculateMagnetParameters motorDiameter poleCount magnetWidth magnetHeight).arcLength -
          (calculateMagnetParameters motorDiameter poleCount magnetWidth
            magnetHeight).magnetGap ∧
      (poleCount * ((calculateMagnetParameters motorDiameter poleCount magnetWidth
            magnetHeight).magnetWidth +
          (calculateMagnetParameters motorDiameter poleCount magnetWidth
            magnetHeight).magnetGap)).val ≤
        (PI * (calculateMagnetParameters motorDiameter poleCount magnetWidth
          magnetHeight).rotorInnerDiameter).val * Num.fin (1 + 2 ^ (-50 : ℤ)) := by
  obtain ⟨m, hm, hm1, hm2⟩ := range_of_bounds motorDiameter hmd1 hmd2
  obtain ⟨n, hn, hn1, hn2⟩ := range_of_bounds poleCount hp1 hp2
  obtain ⟨md⟩ := motorDiameter
  obtain ⟨pc⟩ := poleCount
  change md = .fin m at hm
  change pc = .fin n at hn
  subst hm hn
  have hn0 : n ≠ 0 := ne_of_gt (lt_of_lt_of_le (by positivity) hn1)
  have hnpos : 0 < n := lt_of_lt_of_le (by positivity) hn1
  obtain ⟨r1, r2, r3, r4, r5, r6, r7, r8, r9, e1, e2, e3, e4, e5, e6, e7, e8, e9, hfit⟩ :=
    magnet_chain m n hm1 hm2 hn1 hn2
  have hrid : (calculateMagnetParameters ⟨.fin m⟩ ⟨.fin n⟩ magnetWidth
      magnetHeight).rotorInnerDiameter.val = .fin r1 := by
    show ((Num.fin m : Num ℚ) * (0.75 : Double).val).toDouble = _
    rw [val_0_75, Num.fin_mul_fin, Num.toDouble_fin, e1]
  have hpolar : (calculateMagnetParameters ⟨.fin m⟩ ⟨.fin n⟩ magnetWidth
      magnetHeight).polarAngle.val = .fin r2 := by
    show ((360 : Double).val / (Num.fin n : Num ℚ)).toDouble = _
    rw [val_360, Num.fin_div_fin_of_ne _ hn0, Num.toDouble_fin, e2]
  have hcirc : (PI * (calculateMagnetParameters ⟨.fin m⟩ ⟨.fin n⟩ magnetWidth
      magnetHeight).rotorInnerDiameter).val = .fin r3 := by
    show (PI.val * (calculateMagnetParameters ⟨.fin m⟩ ⟨.fin n⟩ magnetWidth
      magnetHeight).rotorInnerDiameter.val).toDouble = _
    rw [hrid, val_PI, Num.fin_mul_fin, Num.toDouble_fin, e3]
  have harc : (calculateMagnetParameters ⟨.fin m⟩ ⟨.fin n⟩ magnetWidth
      magnetHeight).arcLength.val = .fin r5 := by
    show (((PI * (calculateMagnetParameters ⟨.fin m⟩ ⟨.fin n⟩ magnetWidth
      magnetHeight).rotorInnerDiameter).val * (calculateMagnetParameters ⟨.fin m⟩ ⟨.fin n⟩
        magnetWidth magnetHeight).polarAngle.val).toDouble / (360 : Double).val).toDouble = _
    rw [hcirc, hpolar, val_360, Num.fin_mul_fin, Num.toDouble_fin, e4,
      Num.fin_div_fin_of_ne _ (by norm_num : (360 : ℚ) ≠ 0), Num.toDouble_fin, e5]
  have hgap : (calculateMagnetParameters ⟨.fin m⟩ ⟨.fin n⟩ magnetWidth
      magnetHeight).magnetGap.val = .fin r6 := by
    show ((calculateMagnetParameters ⟨.fin m⟩ ⟨.fin n⟩ magnetWidth
      magnetHeight).arcLength.val * (0.1 : Double).val).toDouble = _
    rw [harc, val_0_1, Num.fin_mul_fin, Num.toDouble_fin, e6]
  have hrest : ((calculateMagnetParameters ⟨.fin m⟩ ⟨.fin n⟩ magnetWidth
        magnetHeight).arcLength -
      (calculateMagnetParameters ⟨.fin m⟩ ⟨.fin n⟩ magnetWidth
        magnetHeight).magnetGap).val = .fin r7 := by
    show ((calculateMagnetParameters ⟨.fin m⟩ ⟨.fin n⟩ magnetWidth
        magnetHeight).arcLength.val -
      (calculateMagnetParameters ⟨.fin m⟩ ⟨.fin n⟩ magnetWidth
        magnetHeight).magnetGap.val).toDouble = _
    rw [harc, hgap, Num.fin_sub_fin, Num.toDouble_fin, e7]
  have hwidth : (calculateMagnetParameters ⟨.fin m⟩ ⟨.fin n⟩ magnetWidth
        magnetHeight).magnetWidth ≤
      (calculateMagnetParameters ⟨.fin m⟩ ⟨.fin n⟩ magnetWidth magnetHeight).arcLength -
        (calculateMagnetParameters ⟨.fin m⟩ ⟨.fin n⟩ magnetWidth magnetHeight).magnetGap := by
    rw [calculateMagnetParameters_magnetWidth]
    apply min_le_right_of_isNaN _ _ hw
    rw [hrest]
    rfl
  refine ⟨hwidth, ?_⟩
  have hwidth2 : (calculateMagnetParameters ⟨.fin m⟩ ⟨.fin n⟩ magnetWidth
      magnetHeight).magnetWidth.val ≤ .fin r7 := by
    rw [← hrest]
    exact hwidth
  have hsum : ((calculateMagnetParameters ⟨.fin m⟩ ⟨.fin n⟩ magnetWidth
        magnetHeight).magnetWidth +
      (calculateMagnetParameters ⟨.fin m⟩ ⟨.fin n⟩ magnetWidth
        magnetHeight).magnetGap).val ≤ .fin r8 := by
    show ((calculateMagnetParameters ⟨.fin m⟩ ⟨.fin n⟩ magnetWidth
        magnetHeight).magnetWidth.val +
      (calculateMagnetParameters ⟨.fin m⟩ ⟨.fin n⟩ magnetWidth
        magnetHeight).magnetGap.val).toDouble ≤ _
    rw [hgap, ← e8, ← Num.toDouble_fin, ← Num.fin_add_fin]
    exact Num.toDouble_le_toDouble (Num.add_fin_mono _ hwidth2)
  have hprod : ((⟨.fin n⟩ : Double) * ((calculateMagnetParameters ⟨.fin m⟩ ⟨.fin n⟩ magnetWidth
        magnetHeight).magnetWidth +
      (calculateMagnetParameters ⟨.fin m⟩ ⟨.fin n⟩ magnetWidth
        magnetHeight).magnetGap)).val ≤ .fin r9 := by
    show ((Num.fin n : Num ℚ) * ((calculateMagnetParameters ⟨.fin m⟩ ⟨.fin n⟩ magnetWidth
        magnetHeight).magnetWidth +
      (calculateMagnetParameters ⟨.fin m⟩ ⟨.fin n⟩ magnetWidth
        magnetHeight).magnetGap).val).toDouble ≤ _
    rw [← e9, ← Num.toDouble_fin, ← Num.fin_mul_fin]
    exact Num.toDouble_le_toDouble (Num.fin_mul_mono hnpos hsum)
  rw [hcirc, Num.fin_mul_fin]
  exact Num.le_trans_num hprod ((Num.fin_le_fin _ _).mpr hfit)

end Double

/-- Claim C28, counterexample: in double precision, for motorDiameter 11, 12 poles
and a requested magnet of 10 by 15, poleCount * (magnetWidth + magnetGap) is
25.918139392115798 and Math.PI * rotorInnerDiameter is 25.918139392115794, so the
magnets with their gaps exceed the inner circumference as computed. -/
theorem magnets_exceed_circumference :
    ((12 : Double) * ((Double.calculateMagnetParameters 11 12 10 15).magnetWidth +
        (Double.calculateMagnetParameters 11 12 10 15).magnetGap)).strictEq
          25.918139392115798 = true ∧
      (Double.PI * (Double.calculateMagnetParameters 11 12 10 15).rotorInnerDiameter).strictEq
        25.918139392115794 = true ∧
      ¬ ((12 : Double) * ((Double.calculateMagnetParameters 11 12 10 15).magnetWidth +
          (Double.calculateMagnetParameters 11 12 10 15).magnetGap) ≤
        Double.PI * (Double.calculateMagnetParameters 11 12 10 15).rotorInnerDiameter) :=
  ⟨by decide!, by decide!, by decide!⟩

/-- Claim C28, amended: for motorDiameter and poleCount between 1e-90 and 1e90 and a
requested magnet width that is a number (any magnet height), in double precision the
returned magnetWidth is at most arcLength - magnetGap, and
poleCount * (magnetWidth + magnetGap) is at most (1 + 2^(-50)) times
Math.PI * rotorInnerDiameter: the magnets with their reserved gaps fit on the inner
circumference up to the rounding of the operations. -/
theorem magnets_fit_up_to_rounding
    (motorDiameter poleCount magnetWidth magnetHeight : Double)
    (hmd1 : 1e-90 ≤ motorDiameter) (hmd2 : motorDiameter ≤ 1e90)
    (hp1 : 1e-90 ≤ poleCount) (hp2 : poleCount ≤ 1e90)
    (hw : magnetWidth.val.isNaN = false) :
    (Double.calculateMagnetParameters motorDiameter poleCount magnetWidth
          magnetHeight).magnetWidth ≤
        (Double.calculateMagnetParameters motorDiameter poleCount magnetWidth
            magnetHeight).arcLength -
          (Double.calculateMagnetParameters motorDiameter poleCount magnetWidth
            magnetHeight).magnetGap ∧
      (poleCount * ((Double.calculateMagnetParameters motorDiameter poleCount magnetWidth
            magnetHeight).magnetWidth +
          (Double.calculateMagnetParameters motorDiameter poleCount magnetWidth
            magnetHeight).magnetGap)).val ≤
        (Double.PI * (Double.calculateMagnetParameters motorDiameter poleCount magnetWidth
          magnetHeight).rotorInnerDiameter).val * Num.fin (1 + 2 ^ (-50 : ℤ)) :=
  Double.magnets_fit_of_range motorDiameter poleCount magnetWidth magnetHeight hmd1 hmd2
    hp1 hp2 hw

/-- Witness for claim C28: the input of the magnet test, motorDiameter 30 with 14
poles and a requested magnet of 10 by 15. -/
theorem magnets_fit_up_to_rounding_witness :
    (Double.calculateMagnetParameters 30 14 10 15).magnetWidth ≤
        (Double.calculateMagnetParameters 30 14 10 15).arcLength -
          (Double.calculateMagnetParameters 30 14 10 15).magnetGap ∧
      ((14 : Double) * ((Double.calculateMagnetParameters 30 14 10 15).magnetWidth +
          (Double.calculateMagnetParameters 30 14 10 15).magnetGap)).val ≤
        (Double.PI * (Double.calculateMagnetParameters 30 14 10 15).rotorInnerDiameter).val *
          Num.fin (1 + 2 ^ (-50 : ℤ)) :=
  magnets_fit_up_to_rounding 30 14 10 15 (by decide!) (by decide!) (by decide!) (by decide!)
    (by decide!)

/-! ## The diameters of the design in double precision: claim C9

The design takes statorOuterDiameter and statorInnerDiameter from
`calculateCoilDimensions` and rotorInnerDiameter and rotorDiameter from
`calculateMagnetParameters`, both called with the working diameter. -/

/-- The roundings behind the diameters of the design, for a working diameter `m` in
the range `2^(-300)` to `2^300`: the stator's outer diameter `0.7 * m`, its inner
diameter, half of that, and the rotor's inner diameter `0.75 * m`. -/
theorem diameters_chain (m : ℚ) (hm1 : (2 : ℚ) ^ (-300 : ℤ) ≤ m)
    (hm2 : m ≤ (2 : ℚ) ^ (300 : ℤ)) :
    ∃ so si ri : ℚ,
      toDouble (m * (3152519739159347 / 4503599627370496)) = .fin so ∧
      toDouble (so * (1 / 2)) = .fin si ∧
      toDouble (m * (3 / 4)) = .fin ri ∧
      si < so ∧ so < ri ∧ ri < m := by
  have hm0 : 0 < m := lt_of_lt_of_le (by positivity) hm1
  have hu : (2 : ℚ) ^ (-53 : ℤ) = 1 / 9007199254740992 := by norm_num
  have c7 : (2 : ℚ) ^ (-1 : ℤ) ≤ 3152519739159347 / 4503599627370496 ∧
      (3152519739159347 / 4503599627370496 : ℚ) ≤ 2 ^ (0 : ℤ) := by norm_num
  have c75 : (2 : ℚ) ^ (-1 : ℤ) ≤ 3 / 4 ∧ (3 / 4 : ℚ) ≤ 2 ^ (0 : ℤ) := by norm_num
  have c5 : (2 : ℚ) ^ (-1 : ℤ) ≤ 1 / 2 ∧ (1 / 2 : ℚ) ≤ 2 ^ (-1 : ℤ) := by norm_num
  -- statorOuterDiameter
  obtain ⟨b1l, b1h⟩ := zpow_bucket_mul (-301) 300 hm1 hm2 c7.1 c7.2 (by norm_num)
    (by norm_num)
  obtain ⟨e1, u1, l1, h1⟩ := toDouble_step _ (-301) 300 (by norm_num) (by norm_num) b1l b1h
  generalize roundToGrid (m * (3152519739159347 / 4503599627370496)) = so at e1 u1 l1 h1
  have pso : 0 < so := lt_of_lt_of_le (by positivity) l1
  -- statorInnerDiameter
  obtain ⟨b2l, b2h⟩ := zpow_bucket_mul (-303) 300 l1 h1 c5.1 c5.2 (by norm_num)
    (by norm_num)
  obtain ⟨e2, u2, -, -⟩ := toDouble_step _ (-303) 300 (by norm_num) (by norm_num) b2l b2h
  generalize roundToGrid (so * (1 / 2)) = si at e2 u2
  -- rotorInnerDiameter
  obtain ⟨b3l, b3h⟩ := zpow_bucket_mul (-301) 300 hm1 hm2 c75.1 c75.2 (by norm_num)
    (by norm_num)
  obtain ⟨e3, u3, -, -⟩ := toDouble_step _ (-301) 300 (by norm_num) (by norm_num) b3l b3h
  have w3 := roundToGrid_lower _ (-301) (by norm_num) b3l
  generalize roundToGrid (m * (3 / 4)) = ri at e3 u3 w3
  rw [hu] at u1 u2 u3 w3
  refine ⟨so, si, ri, e1, e2, e3, ?_, ?_, ?_⟩ <;> linarith

namespace Double

theorem diameter_chain_of_range (motorDiameter poleCount magnetWidth magnetHeight : Double)
    (h1 : 1e-90 ≤ motorDiameter) (h2 : motorDiameter ≤ 1e90) :
    statorInnerDiameter motorDiameter < statorOuterDiameter motorDiameter ∧
      statorOuterDiameter motorDiameter <
        (calculateMagnetParameters motorDiameter poleCount magnetWidth
          magnetHeight).rotorInnerDiameter ∧
      (calculateMagnetParameters motorDiameter poleCount magnetWidth
          magnetHeight).rotorInnerDiameter <
        (calculateMagnetParameters motorDiameter poleCount magnetWidth
          magnetHeight).rotorOuterDiameter ∧
      (calculateMagnetParameters motorDiameter poleCount magnetWidth
        magnetHeight).rotorOuterDiameter = motorDiameter := by
  obtain ⟨m, hm, hm1, hm2⟩ := range_of_bounds motorDiameter h1 h2
  obtain ⟨md⟩ := motorDiameter
  change md = .fin m at hm
  subst hm
  obtain ⟨so, si, ri, e1, e2, e3, c1, c2, c3⟩ := diameters_chain m hm1 hm2
  have hso : (statorOuterDiameter ⟨.fin m⟩).val = .fin so := by
    show ((Num.fin m : Num ℚ) * (0.7 : Double).val).toDouble = _
    rw [val_0_7, Num.fin_mul_fin, Num.toDouble_fin, e1]
  have hsi : (statorInnerDiameter ⟨.fin m⟩).val = .fin si := by
    show ((statorOuterDiameter ⟨.fin m⟩).val * (0.5 : Double).val).toDouble = _
    rw [hso, val_0_5, Num.fin_mul_fin, Num.toDouble_fin, e2]
  have hri : (calculateMagnetParameters ⟨.fin m⟩ poleCount magnetWidth
      magnetHeight).rotorInnerDiameter.val = .fin ri := by
    show ((Num.fin m : Num ℚ) * (0.75 : Double).val).toDouble = _
    rw [val_0_75, Num.fin_mul_fin, Num.toDouble_fin, e3]
  refine ⟨?_, ?_, ?_, rfl⟩
  · show (statorInnerDiameter ⟨.fin m⟩).val < (statorOuterDiameter ⟨.fin m⟩).val
    rw [hsi, hso, Num.fin_lt_fin]
    exact c1
  · show (statorOuterDiameter ⟨.fin m⟩).val < (calculateMagnetParameters ⟨.fin m⟩ poleCount
      magnetWidth magnetHeight).rotorInnerDiameter.val
    rw [hso, hri, Num.fin_lt_fin]
    exact c2
  · show (calculateMagnetParameters ⟨.fin m⟩ poleCount magnetWidth
      magnetHeight).rotorInnerDiameter.val < Num.fin m
    rw [hri, Num.fin_lt_fin]
    exact c3

end Double

/-- Claim C9, counterexample: in double precision, for minDiameter 1e308 and
maxDiameter 1.5e308 the sum is positive (it overflows to +Infinity), the working
diameter is +Infinity, and so are all four diameters of the design: none of the three
strict inequalities of the chain holds. -/
theorem diameter_chain_overflow :
    (0 : Double) < (1e308 : Double) + 1.5e308 ∧
      ¬ (Double.statorInnerDiameter (Double.optimalDiameter 1e308 1.5e308) <
        Double.statorOuterDiameter (Double.optimalDiameter 1e308 1.5e308)) ∧
      ¬ (Double.statorOuterDiameter (Double.optimalDiameter 1e308 1.5e308) <
        (Double.calculateMagnetParameters (Double.optimalDiameter 1e308 1.5e308) 22 10
          15).rotorInnerDiameter) ∧
      ¬ ((Double.calculateMagnetParameters (Double.optimalDiameter 1e308 1.5e308) 22 10
          15).rotorInnerDiameter <
        (Double.calculateMagnetParameters (Double.optimalDiameter 1e308 1.5e308) 22 10
          15).rotorOuterDiameter) :=
  ⟨by decide!, by decide!, by decide!, by decide!⟩

/-- Claim C9, amended: for params whose working diameter
(minDiameter + maxDiameter) / 2, computed in double precision, lies between 1e-90 and
1e90, the design has statorInnerDiameter < statorOuterDiameter < rotorInnerDiameter <
rotorDiameter, and rotorDiameter equals motorDiameter, whatever the pole count and the
magnet. -/
theorem diameter_chain_double
    (minDiameter maxDiameter poleCount magnetWidth magnetHeight : Double)
    (hlo : 1e-90 ≤ Double.optimalDiameter minDiameter maxDiameter)
    (hhi : Double.optimalDiameter minDiameter maxDiameter ≤ 1e90) :
    Double.statorInnerDiameter (Double.optimalDiameter minDiameter maxDiameter) <
        Double.statorOuterDiameter (Double.optimalDiameter minDiameter maxDiameter) ∧
      Double.statorOuterDiameter (Double.optimalDiameter minDiameter maxDiameter) <
        (Double.calculateMagnetParameters (Double.optimalDiameter minDiameter maxDiameter)
          poleCount magnetWidth magnetHeight).rotorInnerDiameter ∧
      (Double.calculateMagnetParameters (Double.optimalDiameter minDiameter maxDiameter)
          poleCount magnetWidth magnetHeight).rotorInnerDiameter <
        (Double.calculateMagnetParameters (Double.optimalDiameter minDiameter maxDiameter)
          poleCount magnetWidth magnetHeight).rotorOuterDiameter ∧
      (Double.calculateMagnetParameters (Double.optimalDiameter minDiameter maxDiameter)
          poleCount magnetWidth magnetHeight).rotorOuterDiameter =
        Double.optimalDiameter minDiameter maxDiameter :=
  Double.diameter_chain_of_range _ poleCount magnetWidth magnetHeight hlo hhi

/-- Witness for claim C9: the range 30 to 40 of the tests, with 22 poles and the
magnet of 10 by 15. -/
theorem diameter_chain_double_witness :
    Double.statorInnerDiameter (Double.optimalDiameter 30 40) <
        Double.statorOuterDiameter (Double.optimalDiameter 30 40) ∧
      Double.statorOuterDiameter (Double.optimalDiameter 30 40) <
        (Double.calculateMagnetParameters (Double.optimalDiameter 30 40) 22 10
          15).rotorInnerDiameter ∧
      (Double.calculateMagnetParameters (Double.optimalDiameter 30 40) 22 10
          15).rotorInnerDiameter <
        (Double.calculateMagnetParameters (Double.optimalDiameter 30 40) 22 10
          15).rotorOuterDiameter ∧
      (Double.calculateMagnetParameters (Double.optimalDiameter 30 40) 22 10
          15).rotorOuterDiameter = Double.optimalDiameter 30 40 :=
  diameter_chain_double 30 40 22 10 15 (by decide!) (by decide!)

/-! ## The airgap and the radial clearance in double precision: claim C29 -/

/-- The roundings behind the airgap `0.5 + (x / 200) * 0.5` and the radial clearance
`(0.75 * x - 0.7 * x) / 2`, for a motor diameter `x` in the range `2^(-300)` to
`2^300`: from 22.223 on the airgap is at most the clearance, and up to 22.222 it
exceeds the clearance (the bounds are the doubles nearest to 22.223 and 22.222). -/
theorem airgap_clearance_chain (x : ℚ) (hx1 : (2 : ℚ) ^ (-300 : ℤ) ≤ x)
    (hx2 : x ≤ (2 : ℚ) ^ (300 : ℤ)) :
    ∃ r1 r2 a q1 q2 q3 c : ℚ,
      toDouble (x / 200) = .fin r1 ∧
      toDouble (r1 * (1 / 2)) = .fin r2 ∧
      toDouble (1 / 2 + r2) = .fin a ∧
      toDouble (x * (3 / 4)) = .fin q1 ∧
      toDouble (x * (3152519739159347 / 4503599627370496)) = .fin q2 ∧
      toDouble (q1 - q2) = .fin q3 ∧
      toDouble (q3 / 2) = .fin c ∧
      (1563804601860227 / 70368744177664 ≤ x → a ≤ c) ∧
      (x ≤ 3127468466232099 / 140737488355328 → c < a) := by
  have hx0 : 0 < x := lt_of_lt_of_le (by positivity) hx1
  have hu : (2 : ℚ) ^ (-53 : ℤ) = 1 / 9007199254740992 := by norm_num
  have one_le : (1 : ℚ) ≤ 2 := by norm_num
  have h20 : (2 : ℚ) ≠ 0 := by norm_num
  have c200 : (2 : ℚ) ^ (7 : ℤ) ≤ 200 ∧ (200 : ℚ) ≤ 2 ^ (8 : ℤ) := by norm_num
  have c7 : (2 : ℚ) ^ (-1 : ℤ) ≤ 3152519739159347 / 4503599627370496 ∧
      (3152519739159347 / 4503599627370496 : ℚ) ≤ 2 ^ (0 : ℤ) := by norm_num
  have c75 : (2 : ℚ) ^ (-1 : ℤ) ≤ 3 / 4 ∧ (3 / 4 : ℚ) ≤ 2 ^ (0 : ℤ) := by norm_num
  have c5 : (2 : ℚ) ^ (-1 : ℤ) ≤ 1 / 2 ∧ (1 / 2 : ℚ) ≤ 2 ^ (-1 : ℤ) := by norm_num
  have c2 : (2 : ℚ) ^ (1 : ℤ) ≤ 2 ∧ (2 : ℚ) ≤ 2 ^ (1 : ℤ) := by norm_num
  -- diameterFactor
  obtain ⟨b1l, b1h⟩ := zpow_bucket_div (-308) 293 hx1 hx2 c200.1 c200.2 (by norm_num)
    (by norm_num)
  obtain ⟨e1, u1, l1, h1⟩ := toDouble_step _ (-308) 293 (by norm_num) (by norm_num) b1l b1h
  have w1 := roundToGrid_lower _ (-308) (by norm_num) b1l
  generalize roundToGrid (x / 200) = r1 at e1 u1 l1 h1 w1
  -- diameterFactor * 0.5
  obtain ⟨b2l, b2h⟩ := zpow_bucket_mul (-310) 293 l1 h1 c5.1 c5.2 (by norm_num)
    (by norm_num)
  obtain ⟨e2, u2, l2, h2⟩ := toDouble_step _ (-310) 293 (by norm_num) (by norm_num) b2l b2h
  have w2 := roundToGrid_lower _ (-310) (by norm_num) b2l
  generalize roundToGrid (r1 * (1 / 2)) = r2 at e2 u2 l2 h2 w2
  have p2 : 0 < r2 := lt_of_lt_of_le (by positivity) l2
  -- the airgap
  have b3l : (2 : ℚ) ^ (-1 : ℤ) ≤ 1 / 2 + r2 := by linarith [c5.2]
  have b3h : 1 / 2 + r2 ≤ (2 : ℚ) ^ (295 : ℤ) := by
    have a1 : (2 : ℚ) ^ (-1 : ℤ) ≤ 2 ^ (294 : ℤ) := zpow_le_zpow_right₀ one_le (by norm_num)
    have a2 : (2 : ℚ) ^ (293 + 1 : ℤ) ≤ 2 ^ (294 : ℤ) :=
      zpow_le_zpow_right₀ one_le (by norm_num)
    have a3 : (2 : ℚ) ^ (295 : ℤ) = 2 ^ (294 : ℤ) * 2 := by
      rw [show (295 : ℤ) = 294 + 1 by norm_num, zpow_add₀ h20, zpow_one]
    linarith [c5.2]
  obtain ⟨e3, u3, -, -⟩ := toDouble_step _ (-1) 295 (by norm_num) (by norm_num) b3l b3h
  have w3 := roundToGrid_lower _ (-1) (by norm_num) b3l
  generalize roundToGrid (1 / 2 + r2) = a at e3 u3 w3
  -- rotorInnerDiameter
  obtain ⟨b4l, b4h⟩ := zpow_bucket_mul (-301) 300 hx1 hx2 c75.1 c75.2 (by norm_num)
    (by norm_num)
  obtain ⟨e4, u4, l4, h4⟩ := toDouble_step _ (-301) 300 (by norm_num) (by norm_num) b4l b4h
  have w4 := roundToGrid_lower _ (-301) (by norm_num) b4l
  generalize roundToGrid (x * (3 / 4)) = q1 at e4 u4 l4 h4 w4
  -- statorOuterDiameter
  obtain ⟨b5l, b5h⟩ := zpow_bucket_mul (-301) 300 hx1 hx2 c7.1 c7.2 (by norm_num)
    (by norm_num)
  obtain ⟨e5, u5, l5, h5⟩ := toDouble_step _ (-301) 300 (by norm_num) (by norm_num) b5l b5h
  have w5 := roundToGrid_lower _ (-301) (by norm_num) b5l
  generalize roundToGrid (x * (3152519739159347 / 4503599627370496)) = q2 at e5 u5 l5 h5 w5
  have pq2 : 0 < q2 := lt_of_lt_of_le (by positivity) l5
  -- the difference
  rw [hu] at u1 u2 u3 u4 u5 w1 w2 w3 w4 w5
  have b6l : (2 : ℚ) ^ (-305 : ℤ) ≤ q1 - q2 := by
    have e : (2 : ℚ) ^ (-305 : ℤ) = 2 ^ (-300 : ℤ) * (1 / 32) := by
      rw [show (-305 : ℤ) = -300 + -5 by norm_num, zpow_add₀ h20]
      norm_num
    rw [e]
    linarith
  have b6h : q1 - q2 ≤ (2 : ℚ) ^ (300 + 1 : ℤ) := by linarith
  obtain ⟨e6, u6, l6, h6⟩ := toDouble_step _ (-305) (300 + 1) (by norm_num) (by norm_num)
    b6l b6h
  have w6 := roundToGrid_lower _ (-305) (by norm_num) b6l
  generalize roundToGrid (q1 - q2) = q3 at e6 u6 l6 h6 w6
  -- the clearance
  obtain ⟨b7l, b7h⟩ := zpow_bucket_div (-307) 301 l6 h6 c2.1 c2.2 (by norm_num)
    (by norm_num)
  obtain ⟨e7, u7, -, -⟩ := toDouble_step _ (-307) 301 (by norm_num) (by norm_num) b7l b7h
  have w7 := roundToGrid_lower _ (-307) (by norm_num) b7l
  generalize roundToGrid (q3 / 2) = c at e7 u7 w7
  rw [hu] at u6 u7 w6 w7
  refine ⟨r1, r2, a, q1, q2, q3, c, e1, e2, e3, e4, e5, e6, e7, ?_, ?_⟩
  · intro hx
    linarith
  · intro hx
    linarith

namespace Double

theorem airgap_clearance_vals (x : ℚ) (poleCount magnetWidth magnetHeight : Double)
    (hx1 : (2 : ℚ) ^ (-300 : ℤ) ≤ x) (hx2 : x ≤ (2 : ℚ) ^ (300 : ℤ)) :
    ∃ a c : ℚ, (calculateAirgap ⟨.fin x⟩).val = .fin a ∧
      (((calculateMagnetParameters ⟨.fin x⟩ poleCount magnetWidth
          magnetHeight).rotorInnerDiameter - statorOuterDiameter ⟨.fin x⟩) / 2).val = .fin c ∧
      (1563804601860227 / 70368744177664 ≤ x → a ≤ c) ∧
      (x ≤ 3127468466232099 / 140737488355328 → c < a) := by
  obtain ⟨r1, r2, a, q1, q2, q3, c, e1, e2, e3, e4, e5, e6, e7, hfit, hnot⟩ :=
    airgap_clearance_chain x hx1 hx2
  refine ⟨a, c, ?_, ?_, hfit, hnot⟩
  · rw [calculateAirgap_val]
    show ((Num.fin (1 / 2) : Num ℚ) +
      (((Num.fin x : Num ℚ) / Num.fin 200).toDouble * Num.fin (1 / 2)).toDouble).toDouble = _
    rw [Num.fin_div_fin_of_ne _ (by norm_num : (200 : ℚ) ≠ 0), Num.toDouble_fin, e1,
      Num.fin_mul_fin, Num.toDouble_fin, e2, Num.fin_add_fin, Num.toDouble_fin, e3]
  · show ((((Num.fin x : Num ℚ) * (0.75 : Double).val).toDouble -
      ((Num.fin x : Num ℚ) * (0.7 : Double).val).toDouble).toDouble /
        (2 : Double).val).toDouble = _
    rw [val_0_75, val_0_7, val_2, Num.fin_mul_fin, Num.fin_mul_fin, Num.toDouble_fin,
      Num.toDouble_fin, e4, e5, Num.fin_sub_fin, Num.toDouble_fin, e6,
      Num.fin_div_fin_of_ne _ (by norm_num : (2 : ℚ) ≠ 0), Num.toDouble_fin, e7]

theorem airgap_fits_of_range (motorDiameter poleCount magnetWidth magnetHeight : Double) :
    (22.223 ≤ motorDiameter → motorDiameter ≤ 1e90 →
        calculateAirgap motorDiameter ≤
          ((calculateMagnetParameters motorDiameter poleCount magnetWidth
            magnetHeight).rotorInnerDiameter - statorOuterDiameter motorDiameter) / 2) ∧
      (1e-90 ≤ motorDiameter → motorDiameter ≤ 22.222 →
        ((calculateMagnetParameters motorDiameter poleCount magnetWidth
            magnetHeight).rotorInnerDiameter - statorOuterDiameter motorDiameter) / 2 <
          calculateAirgap motorDiameter) := by
  have l1 : (1e-90 : Double) ≤ 22.223 := by decide!
  have l2 : (22.222 : Double) ≤ 1e90 := by decide!
  constructor
  · intro h1 h2
    obtain ⟨x, hx, hx1, hx2⟩ := range_of_bounds motorDiameter (Num.le_trans_num l1 h1) h2
    obtain ⟨md⟩ := motorDiameter
    change md = .fin x at hx
    subst hx
    obtain ⟨a, c, ha, hc, hfit, -⟩ :=
      airgap_clearance_vals x poleCount magnetWidth magnetHeight hx1 hx2
    have hge : 1563804601860227 / 70368744177664 ≤ x := by
      have : (22.223 : Double).val ≤ Num.fin x := h1
      rwa [val_22_223, Num.fin_le_fin] at this
    show (calculateAirgap ⟨.fin x⟩).val ≤ _
    rw [ha, hc, Num.fin_le_fin]
    exact hfit hge
  · intro h1 h2
    obtain ⟨x, hx, hx1, hx2⟩ := range_of_bounds motorDiameter h1 (Num.le_trans_num h2 l2)
    obtain ⟨md⟩ := motorDiameter
    change md = .fin x at hx
    subst hx
    obtain ⟨a, c, ha, hc, -, hnot⟩ :=
      airgap_clearance_vals x poleCount magnetWidth magnetHeight hx1 hx2
    have hle : x ≤ 3127468466232099 / 140737488355328 := by
      have : Num.fin x ≤ (22.222 : Double).val := h2
      rwa [val_22_222, Num.fin_le_fin] at this
    show _ < (calculateAirgap ⟨.fin x⟩).val
    rw [ha, hc, Num.fin_lt_fin]
    exact hnot hle

end Double

/-- Claim C29, counterexample: in double precision the motor diameter
22.222222222222225 is at least 200 / 9 and its airgap exceeds the clearance
(rotorInnerDiameter - statorOuterDiameter) / 2 as computed, while
22.22222222222215 is below 200 / 9 and its airgap is at most the clearance. -/
theorem airgap_fit_flips :
    Num.fin (200 / 9) ≤ (22.222222222222225 : Double).val ∧
      ¬ (Double.calculateAirgap 22.222222222222225 ≤
        ((Double.calculateMagnetParameters 22.222222222222225 14 10 15).rotorInnerDiameter -
          Double.statorOuterDiameter 22.222222222222225) / 2) ∧
      (22.22222222222215 : Double).val < Num.fin (200 / 9) ∧
      Double.calculateAirgap 22.22222222222215 ≤
        ((Double.calculateMagnetParameters 22.22222222222215 14 10 15).rotorInnerDiameter -
          Double.statorOuterDiameter 22.22222222222215) / 2 :=
  ⟨by decide!, by decide!, by decide!, by decide!⟩

/-- Claim C29, amended: in double precision, for every motor diameter D from 22.223
to 1e90 the airgap is at most the clearance
(rotorInnerDiameter - statorOuterDiameter) / 2, with rotorInnerDiameter = 0.75 * D and
statorOuterDiameter = 0.7 * D, and for every D from 1e-90 to 22.222 the airgap exceeds
the clearance. -/
theorem airgap_fits_double (motorDiameter poleCount magnetWidth magnetHeight : Double) :
    (22.223 ≤ motorDiameter → motorDiameter ≤ 1e90 →
        Double.calculateAirgap motorDiameter ≤
          ((Double.calculateMagnetParameters motorDiameter poleCount magnetWidth
              magnetHeight).rotorInnerDiameter -
            Double.statorOuterDiameter motorDiameter) / 2) ∧
      (1e-90 ≤ motorDiameter → motorDiameter ≤ 22.222 →
        ((Double.calculateMagnetParameters motorDiameter poleCount magnetWidth
              magnetHeight).rotorInnerDiameter -
            Double.statorOuterDiameter motorDiameter) / 2 <
          Double.calculateAirgap motorDiameter) :=
  Double.airgap_fits_of_range motorDiameter poleCount magnetWidth magnetHeight

/-- Witness for claim C29: motor diameter 35, where the airgap fits, and motor
diameter 10, where it exceeds the clearance. -/
theorem airgap_fits_double_witness :
    Double.calculateAirgap 35 ≤
        ((Double.calculateMagnetParameters 35 22 10 15).rotorInnerDiameter -
          Double.statorOuterDiameter 35) / 2 ∧
      ((Double.calculateMagnetParameters 10 22 10 15).rotorInnerDiameter -
          Double.statorOuterDiameter 10) / 2 < Double.calculateAirgap 10 :=
  ⟨(airgap_fits_double 35 22 10 15).1 (by decide!) (by decide!),
    (airgap_fits_double 10 22 10 15).2 (by decide!) (by decide!)⟩

end BLDC
